import Mathlib

/-!
# FASTBuild distribution client: a shallow embedding of `Client.cpp`

The definitions below transcribe `Code/Tools/FBuild/FBuildCore/Protocol/Client.cpp`
(and the declarations of `Client.h` / `Protocol.h` it relies on) as pure functions,
followed by the settings file of the worker (`FBuildWorker/Worker/WorkerSettings.cpp`),
the `-workercmdflag` branch of the command line (`FBuildCore/FBuildOptions.cpp`), the
return codes of the program entry (`FBuildApp/Main.cpp`), the idle smoothing and the
process tracking of the worker (`FBuildWorker/Worker/IdleDetection.cpp`) and the quote
stripping of `FBuildCore/Helpers/Args.cpp`.

Conventions of the embedding:

* a member function that mutates a `ServerState` or the `Client` becomes a function
  returning the new record together with the list of externally visible calls it
  made, in program order (`Effect`);
* answers of external collaborators (job queue, connection pool, file system, clock,
  random generator) are explicit arguments;
* `uint32_t` counters are naturals reduced modulo `2^32` where the code can wrap;
* time is an integer number of milliseconds; `Timer` keeps its start instant;
* diagnostic logging (`DIST_INFO`, `FLOG_BUILD`, `FLOG_ERROR`, `PROTOCOL_DEBUG`) has no
  influence on state or on the recorded calls and is left out;
* every function body that runs under `m_ServerListMutex` / `ServerState::m_Mutex` is
  one atomic step.
-/

namespace FBuild

/-! ## Data model -/

/-- Handle of a live connection inside the TCP connection pool. -/
abbrev ConnectionInfo := Nat

/-- Modelled from the spec: `Core/Time/Timer.h` is not among the sources. A timer keeps
the instant at which it was started; `Start` stores the current instant (optionally moved
back by an offset) and `GetElapsed` is the distance from that instant to now.
Instants and durations are in milliseconds. -/
structure Timer where
  m_StartTime : Int
deriving DecidableEq, Repr

/-- Timer start, as in `Timer::Start( float time = 0.0f )`: restart at `now`, pretending
that `offsetMs` milliseconds have already elapsed. -/
def Timer.Start (now : Int) (offsetMs : Int) : Timer :=
  { m_StartTime := now - offsetMs }

/-- Timer reading, as in `Timer::GetElapsed()`, in milliseconds. -/
def Timer.GetElapsed (t : Timer) (now : Int) : Int :=
  now - t.m_StartTime

/-- Compile job as far as the client looks into it (`Job`, its `Node` / `ObjectNode` and the
compiler's `ToolManifest`): identifier, node name, number of system errors so far and the
properties of the node consulted by `Client::Process( MsgJobResult )`. -/
structure Job where
  m_JobId : Nat
  nodeName : String
  m_SystemErrorCount : Nat := 0
  toolId : Nat := 1
  isUsingPDB : Bool := false
  pdbName : String := ""
  isUsingStaticAnalysisMSVC : Bool := false
  nativeAnalysisXMLPath : String := ""
  shouldUseCache : Bool := false
  isMSVC : Bool := false
  isClang : Bool := false
  isGCC : Bool := false
  warningsAsErrorsMSVC : Bool := false
  warningsAsErrorsClangGCC : Bool := false
  messages : List String := []
deriving DecidableEq, Repr

/-- Modelled from the spec: `Job::OnSystemError` lives in `WorkerPool/Job.h`, which is not
among the sources; it increments the job's system-error count. -/
def Job.OnSystemError (j : Job) : Job :=
  { j with m_SystemErrorCount := j.m_SystemErrorCount + 1 }

/-- Job accessor `Job::GetSystemErrorCount`. -/
def Job.GetSystemErrorCount (j : Job) : Nat := j.m_SystemErrorCount

/-- Job setter `Job::SetMessages`. -/
def Job.SetMessages (j : Job) (msgs : List String) : Job :=
  { j with messages := msgs }

/-- Message tags of `Protocol::MessageType`. -/
inductive MessageType
  | MSG_CONNECTION
  | MSG_STATUS
  | MSG_REQUEST_JOB
  | MSG_NO_JOB_AVAILABLE
  | MSG_JOB
  | MSG_JOB_RESULT
  | MSG_REQUEST_MANIFEST
  | MSG_MANIFEST
  | MSG_REQUEST_FILE
  | MSG_FILE
  | MSG_REQUEST_SERVER_INFO
  | MSG_SERVER_INFO
  | MSG_SET_MODE
  | MSG_ADD_BLOCKING_PROCESS
  | MSG_REMOVE_BLOCKING_PROCESS
  | unknown (tag : Nat)
deriving DecidableEq, Repr

/-- Numeric value of a message tag (`enum MessageType`). -/
def MessageType.toNat : MessageType → Nat
  | .MSG_CONNECTION => 1
  | .MSG_STATUS => 2
  | .MSG_REQUEST_JOB => 3
  | .MSG_NO_JOB_AVAILABLE => 4
  | .MSG_JOB => 5
  | .MSG_JOB_RESULT => 6
  | .MSG_REQUEST_MANIFEST => 7
  | .MSG_MANIFEST => 8
  | .MSG_REQUEST_FILE => 9
  | .MSG_FILE => 10
  | .MSG_REQUEST_SERVER_INFO => 11
  | .MSG_SERVER_INFO => 12
  | .MSG_SET_MODE => 13
  | .MSG_ADD_BLOCKING_PROCESS => 14
  | .MSG_REMOVE_BLOCKING_PROCESS => 15
  | .unknown tag => tag

/-- Single-precision value carried opaquely: the embedding never computes with the two
CPU-usage floats, it only hands them to the formatting collaborators in `FloatEnv`. -/
abbrev F32 := Nat

/-- Messages the client sends (`Protocol::Msg*` constructed in `Client.cpp`). -/
inductive OutMsg
  | MsgConnection (numJobsAvailable : Nat)
  | MsgStatus (numJobsAvailable : Nat)
  | MsgNoJobAvailable
  | MsgJob (toolId : Nat)
  | MsgManifest (toolId : Nat)
  | MsgFile (toolId : Nat) (fileId : Nat)
  | MsgRequestServerInfo (detailsLevel : Nat)
  | MsgSetMode (mode : Nat) (gracePeriod : Nat)
  | MsgAddBlockingProcess (pid : Nat) (gracePeriod : Nat)
  | MsgRemoveBlockingProcess (pid : Nat)
deriving DecidableEq, Repr

/-- Scalars of a received `Protocol::MsgServerInfo`. -/
structure MsgServerInfo where
  m_Mode : Nat
  m_NumClients : Nat
  m_NumCPUTotal : Nat
  m_NumCPUAvailable : Nat
  m_NumCPUBusy : Nat
  m_NumBlockingProcesses : Nat
  m_CPUUsageFASTBuild : F32
  m_CPUUsageTotal : F32
deriving DecidableEq, Repr

/-- Header of a received message as kept in `ServerState::m_CurrentMessage`
(`Protocol::IMessage` plus the fields of the concrete message the client reads). -/
structure IMessage where
  m_MsgType : MessageType
  m_HasPayload : Bool
  toolId : Nat := 0
  fileId : Nat := 0
  serverInfo : Option MsgServerInfo := none
deriving DecidableEq, Repr

/-- Per-worker record `Client::ServerState`. The mutex is not represented. -/
structure ServerState where
  m_Connection : Option ConnectionInfo := none
  m_RemoteName : String := ""
  m_CurrentMessage : Option IMessage := none
  m_DelayTimer : Timer
  m_NumJobsAvailable : Nat := 0
  m_Jobs : List Job := []
  m_BuildJobsEnabled : Bool := false
  m_ControlEnabled : Bool := false
  m_ControlPendingSend : Bool := false
  m_ControlPendingResponse : Bool := false
  m_ControlSuccess : Bool := false
  m_ControlFailure : Bool := false
  m_InfoTimeStamp : Int := 0
  m_InfoMode : Nat := 0
  m_InfoNumClients : Nat := 0
  m_InfoNumCPUTotal : Nat := 0
  m_InfoNumCPUIdle : Nat := 0
  m_InfoNumCPUBusy : Nat := 0
  m_InfoNumBlockingProcesses : Nat := 0
  m_InfoCPUUsageFASTBuild : F32 := 0
  m_InfoCPUUsageTotal : F32 := 0
  m_InfoWorkerIdle : List Bool := []
  m_InfoWorkerBusy : List Bool := []
  m_InfoHostNames : List String := []
  m_InfoJobStatus : List String := []
deriving DecidableEq, Repr

/-- Externally visible calls made by the client, recorded in program order. The last
argument of `connect` stands for the `ServerState` pointer handed to `Connect` as user
data: it is the index of that entry in the table. -/
inductive Effect
  | monitor (line : String)
  | output (text : String)
  | returnUnfinishedDistributableJob (job : Job)
  | getDistributableJobToProcess
  | onReturnRemoteJob (jobId : Nat)
  | finishedProcessingJob (job : Job) (result : Bool)
  | dumpOutput (text : String)
  | ensurePathExistsForFile (fileName : String)
  | writeFileToDisk (fileName : String) (index : Nat)
  | recordStampFromBuiltFile (job : Job)
  | setLastBuildTime (job : Job) (buildTime : Nat)
  | writeToCache (job : Job)
  | handleWarningsMSVC (job : Job)
  | handleWarningsClangGCC (job : Job)
  | getRandIndex (size : Nat)
  | connect (worker : String) (port : Nat) (timeoutMS : Nat) (userData : Nat)
  | send (connection : ConnectionInfo) (msg : OutMsg) (withPayload : Bool)
  | disconnect (connection : ConnectionInfo)
  | sleep (ms : Nat)
deriving DecidableEq, Repr

/-! ## `Client::OnDisconnected` -/

/-- Monitor line written for a job that was in flight when its worker disconnected. -/
def finishJobTimeoutLine (remoteName : String) (job : Job) : String :=
  "FINISH_JOB TIMEOUT " ++ remoteName ++ " \"" ++ job.nodeName ++ "\" \n"

/-- Loop `while ( it != end )` of `Client::OnDisconnected` over `ss->m_Jobs`. -/
def Client.OnDisconnected.loop (remoteName : String) : List Job → List Effect
  | [] => []
  | job :: rest =>
      Effect.monitor (finishJobTimeoutLine remoteName job)
        :: Effect.returnUnfinishedDistributableJob job
        :: Client.OnDisconnected.loop remoteName rest

/-- Callback `Client::OnDisconnected` on the `ServerState` attached to the connection. -/
def Client.OnDisconnected (ss : ServerState) : ServerState × List Effect :=
  let effects := if ss.m_Jobs.isEmpty = false
    then Client.OnDisconnected.loop ss.m_RemoteName ss.m_Jobs
    else []
  let ss1 := if ss.m_Jobs.isEmpty = false then { ss with m_Jobs := [] } else ss
  ({ ss1 with m_RemoteName := "", m_Connection := none, m_CurrentMessage := none }, effects)

/-- Jobs handed back to the queue by a run of effects, in order. -/
def returnedJobs : List Effect → List Job
  | [] => []
  | Effect.returnUnfinishedDistributableJob job :: rest => job :: returnedJobs rest
  | _ :: rest => returnedJobs rest

/-- Monitor lines written by a run of effects, in order. -/
def monitorLines : List Effect → List String
  | [] => []
  | Effect.monitor line :: rest => line :: monitorLines rest
  | _ :: rest => monitorLines rest

/-! ## The client, its constructor and the distribution loop -/

/-- Constant `CONNECTION_REATTEMPT_DELAY_TIME ( 10.0f )`, in milliseconds. -/
def CONNECTION_REATTEMPT_DELAY_TIME : Int := 10000

/-- Constant `CLIENT_STATUS_UPDATE_FREQUENCY_SECONDS ( 0.1f )`, in milliseconds. -/
def CLIENT_STATUS_UPDATE_FREQUENCY : Int := 100

/-- Constant `SYSTEM_ERROR_ATTEMPT_COUNT ( 3 )`. -/
def SYSTEM_ERROR_ATTEMPT_COUNT : Nat := 3

/-- Range of a `uint32_t`. -/
def U32 : Nat := 4294967296

/-- Atomic increment `AtomicIncU32` on a `uint32_t`. -/
def AtomicIncU32 (x : Nat) : Nat := (x + 1) % U32

/-- Atomic decrement `AtomicDecU32` on a `uint32_t` (wraps below zero). -/
def AtomicDecU32 (x : Nat) : Nat := (x + (U32 - 1)) % U32

/-- Modelled from the spec: `Protocol.cpp` (the message constructors) is not among the
sources; per the message table only Job, Manifest and File carry a payload among the
messages the client sends. -/
def OutMsg.HasPayload : OutMsg → Bool
  | .MsgJob _ => true
  | .MsgManifest _ => true
  | .MsgFile _ _ => true
  | _ => false

/-- State of `class Client` (thread handle and mutexes are not represented). -/
structure Client where
  m_WorkerList : List String
  m_ShouldExit : Bool := false
  m_DetailedLogging : Bool := false
  m_StatusUpdateTimer : Timer
  m_ControlPendingSendCounter : Nat := 0
  m_ControlPendingReceiveCounter : Nat := 0
  m_ControlMessage : Option OutMsg := none
  m_ControlMessageExpectResponse : Bool := false
  m_ServerList : List ServerState
  m_WorkerConnectionLimit : Nat
  m_Port : Nat
deriving DecidableEq, Repr

/-- Constructor `Client::ServerState::ServerState()`; the delay timer is started as if
999 seconds had already elapsed. -/
def ServerState.new (now : Int) : ServerState :=
  { m_DelayTimer := Timer.Start now 999000 }

/-- Constructor loop appending the control workers that are not yet in `m_WorkerList`. -/
def Client.appendControlWorkers (workerList : List String) : List String → List String
  | [] => workerList
  | worker :: rest =>
      if worker ∈ workerList then Client.appendControlWorkers workerList rest
      else Client.appendControlWorkers (workerList ++ [worker]) rest

/-- Constructor loop setting the build / control flags of entry `i`, `i + 1`, ... -/
def Client.initServerList (now : Int) (firstControlOnlyWorker : Nat)
    (controlWorkerList : List String) : Nat → List String → List ServerState
  | _, [] => []
  | i, worker :: rest =>
      (if i < firstControlOnlyWorker then
        { ServerState.new now with
          m_BuildJobsEnabled := true
          m_ControlEnabled := decide (worker ∈ controlWorkerList) }
      else
        { ServerState.new now with
          m_BuildJobsEnabled := false
          m_ControlEnabled := true })
      :: Client.initServerList now firstControlOnlyWorker controlWorkerList (i + 1) rest

/-- Constructor `Client::Client`, executed at instant `now`. -/
def Client.new (buildWorkerList controlWorkerList : List String) (port : Nat)
    (workerConnectionLimit : Nat) (detailedLogging : Bool) (now : Int) : Client :=
  let firstControlOnlyWorker := buildWorkerList.length
  let workerList := Client.appendControlWorkers buildWorkerList controlWorkerList
  { m_WorkerList := workerList
    m_ShouldExit := false
    m_DetailedLogging := detailedLogging
    m_StatusUpdateTimer := Timer.Start now 0
    m_ControlPendingSendCounter := 0
    m_ControlPendingReceiveCounter := 0
    m_ControlMessage := none
    m_ControlMessageExpectResponse := false
    m_ServerList :=
      Client.initServerList now firstControlOnlyWorker controlWorkerList 0 workerList
    m_WorkerConnectionLimit := workerConnectionLimit
    m_Port := port }

/-- Scan `for ( size_t j=0; j<numWorkers; j++ )` of `Client::LookForWorkers`: index of
the entry a connection is attempted to, if any. The list argument holds the remaining
values of `j`. -/
def Client.LookForWorkers.scan (serverList : List ServerState) (now : Int)
    (startIndex numWorkers : Nat) : List Nat → Option Nat
  | [] => none
  | j :: js =>
      let i := (j + startIndex) % numWorkers
      match serverList[i]? with
      | none => Client.LookForWorkers.scan serverList now startIndex numWorkers js
      | some ss =>
          if ss.m_Connection.isSome then
            Client.LookForWorkers.scan serverList now startIndex numWorkers js
          else if !ss.m_BuildJobsEnabled && !ss.m_ControlEnabled then
            Client.LookForWorkers.scan serverList now startIndex numWorkers js
          else if ss.m_DelayTimer.GetElapsed now < CONNECTION_REATTEMPT_DELAY_TIME then
            Client.LookForWorkers.scan serverList now startIndex numWorkers js
          else some i

/-- Step 1 of the distribution loop, `Client::LookForWorkers`, run at instant `now`.
`startIndex` is the value returned by `Random::GetRandIndex`, `connectResult` the answer of
`Connect` and `numDistributableJobs` that of
`JobQueue::GetNumDistributableJobsAvailable`, each used only if the call is reached. -/
def Client.LookForWorkers (c : Client) (now : Int) (startIndex : Nat)
    (connectResult : Option ConnectionInfo) (numDistributableJobs : Nat) :
    Client × List Effect :=
  let numWorkers := c.m_ServerList.length
  let numConnections := c.m_ServerList.countP (fun ss => ss.m_Connection.isSome)
  if numConnections ≥ c.m_WorkerConnectionLimit then (c, [])
  else if numConnections = numWorkers then (c, [])
  else
    match Client.LookForWorkers.scan c.m_ServerList now startIndex numWorkers
        (List.range numWorkers) with
    | none => (c, [Effect.getRandIndex numWorkers])
    | some i =>
        match c.m_ServerList[i]? with
        | none => (c, [Effect.getRandIndex numWorkers])
        | some ss =>
            let worker := c.m_WorkerList.getD i ""
            match connectResult with
            | none =>
                let ss1 : ServerState := { ss with m_DelayTimer := Timer.Start now 0 }
                ({ c with m_ServerList := c.m_ServerList.set i ss1 },
                  [Effect.getRandIndex numWorkers, Effect.connect worker c.m_Port 2000 i])
            | some ci =>
                let numJobsAvailable :=
                  if ss.m_BuildJobsEnabled then numDistributableJobs % U32 else 0
                let ss1 : ServerState :=
                  { ss with
                    m_RemoteName := worker
                    m_Connection := some ci
                    m_NumJobsAvailable := numJobsAvailable }
                ({ c with m_ServerList := c.m_ServerList.set i ss1 },
                  [Effect.getRandIndex numWorkers, Effect.connect worker c.m_Port 2000 i,
                   Effect.send ci (OutMsg.MsgConnection numJobsAvailable) false])

/-- Loop of `Client::CommunicateJobAvailability` over the server list. -/
def Client.CommunicateJobAvailability.loop (numJobsAvailable : Nat) :
    List ServerState → List ServerState × List Effect
  | [] => ([], [])
  | ss :: rest =>
      let r := Client.CommunicateJobAvailability.loop numJobsAvailable rest
      match ss.m_Connection with
      | some connection =>
          if ss.m_BuildJobsEnabled && (ss.m_NumJobsAvailable != numJobsAvailable) then
            ({ ss with m_NumJobsAvailable := numJobsAvailable } :: r.1,
              Effect.send connection (OutMsg.MsgStatus numJobsAvailable) false :: r.2)
          else (ss :: r.1, r.2)
      | none => (ss :: r.1, r.2)

/-- Step 2 of the distribution loop, `Client::CommunicateJobAvailability`, at instant
`now`; `numDistributableJobs` is the answer of the job queue. -/
def Client.CommunicateJobAvailability (c : Client) (now : Int)
    (numDistributableJobs : Nat) : Client × List Effect :=
  if c.m_StatusUpdateTimer.GetElapsed now < CLIENT_STATUS_UPDATE_FREQUENCY then (c, [])
  else
    let c1 := { c with m_StatusUpdateTimer := Timer.Start now 0 }
    let numJobsAvailable := numDistributableJobs % U32
    if c1.m_ServerList.isEmpty then (c1, [])
    else
      let r := Client.CommunicateJobAvailability.loop numJobsAvailable c1.m_ServerList
      ({ c1 with m_ServerList := r.1 }, r.2)

/-- Intermediate result of the loops that walk the server list while updating the two
global pending counters. -/
structure ControlLoopState where
  serverList : List ServerState
  sendCounter : Nat
  receiveCounter : Nat
  effects : List Effect := []
deriving DecidableEq, Repr

/-- Loop of `Client::CommunicateCommands` over the server list; `sendCounter` and
`receiveCounter` are the current values of the two global counters. A null
`m_ControlMessage` cannot be met here by the callers in `Client.cpp` (each installs a
message before marking workers); nothing is sent for it. -/
def Client.CommunicateCommands.loop (msg : Option OutMsg) (expectResponse : Bool) :
    List ServerState → Nat → Nat → ControlLoopState
  | [], sendCounter, receiveCounter =>
      { serverList := [], sendCounter := sendCounter, receiveCounter := receiveCounter }
  | ss :: rest, sendCounter, receiveCounter =>
      match ss.m_Connection with
      | some connection =>
          if ss.m_ControlPendingSend then
            let sent : List Effect := match msg with
              | some m => [Effect.send connection m m.HasPayload]
              | none => []
            let ss1 := { ss with m_ControlPendingSend := false }
            let ss2 := if expectResponse then { ss1 with m_ControlPendingResponse := true }
              else { ss1 with m_ControlSuccess := true }
            let receiveCounter1 :=
              if expectResponse then AtomicIncU32 receiveCounter else receiveCounter
            let r := Client.CommunicateCommands.loop msg expectResponse rest
              (AtomicDecU32 sendCounter) receiveCounter1
            { r with serverList := ss2 :: r.serverList, effects := sent ++ r.effects }
          else
            let r := Client.CommunicateCommands.loop msg expectResponse rest
              sendCounter receiveCounter
            { r with serverList := ss :: r.serverList }
      | none =>
          let r := Client.CommunicateCommands.loop msg expectResponse rest
            sendCounter receiveCounter
          { r with serverList := ss :: r.serverList }

/-- Step 3 of the distribution loop, `Client::CommunicateCommands`. -/
def Client.CommunicateCommands (c : Client) : Client × List Effect :=
  if c.m_ControlPendingSendCounter = 0 then (c, [])
  else
    let r := Client.CommunicateCommands.loop c.m_ControlMessage
      c.m_ControlMessageExpectResponse c.m_ServerList
      c.m_ControlPendingSendCounter c.m_ControlPendingReceiveCounter
    ({ c with
        m_ServerList := r.serverList
        m_ControlPendingSendCounter := r.sendCounter
        m_ControlPendingReceiveCounter := r.receiveCounter },
      r.effects)

/-! ## Job dispatch and result handling -/

/-- Modelled from the spec: `Core/Containers/Array.h` is not among the sources;
`Array::FindDerefAndErase( jobId )` removes the first job whose id equals `jobId`, keeping
the order of the others, and removes nothing when there is none. -/
def FindDerefAndErase (jobs : List Job) (jobId : Nat) : List Job :=
  jobs.eraseP (fun job => job.m_JobId == jobId)

/-- Monitor line written when a job is handed to a worker. -/
def startJobLine (remoteName : String) (job : Job) : String :=
  "START_JOB " ++ remoteName ++ " \"" ++ job.nodeName ++ "\" \n"

/-- Handler `Client::Process( connection, MsgRequestJob )` on the entry `ss` of the
connection; `queueJob` is the answer of `JobQueue::GetDistributableJobToProcess( true )`,
used only if the queue is asked. -/
def Client.Process_MsgRequestJob (ss : ServerState) (connection : ConnectionInfo)
    (queueJob : Option Job) : ServerState × List Effect :=
  if !ss.m_BuildJobsEnabled then
    (ss, [Effect.send connection OutMsg.MsgNoJobAvailable false])
  else
    match queueJob with
    | none =>
        (ss, [Effect.getDistributableJobToProcess,
              Effect.send connection OutMsg.MsgNoJobAvailable false])
    | some job =>
        ({ ss with m_Jobs := ss.m_Jobs ++ [job] },
          [Effect.getDistributableJobToProcess,
           Effect.monitor (startJobLine ss.m_RemoteName job),
           Effect.send connection (OutMsg.MsgJob job.toolId) true])

/-- Decoded payload of a `MsgJobResult` (the multi-buffer of output files is consulted
only through `JobResultEnv.extractFile`). -/
structure JobResultPayload where
  jobId : Nat
  name : String
  result : Bool
  systemError : Bool
  messages : List String
  buildTime : Nat

/-- Answers of the collaborators consulted by `Client::Process( MsgJobResult )`:
`JobQueue::OnReturnRemoteJob`, `Node::EnsurePathExistsForFile`,
`MultiBuffer::ExtractFile( index, fileName )`, the cache-write option,
`FLog::IsMonitorEnabled` and `Job::GetMessagesForMonitorLog`. -/
structure JobResultEnv where
  returnedJob : Option Job
  ensurePathExists : Bool := true
  extractFile : Nat → String → Bool := fun _ _ => true
  useCacheWrite : Bool := false
  monitorEnabled : Bool := true
  messagesForMonitorLog : Job → String := fun _ => ""

/-- String test `AString::EndsWith( char )`. -/
def EndsWith (s : String) (ch : Char) : Bool :=
  s.data.getLast? == some ch

/-- Text appended to the failure output after the last permitted system error. -/
def taskFailedText : String :=
  "FBuild: Error: Task failed on " ++ toString SYSTEM_ERROR_ATTEMPT_COUNT
    ++ " different workers\n"

/-- Failure text `PROBLEM: <node>` followed by the worker's messages. -/
def problemText (nodeName : String) (messages : List String) : String :=
  messages.foldl (fun acc m => acc ++ m) ("PROBLEM: " ++ nodeName ++ "\n")

/-- Monitor line written at the end of `Client::Process( MsgJobResult )`. -/
def finishJobLine (result : Bool) (remoteName nodeName msgBuffer : String) : String :=
  "FINISH_JOB " ++ (if result then "SUCCESS" else "ERROR") ++ " " ++ remoteName
    ++ " \"" ++ nodeName ++ "\" \"" ++ msgBuffer ++ "\"\n"

/-- Success branch of `Client::Process( MsgJobResult )`: writes the output files and
returns the final value of `result` with the calls made. -/
def Client.Process_MsgJobResult.writeOutputs (job : Job) (buildTime : Nat)
    (env : JobResultEnv) : Bool × List Effect :=
  let nodeName := job.nodeName
  let e0 := [Effect.ensurePathExistsForFile nodeName]
  let r : Bool × List Effect :=
    if env.ensurePathExists = false then (false, e0)
    else
      -- 1. Object file
      let fileIndex := 0
      let result1 := env.extractFile fileIndex nodeName
      let e1 := e0 ++ [Effect.writeFileToDisk nodeName fileIndex]
      let fileIndex := fileIndex + 1
      -- 2. PDB file (optional)
      let step2 : Bool × List Effect × Nat :=
        if result1 && job.isUsingPDB then
          (env.extractFile fileIndex job.pdbName,
            e1 ++ [Effect.writeFileToDisk job.pdbName fileIndex], fileIndex + 1)
        else (result1, e1, fileIndex)
      -- 3. .nativecodeanalysis.xml (optional)
      let step3 : Bool × List Effect :=
        if step2.1 && job.isUsingStaticAnalysisMSVC then
          (env.extractFile step2.2.2 job.nativeAnalysisXMLPath,
            step2.2.1 ++ [Effect.writeFileToDisk job.nativeAnalysisXMLPath step2.2.2])
        else (step2.1, step2.2.1)
      if step3.1 then
        (true, step3.2 ++ [Effect.recordStampFromBuiltFile job,
            Effect.setLastBuildTime job buildTime]
          ++ (if env.useCacheWrite && job.shouldUseCache then [Effect.writeToCache job]
              else []))
      else (false, step3.2)
  let warnings : List Effect :=
    if job.isMSVC then
      (if job.warningsAsErrorsMSVC = false then [Effect.handleWarningsMSVC job] else [])
    else if job.isClang || job.isGCC then
      (if !job.warningsAsErrorsClangGCC then [Effect.handleWarningsClangGCC job] else [])
    else []
  (r.1, r.2 ++ warnings)

/-- Handler `Client::Process( connection, MsgJobResult, payload )` on the entry `ss` of
the connection. -/
def Client.Process_MsgJobResult (ss : ServerState) (p : JobResultPayload)
    (env : JobResultEnv) : ServerState × List Effect :=
  let ss1 := { ss with m_Jobs := FindDerefAndErase ss.m_Jobs p.jobId }
  let e0 := [Effect.onReturnRemoteJob p.jobId]
  match env.returnedJob with
  | none => (ss1, e0)
  | some job0 =>
      let job := job0.SetMessages p.messages
      let finish (ssF : ServerState) (jobF : Job) (result : Bool)
          (effects : List Effect) : ServerState × List Effect :=
        (ssF, effects
          ++ (if env.monitorEnabled then
                [Effect.monitor (finishJobLine result ssF.m_RemoteName jobF.nodeName
                  (env.messagesForMonitorLog jobF))]
              else [])
          ++ [Effect.finishedProcessingJob jobF result])
      if p.result = true then
        let w := Client.Process_MsgJobResult.writeOutputs job p.buildTime env
        finish ss1 job w.1 (e0 ++ w.2)
      else
        let failureOutput := problemText job.nodeName p.messages
        if p.systemError then
          let ss2 := { ss1 with m_BuildJobsEnabled := false }
          let job1 := job.OnSystemError
          if job1.GetSystemErrorCount < SYSTEM_ERROR_ATTEMPT_COUNT then
            (ss2, e0 ++ [Effect.returnUnfinishedDistributableJob job1])
          else
            let failureOutput1 :=
              if EndsWith failureOutput '\n' = false then failureOutput ++ "\n"
              else failureOutput
            let failureOutput2 := failureOutput1 ++ taskFailedText
            finish ss2 job1 false (e0 ++ [Effect.dumpOutput failureOutput2])
        else
          finish ss1 job false (e0 ++ [Effect.dumpOutput failureOutput])

/-- One `(idle, busy, host name, job status)` quadruple of a `MsgServerInfo` payload. -/
structure CpuDetail where
  idle : Bool := false
  busy : Bool := false
  hostName : String := ""
  jobStatus : String := ""
deriving DecidableEq, Repr

/-- Handler `Client::Process( connection, MsgServerInfo, payload )` on the entry `ss`;
`payload` is `none` when `payloadSize` is zero and `receiveCounter` is the current value of
`m_ControlPendingReceiveCounter`. Reads past the end of a payload that holds fewer than
`numCPUs` quadruples are taken to yield `false` and the empty string. -/
def Client.Process_MsgServerInfo (ss : ServerState) (msg : MsgServerInfo)
    (payload : Option (List CpuDetail)) (now : Int) (receiveCounter : Nat) :
    ServerState × Nat :=
  let ss1 : ServerState :=
    { ss with
      m_InfoTimeStamp := now
      m_InfoMode := msg.m_Mode
      m_InfoNumClients := msg.m_NumClients
      m_InfoNumCPUTotal := msg.m_NumCPUTotal
      m_InfoNumCPUIdle := msg.m_NumCPUAvailable
      m_InfoNumCPUBusy := msg.m_NumCPUBusy
      m_InfoNumBlockingProcesses := msg.m_NumBlockingProcesses
      m_InfoCPUUsageFASTBuild := msg.m_CPUUsageFASTBuild
      m_InfoCPUUsageTotal := msg.m_CPUUsageTotal }
  let ss2 : ServerState :=
    match payload with
    | some details =>
        let cpus := (List.range ss1.m_InfoNumCPUTotal).map (fun i => details.getD i {})
        { ss1 with
          m_InfoWorkerIdle := cpus.map (fun d => d.idle)
          m_InfoWorkerBusy := cpus.map (fun d => d.busy)
          m_InfoHostNames := cpus.map (fun d => d.hostName)
          m_InfoJobStatus := cpus.map (fun d => d.jobStatus) }
    | none =>
        { ss1 with
          m_InfoWorkerIdle := []
          m_InfoWorkerBusy := []
          m_InfoHostNames := []
          m_InfoJobStatus := [] }
  if ss2.m_ControlPendingResponse then
    ({ ss2 with m_ControlPendingResponse := false, m_ControlSuccess := true },
      AtomicDecU32 receiveCounter)
  else (ss2, receiveCounter)

/-! ## Worker control channel -/

/-- First loop of `Client::WorkersSetCommandPending` on one entry: reset the success and
failure flags and drop stale pending flags of a control-enabled entry. -/
def Client.WorkersSetCommandPending.reset (ss : ServerState) : ServerState :=
  if ss.m_ControlEnabled then
    { ss with
      m_ControlFailure := false
      m_ControlSuccess := false
      m_ControlPendingSend := false
      m_ControlPendingResponse := false }
  else ss

/-- Second loop of `Client::WorkersSetCommandPending` (`for worker : workers`): marks the
entries and counts, in a `uint32_t`, how many times a worker was marked. -/
def Client.WorkersSetCommandPending.mark (workerList : List String) :
    List String → List ServerState → Nat → List ServerState × Nat
  | [], serverList, count => (serverList, count)
  | worker :: rest, serverList, count =>
      match workerList.indexOf? worker with
      | none => Client.WorkersSetCommandPending.mark workerList rest serverList count
      | some index =>
          match serverList[index]? with
          | none => Client.WorkersSetCommandPending.mark workerList rest serverList count
          | some ss =>
              if !ss.m_ControlEnabled then
                Client.WorkersSetCommandPending.mark workerList rest serverList count
              else
                Client.WorkersSetCommandPending.mark workerList rest
                  (serverList.set index { ss with m_ControlPendingSend := true })
                  ((count + 1) % U32)

/-- Member `Client::WorkersSetCommandPending( workers )`. -/
def Client.WorkersSetCommandPending (c : Client) (workers : List String) : Client :=
  let serverList1 := c.m_ServerList.map Client.WorkersSetCommandPending.reset
  let r := Client.WorkersSetCommandPending.mark c.m_WorkerList workers serverList1 0
  { c with m_ServerList := r.1, m_ControlPendingSendCounter := r.2 }

/-- Tallies kept by `Client::WorkersGetLastCommandResult`. -/
structure CommandCounts where
  countTimeout : Nat := 0
  countSuccess : Nat := 0
  countFailures : Nat := 0
deriving DecidableEq, Repr

/-- Loop of `Client::WorkersGetLastCommandResult` over the server list, run under the
table mutex once the wait has ended. The three tallies are `int` in the source; the
table is far smaller than `2^31` entries, so they are kept as naturals. -/
def Client.WorkersGetLastCommandResult.loop :
    List ServerState → Nat → Nat → CommandCounts → ControlLoopState × CommandCounts
  | [], sendCounter, receiveCounter, counts =>
      ({ serverList := [], sendCounter := sendCounter, receiveCounter := receiveCounter },
        counts)
  | ss :: rest, sendCounter, receiveCounter, counts =>
      if ss.m_ControlEnabled then
        if ss.m_ControlPendingSend then
          let r := Client.WorkersGetLastCommandResult.loop rest (AtomicDecU32 sendCounter)
            receiveCounter { counts with countTimeout := counts.countTimeout + 1 }
          ({ r.1 with serverList :=
              { ss with m_ControlPendingSend := false, m_ControlFailure := true }
                :: r.1.serverList }, r.2)
        else if ss.m_ControlPendingResponse then
          let r := Client.WorkersGetLastCommandResult.loop rest sendCounter
            (AtomicDecU32 receiveCounter)
            { counts with countTimeout := counts.countTimeout + 1 }
          ({ r.1 with serverList :=
              { ss with m_ControlPendingResponse := false, m_ControlFailure := true }
                :: r.1.serverList }, r.2)
        else if ss.m_ControlFailure then
          let r := Client.WorkersGetLastCommandResult.loop rest sendCounter receiveCounter
            { counts with countFailures := counts.countFailures + 1 }
          ({ r.1 with serverList := ss :: r.1.serverList }, r.2)
        else if ss.m_ControlSuccess then
          let r := Client.WorkersGetLastCommandResult.loop rest sendCounter receiveCounter
            { counts with countSuccess := counts.countSuccess + 1 }
          ({ r.1 with serverList := ss :: r.1.serverList }, r.2)
        else
          let r := Client.WorkersGetLastCommandResult.loop rest sendCounter receiveCounter
            counts
          ({ r.1 with serverList := ss :: r.1.serverList }, r.2)
      else
        let r := Client.WorkersGetLastCommandResult.loop rest sendCounter receiveCounter
          counts
        ({ r.1 with serverList := ss :: r.1.serverList }, r.2)

/-- Member `Client::WorkersGetLastCommandResult`, from the end of its wait loop on: `c` is
the client state found when the wait ends (the wait loop only sleeps and re-reads the two
counters). Returns the new state and the function's return value. -/
def Client.WorkersGetLastCommandResult (c : Client) : Client × Bool :=
  let r := Client.WorkersGetLastCommandResult.loop c.m_ServerList
    c.m_ControlPendingSendCounter c.m_ControlPendingReceiveCounter {}
  ({ c with
      m_ServerList := r.1.serverList
      m_ControlPendingSendCounter := r.1.sendCounter
      m_ControlPendingReceiveCounter := r.1.receiveCounter },
    decide (r.2.countFailures = 0) && decide (r.2.countTimeout = 0))

/-! ## Info display -/

/-- Floating-point collaborators of `Client::WorkersGatherInfo`, which the embedding does
not compute: the `printf` rendering `%f` of a float, the test
`(i+0.5f)*100.0f/20 < m_InfoCPUUsageFASTBuild` and the test
`(i+0.5f)*100.0f/20 < 100.0-(m_InfoCPUUsageTotal-m_InfoCPUUsageFASTBuild)`. -/
structure FloatEnv where
  formatF : F32 → String
  belowWorkerUsage : Nat → F32 → Bool
  belowNonLocalUsage : Nat → F32 → F32 → Bool

/-- Accumulators handed to `Client::WorkersGatherInfo` by pointer; `none` is a null
pointer. -/
structure GatherTotals where
  numWorkerPerMode : Option (List Int) := none
  numCPUTotal : Option Int := none
  numCPUIdle : Option Int := none
  numCPUBusy : Option Int := none
deriving DecidableEq, Repr

/-- Mode name chosen by the `switch` of `Client::WorkersGatherInfo`. -/
def modeStr (mode : Nat) : String :=
  match mode with
  | 0 => "disabled"
  | 1 => "idle"
  | 2 => "dedicated"
  | 3 => "proportional"
  | _ => "unknown"

/-- Conversion `%-N.Ns` of `printf`: at most `n` characters, padded with blanks on the
right to exactly `n`. -/
def fmtS (n : Nat) (s : String) : String :=
  String.mk (s.data.take n ++ List.replicate (n - (s.data.take n).length) ' ')

/-- Conversion `%3.3d` of `printf` for a non-negative index: at least three digits. -/
def fmtD3 (i : Nat) : String :=
  String.mk (List.replicate (3 - (toString i).length) '0') ++ toString i

/-- Replacement `AString::Replace( "\\", "\\\\" )` then `Replace( "\"", "\\\"" )` applied
to a string before it is written between double quotes. -/
def escapeJson (s : String) : String :=
  let step1 := s.data.flatMap (fun ch => if ch = '\\' then ['\\', '\\'] else [ch])
  String.mk (step1.flatMap (fun ch => if ch = '"' then ['\\', '"'] else [ch]))

/-- Border line of the table. -/
def tableBorder : String :=
  "|============|============|================================|====================|\n"

/-- Separator line between two workers of the detailed table. -/
def tableSeparator : String :=
  "|------------|------------|--------------------------------|--------------------|\n"

/-- Increment of `(*numWorkerPerMode)[mode]`, growing the array when needed (new
elements are taken to be zero). -/
def bumpMode (arr : List Int) (mode : Nat) : List Int :=
  let arr1 := if mode ≥ arr.length then arr ++ List.replicate (mode + 1 - arr.length) 0
    else arr
  arr1.set mode (arr1.getD mode 0 + 1)

/-- Accumulation done by `Client::WorkersGatherInfo` for one control-enabled entry whose
`m_ControlSuccess` is set. -/
def Client.WorkersGatherInfo.accumulate (ss : ServerState) (t : GatherTotals) :
    GatherTotals :=
  { numWorkerPerMode := t.numWorkerPerMode.map (fun arr => bumpMode arr ss.m_InfoMode)
    numCPUTotal := t.numCPUTotal.map (fun v => v + ss.m_InfoNumCPUTotal)
    numCPUIdle := t.numCPUIdle.map (fun v => v + ss.m_InfoNumCPUIdle)
    numCPUBusy := t.numCPUBusy.map (fun v => v + ss.m_InfoNumCPUBusy) }

/-- Table rows written for one worker when `displayInfoLevel >= 1`; `count` is the number
of workers reported before this one. -/
def Client.WorkersGatherInfo.tableRows (fe : FloatEnv) (displayInfoLevel : Int)
    (ss : ServerState) (count : Nat) : List String :=
  let displayThreads := min 32 ss.m_InfoNumCPUTotal
  let threadsStr : String :=
    if displayInfoLevel ≥ 2 ∧ ss.m_InfoWorkerBusy.length ≥ displayThreads then
      String.mk ((List.range displayThreads).map (fun i =>
        if ss.m_InfoWorkerBusy.getD i false then '+'
        else if ss.m_InfoWorkerIdle.getD i false then '-' else '*'))
    else
      String.mk ((List.range displayThreads).map (fun i =>
        if i < ss.m_InfoNumCPUBusy then '+'
        else if i < ss.m_InfoNumCPUBusy + ss.m_InfoNumCPUIdle then '-' else '*'))
  let displayPercents := 20
  let percentsStr : String :=
    String.mk ((List.range displayPercents).map (fun i =>
      if fe.belowWorkerUsage i ss.m_InfoCPUUsageFASTBuild then '+'
      else if fe.belowNonLocalUsage i ss.m_InfoCPUUsageTotal ss.m_InfoCPUUsageFASTBuild
        then '-' else '*'))
  (if displayInfoLevel ≥ 2 ∧ count > 0 then [tableSeparator] else [])
  ++ ["|" ++ fmtS 12 ss.m_RemoteName ++ "|" ++ fmtS 12 (modeStr ss.m_InfoMode) ++ "|"
        ++ fmtS 32 threadsStr ++ "|" ++ fmtS 20 percentsStr ++ "|\n"]
  ++ (if displayInfoLevel ≥ 2 ∧ ss.m_InfoJobStatus.length > 0 then
        (List.range ss.m_InfoJobStatus.length).map (fun i =>
          "|         " ++ fmtD3 i ++ "|" ++ fmtS 12 (ss.m_InfoHostNames.getD i "") ++ "|"
            ++ fmtS 53 (ss.m_InfoJobStatus.getD i "") ++ "|\n")
      else [])

/-- Text written for the per-CPU entries `i`, `i + 1`, ... of the `"jobs"` array of one
worker; the list holds the remaining job-status strings. -/
def Client.WorkersGatherInfo.jsonJobs (hostNames : List String) :
    Nat → List String → List String
  | _, [] => []
  | i, status :: rest =>
      (if i > 0 then [",\n            "] else [])
      ++ ["\x7b\"client\":\"" ++ escapeJson (hostNames.getD i "") ++ "\", \"status\":\""
            ++ escapeJson status ++ "\"\x7d"]
      ++ Client.WorkersGatherInfo.jsonJobs hostNames (i + 1) rest

/-- Text written for one worker when `displayInfoLevel <= -1`, one string per `OUTPUT`
call; `count` is the number of workers reported before this one. -/
def Client.WorkersGatherInfo.jsonObject (fe : FloatEnv) (displayInfoLevel : Int)
    (ss : ServerState) (count : Nat) : List String :=
  (if count > 0 then [",\n"] else [])
  ++ ["  \x7b \"worker\":\"" ++ escapeJson ss.m_RemoteName ++ "\", \"mode\":\""
        ++ modeStr ss.m_InfoMode ++ "\"",
      ", \"cpu_total\":" ++ toString ss.m_InfoNumCPUTotal ++ ", \"cpu_busy\":"
        ++ toString ss.m_InfoNumCPUBusy ++ ", \"cpu_idle\":" ++ toString ss.m_InfoNumCPUIdle,
      ", \"cpu_usage_total\":" ++ fe.formatF ss.m_InfoCPUUsageTotal
        ++ ", \"cpu_usage_fastbuild\":" ++ fe.formatF ss.m_InfoCPUUsageFASTBuild]
  ++ (if displayInfoLevel ≤ -2 then
        [",\n    \"jobs\":["]
        ++ Client.WorkersGatherInfo.jsonJobs ss.m_InfoHostNames 0 ss.m_InfoJobStatus
        ++ ["]"]
      else [])
  ++ ["\x7d\n"]

/-- Loop of `Client::WorkersGatherInfo` over the server list: the strings written, the
final accumulators; `count` counts the workers reported so far. -/
def Client.WorkersGatherInfo.loop (fe : FloatEnv) (displayInfoLevel : Int) :
    List ServerState → Nat → GatherTotals → List String × GatherTotals
  | [], _, totals => ([], totals)
  | ss :: rest, count, totals =>
      if ss.m_ControlEnabled && ss.m_ControlSuccess then
        let totals1 := Client.WorkersGatherInfo.accumulate ss totals
        let out : List String :=
          if displayInfoLevel ≥ 1 then
            Client.WorkersGatherInfo.tableRows fe displayInfoLevel ss count
          else if displayInfoLevel ≤ -1 then
            Client.WorkersGatherInfo.jsonObject fe displayInfoLevel ss count
          else []
        let r := Client.WorkersGatherInfo.loop fe displayInfoLevel rest (count + 1) totals1
        (out ++ r.1, r.2)
      else Client.WorkersGatherInfo.loop fe displayInfoLevel rest count totals

/-- Member `Client::WorkersGatherInfo`: the strings passed to `OUTPUT`, in order, and the
accumulators after the call. The server table is only read. -/
def Client.WorkersGatherInfo (c : Client) (fe : FloatEnv) (displayInfoLevel : Int)
    (totals : GatherTotals) : List String × GatherTotals :=
  let header : List String :=
    if displayInfoLevel ≥ 1 then
      [tableBorder,
       "|Worker      |Mode        |Threads +Busy -Idle *Disabled   |% CPU +Worker *Local|\n"]
      ++ (if displayInfoLevel ≥ 2 then
            ["|         CPU|Client      |Status                                               |\n"]
          else [])
      ++ [tableBorder]
    else if displayInfoLevel ≤ -1 then ["[\n"]
    else []
  let r := Client.WorkersGatherInfo.loop fe displayInfoLevel c.m_ServerList 0 totals
  let footer : List String := if displayInfoLevel ≥ 1 then [tableBorder] else []
  (header ++ r.1 ++ footer, r.2)

/-- Whole text written by a sequence of `OUTPUT` calls. -/
def outputText (chunks : List String) : String :=
  chunks.foldl (fun acc s => acc ++ s) ""

/-! ## Atomic steps of the client and their interleavings -/

/-- One atomic step of the client: a pass of one of the three steps of the distribution
thread, a callback of the connection pool on the entry with the given index (the
`ServerState` attached to the connection), or a control operation of a caller thread.
Each carries the answers of the collaborators it consults. -/
inductive Event
  | lookForWorkers (now : Int) (startIndex : Nat) (connectResult : Option ConnectionInfo)
      (numDistributableJobs : Nat)
  | communicateJobAvailability (now : Int) (numDistributableJobs : Nat)
  | communicateCommands
  | onDisconnected (index : Nat)
  | requestJob (index : Nat) (queueJob : Option Job)
  | jobResult (index : Nat) (p : JobResultPayload) (env : JobResultEnv)
  | serverInfo (index : Nat) (msg : MsgServerInfo) (payload : Option (List CpuDetail))
      (now : Int)
  | setControlMessage (msg : OutMsg) (expectResponse : Bool)
  | workersSetCommandPending (workers : List String)
  | workersGetLastCommandResult

/-- Apply a handler to the entry with the given index, if there is one. -/
def onEntry (c : Client) (index : Nat) (f : ServerState → ServerState × List Effect) :
    Client × List Effect :=
  match c.m_ServerList[index]? with
  | none => (c, [])
  | some ss => ({ c with m_ServerList := c.m_ServerList.set index (f ss).1 }, (f ss).2)

/-- Effect of one atomic step on the client. -/
def step (c : Client) : Event → Client × List Effect
  | .lookForWorkers now startIndex connectResult numDistributableJobs =>
      c.LookForWorkers now startIndex connectResult numDistributableJobs
  | .communicateJobAvailability now numDistributableJobs =>
      c.CommunicateJobAvailability now numDistributableJobs
  | .communicateCommands => c.CommunicateCommands
  | .onDisconnected index => onEntry c index Client.OnDisconnected
  | .requestJob index queueJob =>
      onEntry c index (fun ss =>
        Client.Process_MsgRequestJob ss (ss.m_Connection.getD 0) queueJob)
  | .jobResult index p env =>
      onEntry c index (fun ss => Client.Process_MsgJobResult ss p env)
  | .serverInfo index msg payload now =>
      match c.m_ServerList[index]? with
      | none => (c, [])
      | some ss =>
          let r := Client.Process_MsgServerInfo ss msg payload now
            c.m_ControlPendingReceiveCounter
          ({ c with
              m_ServerList := c.m_ServerList.set index r.1
              m_ControlPendingReceiveCounter := r.2 }, [])
  | .setControlMessage msg expectResponse =>
      ({ c with m_ControlMessage := some msg
                m_ControlMessageExpectResponse := expectResponse }, [])
  | .workersSetCommandPending workers => (c.WorkersSetCommandPending workers, [])
  | .workersGetLastCommandResult => (c.WorkersGetLastCommandResult.1, [])

/-- Run a sequence of atomic steps, collecting the calls made. -/
def run (c : Client) : List Event → Client × List Effect
  | [] => (c, [])
  | ev :: rest =>
      let r := step c ev
      let rr := run r.1 rest
      (rr.1, r.2 ++ rr.2)

/-! ## Blocking control operations -/

/-- Member `Client::WorkersDisplayInfo`. `env0` and `env1` are the steps taken by the
other threads while the first and the second `WorkersGetLastCommandResult` wait. Returns
the final client, the return value and the strings written. -/
def Client.WorkersDisplayInfo (c : Client) (workers : List String) (infoLevel : Int)
    (fe : FloatEnv) (env0 env1 : List Event) : Client × Bool × List String :=
  let r0 := (run c env0).1.WorkersGetLastCommandResult
  let c1 := { r0.1 with
    m_ControlMessage := some (OutMsg.MsgRequestServerInfo (infoLevel.natAbs % 256))
    m_ControlMessageExpectResponse := true }
  let c2 := c1.WorkersSetCommandPending workers
  let r1 := (run c2 env1).1.WorkersGetLastCommandResult
  let g := r1.1.WorkersGatherInfo fe infoLevel {}
  (r1.1, r1.2, g.1)

/-- What happens around one round of the loop of `Client::WorkersWaitIdle`: the reading of
`timeoutTimer.GetElapsed()` (milliseconds) at the loop test that precedes the round and
the steps taken by the other threads while `WorkersGetLastCommandResult` waits. -/
structure WaitIdleRound where
  elapsed : Int
  env : List Event

/-- Outcome of `Client::WorkersWaitIdle`: final client, return value, accumulators,
strings written, number of rounds issued, and whether the loop test was seen to fail
(`false` when the recorded rounds ran out first). -/
structure WaitIdleResult where
  client : Client
  res : Bool
  totals : GatherTotals
  output : List String
  rounds : Nat
  exited : Bool

/-- Truth value of the loop test
`res && numCPUBusy > 0 && (timeout == 0 || timeoutTimer.GetElapsed() < timeout)` of
`Client::WorkersWaitIdle`; `timeout` is in seconds, `elapsed` in milliseconds. -/
def Client.WorkersWaitIdle.test (res : Bool) (totals : GatherTotals) (timeout : Int)
    (elapsed : Int) : Bool :=
  res && decide (totals.numCPUBusy.getD 0 > 0)
    && (decide (timeout = 0) || decide (elapsed < timeout * 1000))

/-- Loop `while (res && numCPUBusy > 0 && ...)` of `Client::WorkersWaitIdle`. -/
def Client.WorkersWaitIdle.loop (workers : List String) (timeout : Int) (infoLevel : Int)
    (fe : FloatEnv) : List WaitIdleRound → Client → Bool → GatherTotals → WaitIdleResult
  | [], c, res, totals =>
      { client := c, res := res, totals := totals, output := [], rounds := 0,
        exited := false }
  | r :: rest, c, res, totals =>
      if Client.WorkersWaitIdle.test res totals timeout r.elapsed then
        let c1 := c.WorkersSetCommandPending workers
        let g := (run c1 r.env).1.WorkersGetLastCommandResult
        let info := g.1.WorkersGatherInfo fe infoLevel totals
        let rr := Client.WorkersWaitIdle.loop workers timeout infoLevel fe rest g.1 g.2
          info.2
        { rr with output := info.1 ++ rr.output, rounds := rr.rounds + 1 }
      else
        { client := c, res := res, totals := totals, output := [], rounds := 0,
          exited := true }

/-- Member `Client::WorkersWaitIdle`; `env0` holds the steps of the other threads during
the initial `WorkersGetLastCommandResult`, `rounds` what happens around each round. -/
def Client.WorkersWaitIdle (c : Client) (workers : List String) (timeout : Int)
    (infoLevel : Int) (fe : FloatEnv) (env0 : List Event) (rounds : List WaitIdleRound) :
    WaitIdleResult :=
  let r0 := (run c env0).1.WorkersGetLastCommandResult
  let c1 := { r0.1 with
    m_ControlMessage := some (OutMsg.MsgRequestServerInfo (infoLevel % 256).toNat)
    m_ControlMessageExpectResponse := true }
  Client.WorkersWaitIdle.loop workers timeout infoLevel fe rounds c1 r0.2
    { numWorkerPerMode := some [], numCPUTotal := some 0, numCPUIdle := some 0,
      numCPUBusy := some 1 }

/-! ## Observations on recorded calls and on the server table -/

/-- Jobs handed to `JobQueue::FinishedProcessingJob` by a run of effects, with the result
flag passed, in order. -/
def finishedJobs : List Effect → List (Job × Bool)
  | [] => []
  | Effect.finishedProcessingJob job result :: rest => (job, result) :: finishedJobs rest
  | _ :: rest => finishedJobs rest

/-- Texts handed to `Node::DumpOutput` by a run of effects, in order. -/
def dumpedOutputs : List Effect → List String
  | [] => []
  | Effect.dumpOutput text :: rest => text :: dumpedOutputs rest
  | _ :: rest => dumpedOutputs rest

/-- What the loop of `Client::CommunicateJobAvailability` does to one entry (used to state
facts about the loop entry by entry). -/
def Client.CommunicateJobAvailability.entry (numJobsAvailable : Nat) (ss : ServerState) :
    ServerState :=
  match ss.m_Connection with
  | some _ =>
      if ss.m_BuildJobsEnabled && (ss.m_NumJobsAvailable != numJobsAvailable) then
        { ss with m_NumJobsAvailable := numJobsAvailable }
      else ss
  | none => ss

/-- What the loop of `Client::CommunicateCommands` does to one entry (used to state facts
about the loop entry by entry). -/
def Client.CommunicateCommands.entry (expectResponse : Bool) (ss : ServerState) :
    ServerState :=
  match ss.m_Connection with
  | some _ =>
      if ss.m_ControlPendingSend then
        if expectResponse then
          { ss with m_ControlPendingSend := false, m_ControlPendingResponse := true }
        else { ss with m_ControlPendingSend := false, m_ControlSuccess := true }
      else ss
  | none => ss

/-- What the loop of `Client::WorkersGetLastCommandResult` does to one entry (used to state
facts about the loop entry by entry). -/
def Client.WorkersGetLastCommandResult.entry (ss : ServerState) : ServerState :=
  if ss.m_ControlEnabled then
    if ss.m_ControlPendingSend then
      { ss with m_ControlPendingSend := false, m_ControlFailure := true }
    else if ss.m_ControlPendingResponse then
      { ss with m_ControlPendingResponse := false, m_ControlFailure := true }
    else ss
  else ss

/-- Ids of the jobs in flight, entry after entry, with repetitions. -/
def inFlightIds (serverList : List ServerState) : List Nat :=
  ((serverList.map (fun ss => ss.m_Jobs)).flatten).map (fun job => job.m_JobId)

/-- Events that are neither a connection attempt nor a pool callback on jobs. -/
def Event.isControlOrStatus : Event → Bool
  | .communicateJobAvailability _ _ => true
  | .communicateCommands => true
  | .serverInfo _ _ _ _ => true
  | .setControlMessage _ _ => true
  | .workersSetCommandPending _ => true
  | .workersGetLastCommandResult => true
  | _ => false

/-- Number of occurrences of `jobId` in the in-flight lists of the table, summed over the
entries. -/
def inFlightCount (serverList : List ServerState) (jobId : Nat) : Nat :=
  (serverList.map (fun ss =>
    (ss.m_Jobs.filter (fun job => job.m_JobId == jobId)).length)).sum

/-- Assumption on the job queue along a run: whenever `GetDistributableJobToProcess`
answers a `RequestJob` with a job, that job is in no in-flight list at that moment. -/
def queueHandsOutIdleJobs (c : Client) : List Event → Bool
  | [] => true
  | ev :: rest =>
      (match ev with
        | .requestJob _ (some job) => decide (job.m_JobId ∉ inFlightIds c.m_ServerList)
        | _ => true)
      && queueHandsOutIdleJobs (step c ev).1 rest

/-- Sample run: two workers connect, each takes a job, the first drops its connection
and its job is handed to the second. -/
def C3_events : List Event :=
  [ .lookForWorkers 0 0 (some 1) 2,
    .lookForWorkers 1 1 (some 2) 2,
    .requestJob 0 (some { m_JobId := 10, nodeName := "a.obj" }),
    .requestJob 1 (some { m_JobId := 11, nodeName := "b.obj" }),
    .onDisconnected 0,
    .requestJob 1 (some { m_JobId := 10, nodeName := "a.obj" }),
    .jobResult 1 { jobId := 11, name := "b.obj", result := true, systemError := false,
                   messages := [], buildTime := 3 }
                 { returnedJob := some { m_JobId := 11, nodeName := "b.obj" } } ]

/-- Control-flag discipline of one entry: the two pending flags are not both set, and an
entry that is not control-enabled has neither of them set. -/
def ServerState.controlFlagsOK (ss : ServerState) : Bool :=
  !(ss.m_ControlPendingSend && ss.m_ControlPendingResponse)
  && (ss.m_ControlEnabled || (!ss.m_ControlPendingSend && !ss.m_ControlPendingResponse))

/-- The three fields of an entry the control-flag discipline talks about. -/
def ServerState.controlKey (ss : ServerState) : Bool × Bool × Bool :=
  (ss.m_ControlEnabled, ss.m_ControlPendingSend, ss.m_ControlPendingResponse)

/-- Entries handed to `Connect` by a run of effects (their indices), in order. -/
def connectAttempts : List Effect → List Nat
  | [] => []
  | Effect.connect _ _ _ entry :: rest => entry :: connectAttempts rest
  | _ :: rest => connectAttempts rest

/-- The three tests of the scan of `Client::LookForWorkers` on one entry: it has no
connection, it is build- or control-enabled, and its delay timer has reached
`CONNECTION_REATTEMPT_DELAY_TIME`. -/
def ServerState.eligible (ss : ServerState) (now : Int) : Bool :=
  ss.m_Connection.isNone && (ss.m_BuildJobsEnabled || ss.m_ControlEnabled)
    && !decide (ss.m_DelayTimer.GetElapsed now < CONNECTION_REATTEMPT_DELAY_TIME)

/-- Every `LookForWorkers` pass of the sequence runs less than
`CONNECTION_REATTEMPT_DELAY_TIME` after the instant `t`. -/
def lookupsWithin (t : Int) : List Event → Bool
  | [] => true
  | .lookForWorkers now _ _ _ :: rest =>
      decide (now - t < CONNECTION_REATTEMPT_DELAY_TIME) && lookupsWithin t rest
  | _ :: rest => lookupsWithin t rest

/-- Timer of entry `w` was last started at instant `t`. -/
def timerStartedAt (c : Client) (w : Nat) (t : Int) : Prop :=
  (c.m_ServerList.map (fun ss => ss.m_DelayTimer))[w]? = some { m_StartTime := t }

/-- Sample table for C6: two build workers, none connected yet. -/
def C6_client : Client := Client.new ["w1", "w2"] [] 31264 8 false 0

/-- Sample run for C6: passes at 2 s, 5 s and 9.999 s after the failed attempt, a control
command in between. -/
def C6_events : List Event :=
  [ .lookForWorkers 2000 0 none 3,
    .workersSetCommandPending ["w1"],
    .lookForWorkers 5000 0 (some 4) 3,
    .lookForWorkers 9999 0 none 3 ]

/-- Float collaborators used in the sample evaluations: every float is rendered as
`0.000000` and the CPU bar is all `-`. -/
def sampleFloatEnv : FloatEnv :=
  { formatF := fun _ => "0.000000"
    belowWorkerUsage := fun _ _ => false
    belowNonLocalUsage := fun _ _ _ => true }

/-- Server info of an idle four-CPU worker: no CPU busy. -/
def idleInfo : MsgServerInfo :=
  { m_Mode := 1, m_NumClients := 0, m_NumCPUTotal := 4, m_NumCPUAvailable := 4,
    m_NumCPUBusy := 0, m_NumBlockingProcesses := 0, m_CPUUsageFASTBuild := 0,
    m_CPUUsageTotal := 0 }

/-- Client with the single control worker `w`, connected at instant 0. -/
def connectedControlClient : Client :=
  (run (Client.new [] ["w"] 31264 8 false 0) [.lookForWorkers 0 0 (some 1) 0]).1

/-- Rounds observed for C9: in each of the first two the command is sent and the worker
answers that no CPU is busy, 0.1 s and 0.2 s after the start; the third reading of the
clock is past the 60 s deadline. -/
def C9_rounds : List WaitIdleRound :=
  [ { elapsed := 100, env := [.communicateCommands, .serverInfo 0 idleInfo none 150] },
    { elapsed := 200, env := [.communicateCommands, .serverInfo 0 idleInfo none 250] },
    { elapsed := 60000, env := [] } ]

/-- Sample run for C5: the worker connects, an info request is marked and sent. -/
def C5_events : List Event :=
  [ .lookForWorkers 0 0 (some 1) 0,
    .setControlMessage (.MsgRequestServerInfo 1) true,
    .workersSetCommandPending ["w"],
    .communicateCommands ]

/-- Whether the entry with index `i` passes the three tests of the scan of
`Client::LookForWorkers` at instant `now` (false when there is no such entry). -/
def eligibleAt (serverList : List ServerState) (now : Int) (i : Nat) : Bool :=
  match serverList[i]? with
  | some ss => ss.eligible now
  | none => false

/-- Messages handed to the connection pool by a run of effects, with their connection, in
order. -/
def sentMessages : List Effect → List (ConnectionInfo × OutMsg)
  | [] => []
  | Effect.send connection msg _ :: rest => (connection, msg) :: sentMessages rest
  | _ :: rest => sentMessages rest

/-- Sample table for C19: the single worker `w` is control-only. -/
def controlOnlyClient : Client := Client.new [] ["w"] 31264 8 false 0

/-- Sample table for C19: the single worker `w` is a build worker. -/
def buildOnlyClient : Client := Client.new ["w"] [] 31264 8 false 0

/-- Status message owed to an entry by `Client::CommunicateJobAvailability` for the count
`n`: one for an entry with a live connection, `m_BuildJobsEnabled` set and another
advertised count, none otherwise. -/
def statusOwed (n : Nat) (ss : ServerState) : Option (ConnectionInfo × OutMsg) :=
  match ss.m_Connection with
  | some connection =>
      if ss.m_BuildJobsEnabled = true ∧ ss.m_NumJobsAvailable ≠ n then
        some (connection, OutMsg.MsgStatus n)
      else none
  | none => none

/-! ## Worker settings file (`WorkerSettings.cpp`) -/

/-- One byte of a file, as a natural number below 256. -/
abbrev Byte := Nat

/-- Constant `FBUILDWORKER_SETTINGS_MIN_VERSION ( 1 )`. -/
def FBUILDWORKER_SETTINGS_MIN_VERSION : Int := 1

/-- Constant `FBUILDWORKER_SETTINGS_CURRENT_VERSION ( 4 )`. -/
def FBUILDWORKER_SETTINGS_CURRENT_VERSION : Int := 4

/-- Members of `class WorkerSettings`; `m_Mode` holds the numeric value of the `Mode`
enum and a process name is the sequence of its bytes. -/
structure WorkerSettings where
  m_Mode : Nat
  m_NumCPUsToUse : Nat
  m_StartMinimized : Bool
  m_GracePeriod : Nat
  m_BlockingProcessNames : List (List Byte)
  m_BlockingGracePeriod : Nat
deriving DecidableEq, Repr

/-- Modelled from the spec: `Core/FileIO/IOStream` is not among the sources. A `uint32_t`
is written as four bytes in host order (least significant first). -/
def writeU32 (x : Nat) : List Byte :=
  [x % 256, x / 256 % 256, x / 65536 % 256, x / 16777216 % 256]

/-- Modelled from the spec: `Core/FileIO/IOStream` is not among the sources. Reading a
`uint32_t` takes four bytes; it fails when fewer are left. -/
def readU32 : List Byte → Option (Nat × List Byte)
  | b0 :: b1 :: b2 :: b3 :: rest =>
      some (b0 % 256 + 256 * (b1 % 256) + 65536 * (b2 % 256) + 16777216 * (b3 % 256), rest)
  | _ => none

/-- Modelled from the spec: `Core/FileIO/IOStream` is not among the sources. A `bool` is
written as one byte, 1 or 0. -/
def writeBool (b : Bool) : List Byte := [if b then 1 else 0]

/-- Modelled from the spec: `Core/FileIO/IOStream` is not among the sources. Reading a
`bool` takes one byte, true when it is not zero; it fails at the end of the file. -/
def readBool : List Byte → Option (Bool × List Byte)
  | b :: rest => some (b % 256 != 0, rest)
  | [] => none

/-- Modelled from the spec: `Core/FileIO/IOStream` is not among the sources. A string is
written as its length (`uint32_t`) followed by its bytes. -/
def writeString (s : List Byte) : List Byte := writeU32 s.length ++ s

/-- Modelled from the spec: `Core/FileIO/IOStream` is not among the sources. Reading a
string takes its length and then that many bytes; it fails when the file ends before. -/
def readString (stream : List Byte) : Option (List Byte × List Byte) :=
  match readU32 stream with
  | none => none
  | some (len, rest) =>
      if rest.length < len then none else some (rest.take len, rest.drop len)

/-- Modelled from the spec: `Core/FileIO/IOStream` is not among the sources. A string list
is written as the number of strings (`uint32_t`) followed by the strings in order. -/
def writeStringArray (names : List (List Byte)) : List Byte :=
  writeU32 names.length ++ (names.map writeString).flatten

/-- Loop reading `count` strings one after the other. -/
def readStringArray.loop : Nat → List Byte → Option (List (List Byte) × List Byte)
  | 0, stream => some ([], stream)
  | count + 1, stream =>
      match readString stream with
      | none => none
      | some (s, rest) =>
          match readStringArray.loop count rest with
          | none => none
          | some (names, rest2) => some (s :: names, rest2)

/-- Modelled from the spec: `Core/FileIO/IOStream` is not among the sources. Reading a
string list takes the number of strings and then the strings; the list read replaces the
content of the destination. It fails when the file ends before. -/
def readStringArray (stream : List Byte) : Option (List (List Byte) × List Byte) :=
  match readU32 stream with
  | none => none
  | some (count, rest) => readStringArray.loop count rest

/-- Version byte tested by `WorkerSettings::Load`: `header[ 3 ]` of the zero-initialised
`char header[ 4 ]` after `f.Read( &header, 4 )`, read as a signed char. -/
def settingsVersion (file : List Byte) : Int :=
  if file.getD 3 0 % 256 < 128 then (file.getD 3 0 % 256 : Nat)
  else ((file.getD 3 0 % 256 : Nat) : Int) - 256

/-- Member `WorkerSettings::Load`. `file` is the content of the settings file, `none` when
it cannot be opened. A read that meets the end of the file leaves its destination as it
was and every later read fails too; `uninitMode` is the value of the local `mode`, which
has no initialiser, for the case that its read fails. The function has no return value and
writes no message. -/
def WorkerSettings.Load (s : WorkerSettings) (file : Option (List Byte))
    (uninitMode : Nat) : WorkerSettings :=
  match file with
  | none => s
  | some bytes =>
      if settingsVersion bytes < FBUILDWORKER_SETTINGS_MIN_VERSION
          ∨ settingsVersion bytes > FBUILDWORKER_SETTINGS_CURRENT_VERSION then s
      else
        let st0 := bytes.drop 4
        let r1 := (readU32 st0).getD (uninitMode, [])
        let s1 := { s with m_Mode := r1.1 }
        let r2 := (readU32 r1.2).getD (s1.m_NumCPUsToUse, [])
        let s2 := { s1 with m_NumCPUsToUse := r2.1 }
        let r3 := (readBool r2.2).getD (s2.m_StartMinimized, [])
        let s3 := { s2 with m_StartMinimized := r3.1 }
        if settingsVersion bytes ≥ 4 then
          let r4 := (readU32 r3.2).getD (s3.m_GracePeriod, [])
          let s4 := { s3 with m_GracePeriod := r4.1 }
          let r5 := (readStringArray r4.2).getD (s4.m_BlockingProcessNames, [])
          let s5 := { s4 with m_BlockingProcessNames := r5.1 }
          let r6 := (readU32 r5.2).getD (s5.m_BlockingGracePeriod, [])
          { s5 with m_BlockingGracePeriod := r6.1 }
        else s3

/-- Member `WorkerSettings::Save`: the bytes written to the settings file, `none` when the
file cannot be opened for writing (the failure message is then shown). Writes to an open
file are taken to succeed. -/
def WorkerSettings.Save (s : WorkerSettings) (openOk : Bool) : Option (List Byte) :=
  if openOk then
    some ([70, 87, 83] ++ [4]
      ++ writeU32 s.m_Mode
      ++ writeU32 s.m_NumCPUsToUse
      ++ writeBool s.m_StartMinimized
      ++ writeU32 s.m_GracePeriod
      ++ writeStringArray s.m_BlockingProcessNames
      ++ writeU32 s.m_BlockingGracePeriod)
  else none

/-- Member initialisers and first statements of `WorkerSettings::WorkerSettings`, before
the call of `Load`: mode `WHEN_IDLE`, half of the processors and at least one. -/
def WorkerSettings.init (numProcessors : Nat) : WorkerSettings :=
  { m_Mode := 1
    m_NumCPUsToUse := max 1 (numProcessors % U32 / 2)
    m_StartMinimized := false
    m_GracePeriod := 0
    m_BlockingProcessNames := []
    m_BlockingGracePeriod := 30 }

/-- Constructor `WorkerSettings::WorkerSettings`; `numProcessors` is the answer of
`Env::GetNumProcessors`. -/
def WorkerSettings.new (numProcessors : Nat) (file : Option (List Byte))
    (uninitMode : Nat) : WorkerSettings :=
  let s := (WorkerSettings.init numProcessors).Load file uninitMode
  { s with m_NumCPUsToUse := min (numProcessors % U32) s.m_NumCPUsToUse }

/-- Values a settings state can hold: the four `uint32_t` members, the number of names and
the length of each name fit 32 bits. -/
def WorkerSettings.wellFormed (s : WorkerSettings) : Prop :=
  s.m_Mode < U32 ∧ s.m_NumCPUsToUse < U32 ∧ s.m_GracePeriod < U32
    ∧ s.m_BlockingGracePeriod < U32 ∧ s.m_BlockingProcessNames.length < U32
    ∧ ∀ name ∈ s.m_BlockingProcessNames, name.length < U32

/-- Sample settings state with two process names (`a.exe` and `b`). -/
def sampleSettings : WorkerSettings :=
  { m_Mode := 3
    m_NumCPUsToUse := 6
    m_StartMinimized := true
    m_GracePeriod := 300
    m_BlockingProcessNames := [[97, 46, 101, 120, 101], [98]]
    m_BlockingGracePeriod := 70000 }

/-- Version-1 settings file holding mode 2, three CPUs and start-minimized. -/
def sampleV1File : List Byte := [70, 87, 83, 1] ++ writeU32 2 ++ writeU32 3 ++ writeBool true

/-! ## Command line (`FBuildOptions.cpp`) -/

/-- Result values `FBuildOptions::OptionsResult`. -/
inductive OptionsResult
  | OPTIONS_OK
  | OPTIONS_OK_AND_QUIT
  | OPTIONS_ERROR
deriving DecidableEq, Repr

/-- Members of `FBuildOptions` and locals of `ProcessCommandLine` that the argument loop
touches on the paths embedded here. -/
structure ParseState where
  m_Args : String := ""
  m_Targets : List String := []
  m_WorkerCommandIgnoreFailures : Bool := false
  m_WorkerCommandGracePeriod : Int := 0
  m_WorkerCommandWaitTimeout : Nat := 0
  buildNeeded : Bool := false
deriving DecidableEq, Repr

/-- Outcome of one branch of the argument loop: `continue` with the index `i` reached, or
`return` of a result after the lines written with `OUTPUT`. -/
inductive BranchResult
  | next (st : ParseState) (i : Nat)
  | ret (r : OptionsResult) (st : ParseState) (output : List String)
deriving DecidableEq, Repr

/-- The two `OUTPUT` lines of a rejected `-workercmdflag` argument. -/
def optionErrorLines (what thisArg programName : String) : List String :=
  ["FBuild: Error: " ++ what ++ " for '" ++ thisArg ++ "' argument\n",
   "Try \"" ++ programName ++ " -help\"\n"]

/-- Branch `else if ( thisArg == "-workercmdflag" )` of the argument loop of
`FBuildOptions::ProcessCommandLine`, entered with loop index `i`. `scanI` and `scanU` are
`sscanf` with `%i` and `%u`: the number converted, `none` when no conversion is made and
the member keeps its value. -/
def ProcessCommandLine.workercmdflag (scanI : String → Option Int)
    (scanU : String → Option Nat) (programName : String) (argv : List String) (i : Nat)
    (st : ParseState) : BranchResult :=
  let argc := argv.length
  let thisArg := argv.getD i ""
  let flagIndex := i + 1
  if flagIndex ≥ argc then
    .ret .OPTIONS_ERROR st (optionErrorLines "Missing <cmd>" thisArg programName)
  else
    let flagStr := argv.getD flagIndex ""
    let i1 := i + 1
    if flagStr = "nofailure" then
      .next { st with m_WorkerCommandIgnoreFailures := true } i1
    else if flagStr = "grace" ∨ flagStr = "wait" then
      let valIndex := i1 + 2
      if valIndex ≥ argc then
        .ret .OPTIONS_ERROR st (optionErrorLines "Missing <value>" thisArg programName)
      else
        let valStr := argv.getD valIndex ""
        let i2 := i1 + 1
        if flagStr = "grace" then
          .next { st with m_WorkerCommandGracePeriod :=
                    (scanI valStr).getD st.m_WorkerCommandGracePeriod } i2
        else
          .next { st with m_WorkerCommandWaitTimeout :=
                    (scanU valStr).getD st.m_WorkerCommandWaitTimeout } i2
    else
      .ret .OPTIONS_ERROR st (optionErrorLines "Unrecognized <flag>" thisArg programName)

/-- Argument loop `for ( int32_t i=1; i<argc; ++i )` of `FBuildOptions::ProcessCommandLine`,
from index `i`. The `-workercmdflag` branch and the target branch are embedded; every other
option is left to `otherOption`, which is given the argument, the argument vector, the
index and the state. The result is `none` when `fuel` iterations do not reach the end of
the arguments; `argc` iterations always do when `otherOption` does not move the index
back. -/
def ProcessCommandLine.loop (otherOption : String → List String → Nat → ParseState → BranchResult)
    (scanI : String → Option Int) (scanU : String → Option Nat) (programName : String)
    (argv : List String) : Nat → Nat → ParseState → Option BranchResult
  | 0, i, st => if i < argv.length then none else some (.next st i)
  | fuel + 1, i, st =>
      if i < argv.length then
        let thisArg := argv.getD i ""
        let st1 := { st with m_Args :=
          (if st.m_Args.isEmpty = false then st.m_Args ++ " " else st.m_Args) ++ thisArg }
        let branch :=
          if thisArg.data.head? = some '-' then
            if thisArg = "-workercmdflag" then
              ProcessCommandLine.workercmdflag scanI scanU programName argv i st1
            else otherOption thisArg argv i st1
          else
            .next { st1 with m_Targets := st1.m_Targets ++ [thisArg], buildNeeded := true } i
        match branch with
        | .next st2 i2 =>
            ProcessCommandLine.loop otherOption scanI scanU programName argv fuel (i2 + 1) st2
        | .ret r st2 output => some (.ret r st2 output)
      else some (.next st i)

/-- Sample `sscanf( "%i" )`: the decimal numbers used in the samples. -/
def sampleScanI (s : String) : Option Int :=
  if s = "5" then some 5 else if s = "7" then some 7 else none

/-- Sample `sscanf( "%u" )`: the decimal numbers used in the samples. -/
def sampleScanU (s : String) : Option Nat :=
  if s = "5" then some 5 else if s = "7" then some 7 else none

/-- Sample for the options not embedded: every such option is rejected. -/
def sampleOtherOption (thisArg : String) (_argv : List String) (_i : Nat) (st : ParseState) :
    BranchResult :=
  .ret .OPTIONS_ERROR st ["FBuild: Error: Unknown argument '" ++ thisArg ++ "'\n"]

/-! ## Program entry (`Main.cpp`) -/

/-- Values of `FBuildOptions::WrapperMode`. -/
inductive WrapperMode
  | WRAPPER_MODE_NONE
  | WRAPPER_MODE_MAIN_PROCESS
  | WRAPPER_MODE_INTERMEDIATE_PROCESS
  | WRAPPER_MODE_FINAL_PROCESS
deriving DecidableEq, Repr

/-- Return code `FBUILD_OK`. -/
def FBUILD_OK : Int := 0
/-- Return code `FBUILD_BUILD_FAILED`. -/
def FBUILD_BUILD_FAILED : Int := -1
/-- Return code `FBUILD_ERROR_LOADING_BFF`. -/
def FBUILD_ERROR_LOADING_BFF : Int := -2
/-- Return code `FBUILD_BAD_ARGS`. -/
def FBUILD_BAD_ARGS : Int := -3
/-- Return code `FBUILD_ALREADY_RUNNING`. -/
def FBUILD_ALREADY_RUNNING : Int := -4
/-- Return code `FBUILD_FAILED_TO_SPAWN_WRAPPER`. -/
def FBUILD_FAILED_TO_SPAWN_WRAPPER : Int := -5
/-- Return code `FBUILD_FAILED_TO_SPAWN_WRAPPER_FINAL`. -/
def FBUILD_FAILED_TO_SPAWN_WRAPPER_FINAL : Int := -6
/-- Return code `FBUILD_WRAPPER_CRASHED`. -/
def FBUILD_WRAPPER_CRASHED : Int := -7

/-- What `Main` meets outside itself during one run: the result of
`ProcessCommandLine` and the options it leaves, the answers of the two system mutexes, of
the stop-build flag, of the spawned processes and of the shared memory, and the results of
the build steps. -/
structure MainEnv where
  /-- Result of `options.ProcessCommandLine( argc, argv )`. -/
  optionsResult : OptionsResult := .OPTIONS_OK
  m_WrapperMode : WrapperMode := .WRAPPER_MODE_NONE
  m_PerformBuild : Bool := true
  m_WaitMode : Bool := false
  workingDir : String := ""
  /-- Answer of the first `mainProcess.TryLock()`. -/
  mainTryLock : Bool := true
  /-- Rounds of the `-wait` loop: the answer of `mainProcess.TryLock()` in the loop test
  and, for a refusal, the value of `FBuild::GetStopBuild()` after the sleep. -/
  waitRounds : List (Bool × Bool) := []
  /-- Answer of `p.Spawn` in `WrapperMainProcess`. -/
  spawnIntermediate : Bool := true
  /-- Value of `p.WaitForExit()` in `WrapperMainProcess`. -/
  intermediateExit : Int := 0
  /-- Number of `Thread::Sleep( 1 )` before `sd->Started` is seen set, `none` when it
  never is. -/
  startedAfter : Option Nat := some 0
  /-- Number of `Thread::Sleep( 1 )` before `finalProcess.TryLock()` succeeds in
  `WrapperMainProcess`, `none` when it never does. -/
  finalReleasedAfter : Option Nat := some 0
  /-- Value of `sd->ReturnCode` read at the end of `WrapperMainProcess`. -/
  sharedReturnCode : Int := 0
  /-- Answer of `p.Spawn` in `WrapperIntermediateProcess`. -/
  spawnFinal : Bool := true
  /-- Rounds of the loop of the final process: the answer of `finalProcess.TryLock()` and,
  for a refusal, the answer of `mainProcess.TryLock()`. -/
  finalRounds : List (Bool × Bool) := [(true, false)]
  /-- Whether `g_SharedMemory.GetPtr()` is not null in the final process. -/
  sharedMemoryPtr : Bool := true
  /-- Answer of `fBuild.Initialize()`. -/
  initializeOk : Bool := true
  /-- Whether `options.m_WorkerCommands` is not empty. -/
  hasWorkerCommands : Bool := false
  /-- Value of `!result && !options.m_WorkerCommandIgnoreFailures` after the loop over the
  worker commands. -/
  workerCommandsFailed : Bool := false
  /-- Value of `result` after the exclusive actions. -/
  actionResult : Bool := true
deriving DecidableEq, Repr

/-- What a run of `Main` does that can be seen from outside. -/
inductive MainEffect
  | output (text : String)
  | sleep (ms : Nat)
  | setSharedStarted
  | setSharedReturnCode (code : Int)
deriving DecidableEq, Repr

/-- How a waiting loop of `Main` ends: it goes on past the loop, it returns a code, or it
is still waiting when the recorded rounds run out. -/
inductive LoopOutcome
  | proceed
  | returned (code : Int)
  | waiting
deriving DecidableEq, Repr

/-- Function `WrapperIntermediateProcess`. -/
def WrapperIntermediateProcess (e : MainEnv) : Int :=
  if e.spawnFinal = false then FBUILD_FAILED_TO_SPAWN_WRAPPER_FINAL else FBUILD_OK

/-- Function `WrapperMainProcess`; the result is `none` when one of its two waiting loops
never ends. -/
def WrapperMainProcess (e : MainEnv) : Option Int × List MainEffect :=
  if e.spawnIntermediate = false then (some FBUILD_FAILED_TO_SPAWN_WRAPPER, [])
  else
    let result := e.intermediateExit
    if result = FBUILD_FAILED_TO_SPAWN_WRAPPER_FINAL then
      (some result,
        [.output "FBuild: Error: Intermediate process failed to spawn the final process.\n"])
    else if result ≠ FBUILD_OK then
      (some result,
        [.output ("FBuild: Error: Intermediate process failed (" ++ toString result ++ ").\n")])
    else
      match e.startedAfter with
      | none => (none, [])
      | some n =>
          match e.finalReleasedAfter with
          | none => (none, List.replicate n (.sleep 1))
          | some m => (some e.sharedReturnCode, List.replicate (n + m) (.sleep 1))

/-- Loop `while( mainProcess.TryLock() == false )` of `Main`, taken under `-wait`. -/
def Main.waitLoop : List (Bool × Bool) → LoopOutcome × List MainEffect
  | [] => (.waiting, [])
  | (tryLock, stop) :: rest =>
      if tryLock then (.proceed, [])
      else if stop then (.returned FBUILD_BUILD_FAILED, [.sleep 1000])
      else ((Main.waitLoop rest).1, .sleep 1000 :: (Main.waitLoop rest).2)

/-- Test of `Main` that the main-process lock is needed:
`wrapperMode == WRAPPER_MODE_MAIN_PROCESS || ( wrapperMode == WRAPPER_MODE_NONE && m_PerformBuild )`. -/
def Main.needsLock (e : MainEnv) : Bool :=
  decide (e.m_WrapperMode = .WRAPPER_MODE_MAIN_PROCESS)
    || (decide (e.m_WrapperMode = .WRAPPER_MODE_NONE) && e.m_PerformBuild)

/-- Section of `Main` that makes sure only one instance runs at a time. -/
def Main.lockSection (e : MainEnv) : LoopOutcome × List MainEffect :=
  if Main.needsLock e then
    if e.mainTryLock = false then
      if e.m_WaitMode = false then
        (.returned FBUILD_ALREADY_RUNNING,
          [.output ("FBuild: Error: Another instance of FASTBuild is already running in '"
            ++ e.workingDir ++ "'.\n")])
      else
        ((Main.waitLoop e.waitRounds).1,
          .output "FBuild: Waiting for another FASTBuild to terminate due to -wait option.\n"
            :: (Main.waitLoop e.waitRounds).2)
    else (.proceed, [])
  else (.proceed, [])

/-- Loop `while ( !finalProcess.TryLock() )` of the final process in `Main`. -/
def Main.finalLoop : List (Bool × Bool) → LoopOutcome × List MainEffect
  | [] => (.waiting, [])
  | (finalTryLock, mainTryLock) :: rest =>
      if finalTryLock then (.proceed, [])
      else if mainTryLock then
        (.returned FBUILD_FAILED_TO_SPAWN_WRAPPER_FINAL,
          [.output "FBuild: Waiting for another FASTBuild to terminate...\n"])
      else
        ((Main.finalLoop rest).1,
          .output "FBuild: Waiting for another FASTBuild to terminate...\n" :: .sleep 1000
            :: (Main.finalLoop rest).2)

/-- Writes of `sharedData->ReturnCode`, made only when `sharedData` is set. -/
def Main.shareReturnCode (shared : Bool) (code : Int) : List MainEffect :=
  if shared then [.setSharedReturnCode code] else []

/-- Part of `Main` from `FBuild fBuild( options )` to the end; `shared` tells whether
`sharedData` is set. -/
def Main.build (e : MainEnv) (shared : Bool) : Int × List MainEffect :=
  if e.initializeOk = false then
    (FBUILD_ERROR_LOADING_BFF, Main.shareReturnCode shared FBUILD_ERROR_LOADING_BFF)
  else if e.hasWorkerCommands && e.workerCommandsFailed then
    (FBUILD_BUILD_FAILED, Main.shareReturnCode shared FBUILD_BUILD_FAILED)
  else
    let code := if e.actionResult = true then FBUILD_OK else FBUILD_BUILD_FAILED
    (code, Main.shareReturnCode shared code)

/-- Part of `Main` after the lock section. -/
def Main.afterLock (e : MainEnv) : Option Int × List MainEffect :=
  if e.m_WrapperMode = .WRAPPER_MODE_MAIN_PROCESS then WrapperMainProcess e
  else if e.m_WrapperMode = .WRAPPER_MODE_FINAL_PROCESS then
    match Main.finalLoop e.finalRounds with
    | (.returned code, out) => (some code, out)
    | (.waiting, out) => (none, out)
    | (.proceed, out) =>
        if e.sharedMemoryPtr = false then (some FBUILD_FAILED_TO_SPAWN_WRAPPER_FINAL, out)
        else
          (some (Main.build e true).1, out ++ .setSharedStarted :: (Main.build e true).2)
  else (some (Main.build e false).1, (Main.build e false).2)

/-- Function `Main`: the value returned, `none` when a waiting loop has not ended within
the recorded rounds, and what the run did. -/
def Main (e : MainEnv) : Option Int × List MainEffect :=
  match e.optionsResult with
  | .OPTIONS_OK_AND_QUIT => (some FBUILD_OK, [])
  | .OPTIONS_ERROR => (some FBUILD_BAD_ARGS, [])
  | .OPTIONS_OK =>
      if e.m_WrapperMode = .WRAPPER_MODE_INTERMEDIATE_PROCESS then
        (some (WrapperIntermediateProcess e), [])
      else
        match Main.lockSection e with
        | (.returned code, out) => (some code, out)
        | (.waiting, out) => (none, out)
        | (.proceed, out) => ((Main.afterLock e).1, out ++ (Main.afterLock e).2)

/-- Codes stored into `sharedData->ReturnCode` during a run. -/
def sharedReturnCodes : List MainEffect → List Int
  | [] => []
  | .setSharedReturnCode code :: rest => code :: sharedReturnCodes rest
  | _ :: rest => sharedReturnCodes rest

/-- Sample run: wrapper main process that obtains the lock at once and whose intermediate
process ends with exit code -4. -/
def C17_env : MainEnv :=
  { m_WrapperMode := .WRAPPER_MODE_MAIN_PROCESS, mainTryLock := true, intermediateExit := -4 }

/-! ## Observations for the command pass and the job handlers -/

/-- Entry to which `CommunicateCommands` owes the command: pending send and a live
connection. -/
def ServerState.commandDue (ss : ServerState) : Bool :=
  ss.m_ControlPendingSend && ss.m_Connection.isSome

/-- Sample run for C21: a mode change, for which no response is expected, is marked for
the control worker `w`, which then connects. -/
def C21_events : List Event :=
  [ .setControlMessage (.MsgSetMode 0 0) false,
    .workersSetCommandPending ["w"],
    .lookForWorkers 0 0 (some 1) 0 ]

/-- State reached by the sample run for C21: `w` is connected and the command is still to
be sent to it. -/
def C21_reached : Client := (run (Client.new [] ["w"] 31264 8 false 0) C21_events).1

/-- Files handed to `WriteFileToDisk` by a run of effects, with the index used, in order. -/
def writtenFiles : List Effect → List (String × Nat)
  | [] => []
  | Effect.writeFileToDisk fileName index :: rest => (fileName, index) :: writtenFiles rest
  | _ :: rest => writtenFiles rest

/-- Jobs whose node was stamped (`RecordStampFromBuiltFile`) by a run of effects. -/
def stampedJobs : List Effect → List Job
  | [] => []
  | Effect.recordStampFromBuiltFile job :: rest => job :: stampedJobs rest
  | _ :: rest => stampedJobs rest

/-- Jobs committed to the cache (`WriteToCache`) by a run of effects. -/
def cachedJobs : List Effect → List Job
  | [] => []
  | Effect.writeToCache job :: rest => job :: cachedJobs rest
  | _ :: rest => cachedJobs rest

/-- Output files of a node in the order the claim gives: object file, then the PDB when
the node uses one, then the static-analysis XML when the node uses MSVC static analysis. -/
def outputFilesInOrder (job : Job) : List String :=
  [job.nodeName] ++ (if job.isUsingPDB then [job.pdbName] else [])
    ++ (if job.isUsingStaticAnalysisMSVC then [job.nativeAnalysisXMLPath] else [])

/-- Extractions of the files of the list at consecutive indices from `index` on, ending
with the first one that fails. -/
def extractionsUpToFailure (extractFile : Nat → String → Bool) :
    Nat → List String → List (String × Nat)
  | _, [] => []
  | index, file :: rest =>
      (file, index) ::
        (if extractFile index file then extractionsUpToFailure extractFile (index + 1) rest
         else [])

/-- Whether every file of the list is extracted at consecutive indices from `index` on. -/
def allExtracted (extractFile : Nat → String → Bool) : Nat → List String → Bool
  | _, [] => true
  | index, file :: rest => extractFile index file && allExtracted extractFile (index + 1) rest

/-- Sample entry for C24: worker `w1` holds job 7 in flight. -/
def C24_entry : ServerState :=
  { m_DelayTimer := Timer.Start 0 0, m_BuildJobsEnabled := true, m_RemoteName := "w1",
    m_Connection := some 1, m_Jobs := [{ m_JobId := 7, nodeName := "a.obj" }] }

/-- Sample result for C24: job 7 failed with a system error. -/
def C24_payload : JobResultPayload :=
  { jobId := 7, name := "a.obj", result := false, systemError := true,
    messages := ["disk full"], buildTime := 0 }

/-- Sample collaborators for C24: the queue still wants job 7 (no system error so far) and
monitoring is enabled. -/
def C24_env : JobResultEnv :=
  { returnedJob := some { m_JobId := 7, nodeName := "a.obj" }, monitorEnabled := true }

/-- Sample job for C23: a node with a PDB and a static-analysis XML. -/
def C23_job : Job :=
  { m_JobId := 7, nodeName := "a.obj", isUsingPDB := true, pdbName := "a.pdb",
    isUsingStaticAnalysisMSVC := true, nativeAnalysisXMLPath := "a.xml" }

/-- Sample result for C23: job 7 succeeded remotely. -/
def C23_payload : JobResultPayload :=
  { jobId := 7, name := "a.obj", result := true, systemError := false, messages := [],
    buildTime := 12 }

/-- Sample collaborators for C23: the queue still wants the job, the object file is
written and the extraction of the PDB (index 1) fails. -/
def C23_env : JobResultEnv :=
  { returnedJob := some C23_job, extractFile := fun index _ => index != 1,
    useCacheWrite := true }

/-! ## Receiving messages (`Client::OnReceive`) -/

/-- Message tag with the given numeric value (`enum MessageType`). -/
def MessageType.ofNat : Nat → MessageType
  | 1 => .MSG_CONNECTION
  | 2 => .MSG_STATUS
  | 3 => .MSG_REQUEST_JOB
  | 4 => .MSG_NO_JOB_AVAILABLE
  | 5 => .MSG_JOB
  | 6 => .MSG_JOB_RESULT
  | 7 => .MSG_REQUEST_MANIFEST
  | 8 => .MSG_MANIFEST
  | 9 => .MSG_REQUEST_FILE
  | 10 => .MSG_FILE
  | 11 => .MSG_REQUEST_SERVER_INFO
  | 12 => .MSG_SERVER_INFO
  | 13 => .MSG_SET_MODE
  | 14 => .MSG_ADD_BLOCKING_PROCESS
  | 15 => .MSG_REMOVE_BLOCKING_PROCESS
  | tag => .unknown tag

/-- Member `Client::FindManifest`: the first in-flight job of the entry whose compiler
manifest has the tool id asked for (the manifest returned is that job's), if any. -/
def Client.FindManifest (ss : ServerState) (toolId : Nat) : Option Job :=
  ss.m_Jobs.find? (fun job => job.toolId == toolId)

/-- Handler `Client::Process( connection, MsgRequestManifest )` on the entry `ss`. -/
def Client.Process_MsgRequestManifest (ss : ServerState) (connection : ConnectionInfo)
    (toolId : Nat) : List Effect :=
  match Client.FindManifest ss toolId with
  | none => [Effect.disconnect connection]
  | some _ => [Effect.send connection (OutMsg.MsgManifest toolId) true]

/-- Handler `Client::Process( connection, MsgRequestFile )` on the entry `ss`;
`hasFileData toolId fileId` tells whether `ToolManifest::GetFileData` finds the file. -/
def Client.Process_MsgRequestFile (ss : ServerState) (connection : ConnectionInfo)
    (toolId fileId : Nat) (hasFileData : Nat → Nat → Bool) : List Effect :=
  match Client.FindManifest ss toolId with
  | none => [Effect.disconnect connection]
  | some _ =>
      if !hasFileData toolId fileId then [Effect.disconnect connection]
      else [Effect.send connection (OutMsg.MsgFile toolId fileId) true]

/-- One buffer handed to `Client::OnReceive`, with the readings the client can make of it:
as a message header (`static_cast< const Protocol::IMessage * >( data )`), as the payload
of a job result and as the payload of a server info; `size` is its length. -/
structure ReceivedData where
  asMessage : IMessage
  asJobResult : JobResultPayload
  asServerInfo : List CpuDetail := []
  size : Nat := 1

/-- Answers of the collaborators a message handler may consult, and the instant of the
call; `uninitBuildTime` is the value found in the local `buildTime` of
`Process( MsgJobResult )` when nothing can be read into it. -/
structure ReceiveEnv where
  queueJob : Option Job := none
  jobResultEnv : JobResultEnv := { returnedJob := none }
  hasFileData : Nat → Nat → Bool := fun _ _ => true
  now : Int := 0
  uninitBuildTime : Nat := 0

/-- What `Process( MsgJobResult )` reads from its payload; without payload every read
fails and the locals keep their initial values. -/
def jobResultOfPayload (payload : Option ReceivedData) (env : ReceiveEnv) : JobResultPayload :=
  match payload with
  | some data => data.asJobResult
  | none =>
      { jobId := 0, name := "", result := false, systemError := false, messages := [],
        buildTime := env.uninitBuildTime }

/-- Scalars `Process( MsgServerInfo )` reads from the header through its cast to
`Protocol::MsgServerInfo`. -/
def serverInfoOfHeader (imsg : IMessage) : MsgServerInfo :=
  imsg.serverInfo.getD
    { m_Mode := 0, m_NumClients := 0, m_NumCPUTotal := 0, m_NumCPUAvailable := 0,
      m_NumCPUBusy := 0, m_NumBlockingProcesses := 0, m_CPUUsageFASTBuild := 0,
      m_CPUUsageTotal := 0 }

/-- Per-CPU details `Process( MsgServerInfo )` reads when `payloadSize > 0`. -/
def serverInfoDetails (payload : Option ReceivedData) : Option (List CpuDetail) :=
  match payload with
  | some data => if data.size > 0 then some data.asServerInfo else none
  | none => none

/-- The `switch ( messageType )` of `Client::OnReceive` on the entry `ss` with index
`index`, for the complete message `imsg` with its payload (`none` for none), followed by
the release of the message: the entry's `m_CurrentMessage` is cleared. -/
def Client.OnReceive.dispatch (c : Client) (index : Nat) (connection : ConnectionInfo)
    (ss : ServerState) (imsg : IMessage) (payload : Option ReceivedData) (env : ReceiveEnv) :
    Client × List Effect :=
  let r : ServerState × Nat × List Effect :=
    match imsg.m_MsgType with
    | .MSG_REQUEST_JOB =>
        let p := Client.Process_MsgRequestJob ss connection env.queueJob
        (p.1, c.m_ControlPendingReceiveCounter, p.2)
    | .MSG_JOB_RESULT =>
        let p := Client.Process_MsgJobResult ss (jobResultOfPayload payload env)
          env.jobResultEnv
        (p.1, c.m_ControlPendingReceiveCounter, p.2)
    | .MSG_REQUEST_MANIFEST =>
        (ss, c.m_ControlPendingReceiveCounter,
          Client.Process_MsgRequestManifest ss connection imsg.toolId)
    | .MSG_REQUEST_FILE =>
        (ss, c.m_ControlPendingReceiveCounter,
          Client.Process_MsgRequestFile ss connection imsg.toolId imsg.fileId env.hasFileData)
    | .MSG_SERVER_INFO =>
        let p := Client.Process_MsgServerInfo ss (serverInfoOfHeader imsg)
          (serverInfoDetails payload) env.now c.m_ControlPendingReceiveCounter
        (p.1, p.2, [])
    | _ => (ss, c.m_ControlPendingReceiveCounter, [Effect.disconnect connection])
  ({ c with
      m_ServerList := c.m_ServerList.set index { r.1 with m_CurrentMessage := none }
      m_ControlPendingReceiveCounter := r.2.1 },
    r.2.2)

/-- Callback `Client::OnReceive( connection, data, size, keepMemory )`; `index` is the
position of the `ServerState` attached to the connection as user data. -/
def Client.OnReceive (c : Client) (index : Nat) (connection : ConnectionInfo)
    (data : ReceivedData) (env : ReceiveEnv) : Client × List Effect :=
  match c.m_ServerList[index]? with
  | none => (c, [])
  | some ss =>
      match ss.m_CurrentMessage with
      | none =>
          -- message
          let ss1 := { ss with m_CurrentMessage := some data.asMessage }
          if data.asMessage.m_HasPayload then
            ({ c with m_ServerList := c.m_ServerList.set index ss1 }, [])
          else Client.OnReceive.dispatch c index connection ss1 data.asMessage none env
      | some imsg =>
          -- payload
          Client.OnReceive.dispatch c index connection ss imsg (some data) env

/-! ## Wait loop of `Client::WorkersGetLastCommandResult` -/

/-- Update `waitMs = Math::Min( 100u, (waitMs*12+9)/10 )` of the wait loop, in `uint32_t`
arithmetic. -/
def Client.WorkersGetLastCommandResult.nextWait (waitMs : Nat) : Nat :=
  min 100 ((waitMs * 12 + 9) % U32 / 10)

/-- Wait loop of `Client::WorkersGetLastCommandResult( timeoutMS )`, from its `round`-th
loop test on with the current `totalMs` and `waitMs`: the durations handed to
`Thread::Sleep`, in order. `pending k` is the value of
`m_ControlPendingSendCounter || m_ControlPendingReceiveCounter` read at loop test `k` (the
counters are changed by other threads). The result is `none` when the loop has not ended
after `fuel` sleeps. -/
def Client.WorkersGetLastCommandResult.wait (pending : Nat → Bool) (timeoutMS : Nat) :
    Nat → Nat → Nat → Nat → Option (List Nat)
  | 0, round, totalMs, _ =>
      if pending round && decide (totalMs < timeoutMS) then none else some []
  | fuel + 1, round, totalMs, waitMs =>
      if pending round && decide (totalMs < timeoutMS) then
        (Client.WorkersGetLastCommandResult.wait pending timeoutMS fuel (round + 1)
          ((totalMs + waitMs) % U32)
          (Client.WorkersGetLastCommandResult.nextWait waitMs)).map (fun rest => waitMs :: rest)
      else some []

/-- The `n`-th sleep duration of the wait loop while it keeps waiting: `waitMs` starts at
1 and is updated after every sleep. -/
def waitSeq (n : Nat) : Nat :=
  Client.WorkersGetLastCommandResult.nextWait^[n] 1

/-! ## Idle detection of the worker (`IdleDetection.cpp`) -/

/-- The three bits of `ProcessInfo::m_Flags` in use (`FLAG_SELF`, `FLAG_IN_OUR_HIERARCHY`,
`FLAG_BLOCKING`), one boolean per bit. -/
structure ProcessFlags where
  FLAG_SELF : Bool := false
  FLAG_IN_OUR_HIERARCHY : Bool := false
  FLAG_BLOCKING : Bool := false
deriving DecidableEq, Repr

/-- Record `IdleDetection::ProcessInfo`; `m_ProcessHandle` is `none` for a null handle. -/
structure ProcessInfo where
  m_PID : Nat
  m_AliveValue : Nat := 0
  m_Flags : ProcessFlags := {}
  m_ProcessHandle : Option Nat := none
  m_LastTime : Nat := 0
deriving DecidableEq, Repr

/-- Record `IdleDetection::BlockingProcessInfo`. -/
structure BlockingProcessInfo where
  m_PID : Nat
  m_Name : String
deriving DecidableEq, Repr

/-- Members of `class IdleDetection` read or written by `Update` and `UpdateProcessList`,
with the function-static counter `sAliveValue` of `UpdateProcessList`. The timer and the
CPU-usage figures, which only `IsIdleInternal` uses, are not represented. -/
structure IdleDetection where
  m_IsIdle : Bool := false
  m_IsIdleFloat : F32 := 0
  m_IsIdleCurrent : F32 := 0
  m_IdleSmoother : Int := 0
  m_IdleFloatSmoother : Int := 0
  m_IsBlocked : Bool := false
  m_Processes : List ProcessInfo := []
  m_BlockingProcesses : List BlockingProcessInfo := []
  sAliveValue : Nat := 0
deriving DecidableEq, Repr

/-- Constructor `IdleDetection::IdleDetection`; `currentId` is the answer of
`Process::GetCurrentId` and `currentHandle` that of `::GetCurrentProcess`. -/
def IdleDetection.new (currentId : Nat) (currentHandle : Option Nat) : IdleDetection :=
  { m_Processes :=
      [{ m_PID := currentId, m_AliveValue := 0, m_ProcessHandle := currentHandle,
         m_LastTime := 0,
         m_Flags := { FLAG_SELF := true, FLAG_IN_OUR_HIERARCHY := true } }] }

/-- Modelled from the spec: `Core/Math` is not among the sources; `Math::Clamp( a, low,
high )` is `a` brought into the range from `low` to `high`. -/
def Clamp (a low high : Int) : Int :=
  if a < low then low else if a > high then high else a

/-- First half of `IdleDetection::Update`: smoothing of the idle flag by the counter
`m_IdleSmoother`; `sample` is the value returned by `IsIdleInternal`. -/
def IdleDetection.Update.smooth (st : IdleDetection) (sample : Bool) : IdleDetection :=
  let st1 :=
    if sample then { st with m_IdleSmoother := st.m_IdleSmoother + 1 }
    else { st with m_IdleSmoother := st.m_IdleSmoother - 2 }
  let st2 := { st1 with m_IdleSmoother := Clamp st1.m_IdleSmoother 0 10 }
  let st3 := if st2.m_IdleSmoother = 10 then { st2 with m_IsIdle := true } else st2
  if st3.m_IdleSmoother = 0 then { st3 with m_IsIdle := false } else st3

/-- Second half of `IdleDetection::Update`: the separate smoothing of the idle float
value; `geFloat a b` is the comparison `a >= b` of two floats. -/
def IdleDetection.Update.smoothFloat (st : IdleDetection) (geFloat : F32 → F32 → Bool) :
    IdleDetection :=
  let st1 :=
    if geFloat st.m_IsIdleCurrent st.m_IsIdleFloat then
      { st with m_IdleFloatSmoother := st.m_IdleFloatSmoother + 1 }
    else { st with m_IdleFloatSmoother := st.m_IdleFloatSmoother - 2 }
  let st2 := { st1 with m_IdleFloatSmoother := Clamp st1.m_IdleFloatSmoother 0 10 }
  if st2.m_IdleFloatSmoother = 10 ∨ st2.m_IdleFloatSmoother = 0 then
    { st2 with m_IsIdleFloat := st2.m_IsIdleCurrent }
  else st2

/-- Member `IdleDetection::Update`, after its call of `IsIdleInternal`: `sample` is the
value that call returned and `idleCurrent` the value it stored in `m_IsIdleCurrent`. What
`IsIdleInternal` does to the process lists is `UpdateProcessList`, embedded on its own. -/
def IdleDetection.Update (st : IdleDetection) (sample : Bool) (idleCurrent : F32)
    (geFloat : F32 → F32 → Bool) : IdleDetection :=
  IdleDetection.Update.smoothFloat
    (IdleDetection.Update.smooth { st with m_IsIdleCurrent := idleCurrent } sample) geFloat

/-- Accessor `IdleDetection::IsIdle`. -/
def IdleDetection.IsIdle (st : IdleDetection) : Bool := st.m_IsIdle

/-- Successive calls of `Update`, one per sample `(sample, idleCurrent)`. -/
def IdleDetection.updates (geFloat : F32 → F32 → Bool) :
    IdleDetection → List (Bool × F32) → IdleDetection
  | st, [] => st
  | st, s :: rest => IdleDetection.updates geFloat (st.Update s.1 s.2 geFloat) rest

/-! ## Argument helper (`Args.cpp`) -/

/-- Test of `Args::StripQuotes` that a character is a double quote (code 34) or a single
quote (code 39). -/
def isQuoteChar (c : Char) : Bool :=
  c == Char.ofNat 34 || c == Char.ofNat 39

/-- Static function `Args::StripQuotes( start, end, out )`: `s` holds the characters from
`start` up to `end`, the result is the content given to `out`. The two pointers are kept
as offsets into `s`. -/
def Args.StripQuotes (s : List Char) : List Char :=
  let start := 0
  let stop := s.length
  -- handle empty inputs
  if start = stop then []
  else
    -- strip first quote if there is one
    let firstChar := s.getD start ' '
    let start := if isQuoteChar firstChar then start + 1 else start
    -- strip last quote if there is one
    let lastChar := s.getD (stop - 1) ' '
    let stop := if isQuoteChar lastChar then stop - 1 else stop
    -- handle invalid strings (i.e. just one quote)
    if stop < start then []
    else (s.drop start).take (stop - start)

/-! ## Process tracking of the worker (`IdleDetection::UpdateProcessList`) -/

/-- Modelled from the spec: `Core/Strings/AString` is not among the sources;
`AString::StrNCmpI( a, b, n ) == 0` holds when the first `n` characters of `a` and `b`
agree up to letter case. -/
def StrNCmpI_eq (a b : String) (n : Nat) : Bool :=
  (a.data.take n).map Char.toLower == (b.data.take n).map Char.toLower

/-- Member `IdleDetection::IsBlocking`: some blocking name is, up to letter case, the
beginning of the process name. -/
def IdleDetection.IsBlocking (processName : String) (blockingProcessNames : List String) :
    Bool :=
  blockingProcessNames.any
    (fun s => decide (s.length ≤ processName.length) && StrNCmpI_eq processName s s.length)

/-- One process of a snapshot as `UpdateProcessList` reads it (`PROCESSENTRY32`), with the
answer of `OpenProcess` for it (`none` for a null handle), which is asked only for a new
child of a process of our hierarchy. -/
structure SnapshotEntry where
  th32ProcessID : Nat
  th32ParentProcessID : Nat
  szExeFile : String
  openProcess : Option Nat := some 1
deriving DecidableEq, Repr

/-- Modelled from the spec: `Core/Containers/SortedArray` is not among the sources;
`SortedArray::Find( pid )` gives the first element that compares equal to `pid`. -/
def findProcess (processes : List ProcessInfo) (pid : Nat) : Option ProcessInfo :=
  processes.find? (fun p => p.m_PID == pid)

/-- Modelled from the spec: `Core/Containers/SortedArray` is not among the sources;
`SortedArray::Append( x )` puts `x` before the first element that is not smaller, by the
key the `operator <` of the element type compares (the PID). -/
def sortedAppend {α : Type} (key : α → Nat) (x : α) : List α → List α
  | [] => [x]
  | y :: rest => if key y < key x then y :: sortedAppend key x rest else x :: y :: rest

/-- Write through the pointer `info` returned by `SortedArray::Find( pid )`: the first
element with that PID is replaced by `info`. -/
def storeProcess (info : ProcessInfo) : List ProcessInfo → List ProcessInfo
  | [] => []
  | p :: rest =>
      if p.m_PID = info.m_PID then info :: rest else p :: storeProcess info rest

/-- Modelled from the spec: `Core/Containers/SortedArray` is not among the sources;
`SortedArray::FindAndErase( pid )` removes the first element that compares equal to `pid`,
if there is one. -/
def eraseBlocking (blocking : List BlockingProcessInfo) (pid : Nat) :
    List BlockingProcessInfo :=
  blocking.eraseP (fun b => b.m_PID == pid)

/-- First half of the body of the loop `while ( Process32Next( ... ) )` of
`UpdateProcessList` for one process of the snapshot: the record `info` points to, the value
of `wasBlocking`, and whether the record is a new one; `none` stands for `continue`.
`alive` is the value of `sAliveValue` for this call. -/
def IdleDetection.UpdateProcessList.track (blockingProcessNames : List String) (alive : Nat)
    (st : IdleDetection) (e : SnapshotEntry) : Option (ProcessInfo × Bool × Bool) :=
  let pid := e.th32ProcessID
  match findProcess st.m_Processes pid with
  | some info =>
      -- an existing process that is still alive
      some ({ info with m_AliveValue := alive }, info.m_Flags.FLAG_BLOCKING, false)
  | none =>
      let parentInHierarchy :=
        match findProcess st.m_Processes e.th32ParentProcessID with
        | some parentInfo => parentInfo.m_Flags.FLAG_IN_OUR_HIERARCHY
        | none => false
      if parentInHierarchy then
        match e.openProcess with
        | some handle =>
            some ({ m_PID := pid, m_ProcessHandle := some handle, m_AliveValue := alive,
                    m_LastTime := 0, m_Flags := { FLAG_IN_OUR_HIERARCHY := true } },
                  false, true)
        | none => none
      else
        some ({ m_PID := pid, m_ProcessHandle := none, m_AliveValue := alive,
                m_LastTime := 0,
                m_Flags := { FLAG_BLOCKING :=
                  IdleDetection.IsBlocking e.szExeFile blockingProcessNames } },
              false, true)

/-- Second half of the body of the loop: the added and removed PIDs are applied to the
flags of the record, the record is stored (a new one by `m_Processes.Append`, an existing
one through the pointer) and `m_BlockingProcesses` follows a change of `FLAG_BLOCKING`. -/
def IdleDetection.UpdateProcessList.mark (addedBlockingPid removedBlockingPid : List Nat)
    (st : IdleDetection) (e : SnapshotEntry) (info : ProcessInfo) (wasBlocking isNew : Bool) :
    IdleDetection :=
  let pid := e.th32ProcessID
  -- was it added or removed from the blocking pids ?
  let flag1 := if addedBlockingPid.contains pid then true else info.m_Flags.FLAG_BLOCKING
  let isBlocking := if removedBlockingPid.contains pid then false else flag1
  let info2 : ProcessInfo :=
    { info with m_Flags := { info.m_Flags with FLAG_BLOCKING := isBlocking } }
  let processes :=
    if isNew then sortedAppend (fun p => p.m_PID) info2 st.m_Processes
    else storeProcess info2 st.m_Processes
  let blocking :=
    if wasBlocking != isBlocking then
      if isBlocking then
        sortedAppend (fun b => b.m_PID) { m_PID := pid, m_Name := e.szExeFile }
          st.m_BlockingProcesses
      else eraseBlocking st.m_BlockingProcesses pid
    else st.m_BlockingProcesses
  { st with m_Processes := processes, m_BlockingProcesses := blocking }

/-- Body of the loop `while ( Process32Next( ... ) )` of `UpdateProcessList` for one
process of the snapshot. -/
def IdleDetection.UpdateProcessList.entry (blockingProcessNames : List String)
    (addedBlockingPid removedBlockingPid : List Nat) (alive : Nat) (st : IdleDetection)
    (e : SnapshotEntry) : IdleDetection :=
  match IdleDetection.UpdateProcessList.track blockingProcessNames alive st e with
  | none => st
  | some (info, wasBlocking, isNew) =>
      IdleDetection.UpdateProcessList.mark addedBlockingPid removedBlockingPid st e info
        wasBlocking isNew

/-- Loop `for ( int i = (numProcesses - 1); i >= 0; --i )` of `UpdateProcessList` that
prunes the dead processes: the elements are visited from the last to the first. -/
def IdleDetection.UpdateProcessList.prune (alive : Nat) :
    List ProcessInfo → List BlockingProcessInfo → List ProcessInfo × List BlockingProcessInfo
  | [], blocking => ([], blocking)
  | p :: rest, blocking =>
      let r := IdleDetection.UpdateProcessList.prune alive rest blocking
      if p.m_AliveValue ≠ alive ∧ p.m_Flags.FLAG_SELF = false then
        -- dead process
        (r.1, if p.m_Flags.FLAG_BLOCKING then eraseBlocking r.2 p.m_PID else r.2)
      else (p :: r.1, r.2)

/-- Member `IdleDetection::UpdateProcessList`, Windows branch. `snapshot` holds the
processes delivered by `Process32Next`, in order, and is `none` when
`CreateToolhelp32Snapshot` gives an invalid handle. -/
def IdleDetection.UpdateProcessList (st : IdleDetection) (blockingProcessNames : List String)
    (addedBlockingPid removedBlockingPid : List Nat)
    (snapshot : Option (List SnapshotEntry)) : IdleDetection :=
  let alive := (st.sAliveValue + 1) % 65536
  let st0 := { st with sAliveValue := alive }
  match snapshot with
  | none => st0
  | some entries =>
      let st1 := entries.foldl
        (IdleDetection.UpdateProcessList.entry blockingProcessNames addedBlockingPid
          removedBlockingPid alive) st0
      let r := IdleDetection.UpdateProcessList.prune alive st1.m_Processes
        st1.m_BlockingProcesses
      { st1 with m_Processes := r.1, m_BlockingProcesses := r.2 }

/-- Accessor `IdleDetection::GetNumBlockingProcesses`. -/
def IdleDetection.GetNumBlockingProcesses (st : IdleDetection) : Nat :=
  st.m_BlockingProcesses.length % U32

/-- Arguments of one call of `UpdateProcessList` and the snapshot it meets. -/
structure ProcessListCall where
  blockingProcessNames : List String := []
  addedBlockingPid : List Nat := []
  removedBlockingPid : List Nat := []
  snapshot : Option (List SnapshotEntry) := some []
deriving DecidableEq, Repr

/-- Successive calls of `UpdateProcessList`. -/
def IdleDetection.processListCalls : IdleDetection → List ProcessListCall → IdleDetection
  | st, [] => st
  | st, call :: rest =>
      IdleDetection.processListCalls
        (st.UpdateProcessList call.blockingProcessNames call.addedBlockingPid
          call.removedBlockingPid call.snapshot) rest

/-- PIDs listed in `m_BlockingProcesses`. -/
def IdleDetection.blockingPids (st : IdleDetection) : List Nat :=
  st.m_BlockingProcesses.map (fun b => b.m_PID)

/-- PIDs of the tracked processes whose `FLAG_BLOCKING` is set. -/
def IdleDetection.trackedBlockingPids (st : IdleDetection) : List Nat :=
  (st.m_Processes.filter (fun p => p.m_Flags.FLAG_BLOCKING)).map (fun p => p.m_PID)

/-- Consistency of the two lists kept by `UpdateProcessList`: no PID is tracked twice, no
PID is listed twice as blocking, and the PIDs listed as blocking are those of the tracked
processes whose `FLAG_BLOCKING` is set. -/
def IdleDetection.processListsConsistent (st : IdleDetection) : Prop :=
  (st.m_Processes.map (fun p => p.m_PID)).Nodup
    ∧ st.blockingPids.Nodup
    ∧ ∀ pid, pid ∈ st.blockingPids ↔ pid ∈ st.trackedBlockingPids

/-- Sample snapshot for the process list: the worker (PID 100), a child of it, and three
other processes. -/
def sampleSnapshot : List SnapshotEntry :=
  [{ th32ProcessID := 4, th32ParentProcessID := 0, szExeFile := "System" },
   { th32ProcessID := 100, th32ParentProcessID := 4, szExeFile := "fbuildworker.exe" },
   { th32ProcessID := 200, th32ParentProcessID := 4, szExeFile := "Game.exe" },
   { th32ProcessID := 300, th32ParentProcessID := 100, szExeFile := "cl.exe" },
   { th32ProcessID := 50, th32ParentProcessID := 4, szExeFile := "notepad.exe" }]

/-- State of the process lists after the constructor and a sequence of calls of
`UpdateProcessList`. -/
def IdleDetection.afterCalls (currentId : Nat) (currentHandle : Option Nat)
    (calls : List ProcessListCall) : IdleDetection :=
  IdleDetection.processListCalls (IdleDetection.new currentId currentHandle) calls

/-- Sample calls for C30: the worker's own process (PID 100) is added as blocking while
the snapshot names it. -/
def C30_calls : List ProcessListCall :=
  [{ addedBlockingPid := [100], snapshot := some sampleSnapshot }]

/-! ## Theorems -/

theorem OnDisconnected_loop_returned (name : String) (jobs : List Job) :
    returnedJobs (Client.OnDisconnected.loop name jobs) = jobs := by
  induction jobs with
  | nil => rfl
  | cons j rest ih => simp [Client.OnDisconnected.loop, returnedJobs, ih]

theorem OnDisconnected_loop_monitor (name : String) (jobs : List Job) :
    monitorLines (Client.OnDisconnected.loop name jobs)
      = jobs.map (finishJobTimeoutLine name) := by
  induction jobs with
  | nil => rfl
  | cons j rest ih => simp [Client.OnDisconnected.loop, monitorLines, ih]

theorem OnDisconnected_loop_length (name : String) (jobs : List Job) :
    (Client.OnDisconnected.loop name jobs).length = 2 * jobs.length := by
  induction jobs with
  | nil => rfl
  | cons j rest ih => simp [Client.OnDisconnected.loop, ih]; omega

/-- C1: for every ServerState, `Client::OnDisconnected` hands each in-flight job back to
the queue exactly once and in list order (the jobs passed to
`ReturnUnfinishedDistributableJob` are exactly `m_Jobs`), writes one
`FINISH_JOB TIMEOUT` monitor line per job and makes no other call; afterwards the entry has
no in-flight job, no connection, an empty remote name and no current message, while the
capability flags, the four control flags and the advertised job count are unchanged. -/
theorem C1_OnDisconnected_returns_in_flight_jobs (ss : ServerState) :
    returnedJobs (Client.OnDisconnected ss).2 = ss.m_Jobs
    ∧ monitorLines (Client.OnDisconnected ss).2
        = ss.m_Jobs.map (finishJobTimeoutLine ss.m_RemoteName)
    ∧ (Client.OnDisconnected ss).2.length = 2 * ss.m_Jobs.length
    ∧ (Client.OnDisconnected ss).1.m_Jobs = []
    ∧ (Client.OnDisconnected ss).1.m_Connection = none
    ∧ (Client.OnDisconnected ss).1.m_RemoteName = ""
    ∧ (Client.OnDisconnected ss).1.m_CurrentMessage = none
    ∧ (Client.OnDisconnected ss).1.m_BuildJobsEnabled = ss.m_BuildJobsEnabled
    ∧ (Client.OnDisconnected ss).1.m_ControlEnabled = ss.m_ControlEnabled
    ∧ (Client.OnDisconnected ss).1.m_ControlPendingSend = ss.m_ControlPendingSend
    ∧ (Client.OnDisconnected ss).1.m_ControlPendingResponse = ss.m_ControlPendingResponse
    ∧ (Client.OnDisconnected ss).1.m_ControlSuccess = ss.m_ControlSuccess
    ∧ (Client.OnDisconnected ss).1.m_ControlFailure = ss.m_ControlFailure
    ∧ (Client.OnDisconnected ss).1.m_NumJobsAvailable = ss.m_NumJobsAvailable := by
  cases hj : ss.m_Jobs with
  | nil => simp [Client.OnDisconnected, hj, returnedJobs, monitorLines]
  | cons j rest =>
    simp [Client.OnDisconnected, hj, OnDisconnected_loop_returned,
      OnDisconnected_loop_monitor, OnDisconnected_loop_length]

theorem taskFailedText_eq :
    taskFailedText = "FBuild: Error: Task failed on 3 different workers\n" := by decide

/-- C2: for a failed `JobResult` with `system_error` set, for a job the queue still wants
and whose system-error count was `c` before: the count becomes `c + 1`; when `c + 1 < 3`
the job (with the new count) is returned to the queue as unfinished, nothing is dumped and
the job is not finished; when `c + 1 >= 3` it is not returned but handed to
`FinishedProcessingJob` with result `false`, and the failure output, which starts with the
`PROBLEM:` text, ends with `FBuild: Error: Task failed on 3 different workers`. Hence the
job is re-queued if and only if `c + 1 < 3`. -/
theorem C2_system_error_retry_cap (ss : ServerState) (p : JobResultPayload)
    (env : JobResultEnv) (job : Job)
    (hres : p.result = false) (hsys : p.systemError = true)
    (hwanted : env.returnedJob = some job) :
    ((job.SetMessages p.messages).OnSystemError).GetSystemErrorCount
        = job.GetSystemErrorCount + 1
    ∧ (job.GetSystemErrorCount + 1 < 3 →
        returnedJobs (Client.Process_MsgJobResult ss p env).2
            = [(job.SetMessages p.messages).OnSystemError]
        ∧ finishedJobs (Client.Process_MsgJobResult ss p env).2 = []
        ∧ dumpedOutputs (Client.Process_MsgJobResult ss p env).2 = [])
    ∧ (3 ≤ job.GetSystemErrorCount + 1 →
        returnedJobs (Client.Process_MsgJobResult ss p env).2 = []
        ∧ finishedJobs (Client.Process_MsgJobResult ss p env).2
            = [((job.SetMessages p.messages).OnSystemError, false)]
        ∧ ∃ sep, (sep = "" ∨ sep = "\n")
            ∧ dumpedOutputs (Client.Process_MsgJobResult ss p env).2
              = [problemText job.nodeName p.messages ++ sep
                  ++ "FBuild: Error: Task failed on 3 different workers\n"])
    ∧ (returnedJobs (Client.Process_MsgJobResult ss p env).2 ≠ []
        ↔ job.GetSystemErrorCount + 1 < 3) := by
  have hlt : job.GetSystemErrorCount + 1 < 3 →
      returnedJobs (Client.Process_MsgJobResult ss p env).2
          = [(job.SetMessages p.messages).OnSystemError]
      ∧ finishedJobs (Client.Process_MsgJobResult ss p env).2 = []
      ∧ dumpedOutputs (Client.Process_MsgJobResult ss p env).2 = [] := by
    intro hlt
    have h1 : (job.SetMessages p.messages).OnSystemError.GetSystemErrorCount
        < SYSTEM_ERROR_ATTEMPT_COUNT := by
      simpa [Job.OnSystemError, Job.SetMessages, Job.GetSystemErrorCount,
        SYSTEM_ERROR_ATTEMPT_COUNT] using hlt
    simp [Client.Process_MsgJobResult, hres, hsys, hwanted, h1, returnedJobs, finishedJobs,
      dumpedOutputs]
  have hge : 3 ≤ job.GetSystemErrorCount + 1 →
      returnedJobs (Client.Process_MsgJobResult ss p env).2 = []
      ∧ finishedJobs (Client.Process_MsgJobResult ss p env).2
          = [((job.SetMessages p.messages).OnSystemError, false)]
      ∧ ∃ sep, (sep = "" ∨ sep = "\n")
          ∧ dumpedOutputs (Client.Process_MsgJobResult ss p env).2
            = [problemText job.nodeName p.messages ++ sep
                ++ "FBuild: Error: Task failed on 3 different workers\n"] := by
    intro hge
    have h1 : ¬ (job.SetMessages p.messages).OnSystemError.GetSystemErrorCount
        < SYSTEM_ERROR_ATTEMPT_COUNT := by
      simpa [Job.OnSystemError, Job.SetMessages, Job.GetSystemErrorCount,
        SYSTEM_ERROR_ATTEMPT_COUNT] using hge
    rw [← taskFailedText_eq]
    have hname : (job.SetMessages p.messages).nodeName = job.nodeName := rfl
    cases hm : env.monitorEnabled <;>
    cases he : EndsWith (problemText job.nodeName p.messages) '\n' <;>
    simp [Client.Process_MsgJobResult, hres, hsys, hwanted, h1, returnedJobs, finishedJobs,
      dumpedOutputs, hm, hname, he]
  refine ⟨rfl, hlt, hge, ?_⟩
  constructor
  · intro hne
    by_contra hcon
    exact hne (hge (by omega)).1
  · intro h
    rw [(hlt h).1]
    simp

/-- Witness for C2: a third system error (count 2 before) on a wanted job. -/
theorem C2_system_error_retry_cap_witness :
    returnedJobs (Client.Process_MsgJobResult
        { m_DelayTimer := Timer.Start 0 0, m_BuildJobsEnabled := true,
          m_Jobs := [{ m_JobId := 7, nodeName := "a.obj", m_SystemErrorCount := 2 }] }
        { jobId := 7, name := "a.obj", result := false, systemError := true,
          messages := ["disk full"], buildTime := 0 }
        { returnedJob :=
            some { m_JobId := 7, nodeName := "a.obj", m_SystemErrorCount := 2 } }).2 ≠ []
      ↔ 2 + 1 < 3 :=
  (C2_system_error_retry_cap
    { m_DelayTimer := Timer.Start 0 0, m_BuildJobsEnabled := true,
      m_Jobs := [{ m_JobId := 7, nodeName := "a.obj", m_SystemErrorCount := 2 }] }
    { jobId := 7, name := "a.obj", result := false, systemError := true,
      messages := ["disk full"], buildTime := 0 }
    { returnedJob := some { m_JobId := 7, nodeName := "a.obj", m_SystemErrorCount := 2 } }
    { m_JobId := 7, nodeName := "a.obj", m_SystemErrorCount := 2 }
    rfl rfl rfl).2.2.2

theorem CommunicateJobAvailability_loop_map (n : Nat) (sl : List ServerState) :
    (Client.CommunicateJobAvailability.loop n sl).1
      = sl.map (Client.CommunicateJobAvailability.entry n) := by
  induction sl with
  | nil => rfl
  | cons ss rest ih =>
    simp only [Client.CommunicateJobAvailability.loop, List.map_cons,
      Client.CommunicateJobAvailability.entry]
    cases hc : ss.m_Connection with
    | none => simp [ih]
    | some conn =>
      by_cases hb : (ss.m_BuildJobsEnabled && (ss.m_NumJobsAvailable != n)) = true
      · simp [hb, ih]
      · simp [hb, ih]

theorem CommunicateCommands_loop_map (msg : Option OutMsg) (e : Bool)
    (sl : List ServerState) (sc rc : Nat) :
    (Client.CommunicateCommands.loop msg e sl sc rc).serverList
      = sl.map (Client.CommunicateCommands.entry e) := by
  induction sl generalizing sc rc with
  | nil => rfl
  | cons ss rest ih =>
    simp only [Client.CommunicateCommands.loop, List.map_cons,
      Client.CommunicateCommands.entry]
    cases hc : ss.m_Connection with
    | none => simp [ih]
    | some conn =>
      cases hs : ss.m_ControlPendingSend <;> cases e <;> simp [ih]

theorem WorkersGetLastCommandResult_loop_map (sl : List ServerState) (sc rc : Nat)
    (counts : CommandCounts) :
    (Client.WorkersGetLastCommandResult.loop sl sc rc counts).1.serverList
      = sl.map Client.WorkersGetLastCommandResult.entry := by
  induction sl generalizing sc rc counts with
  | nil => rfl
  | cons ss rest ih =>
    simp only [Client.WorkersGetLastCommandResult.loop, List.map_cons,
      Client.WorkersGetLastCommandResult.entry]
    cases h1 : ss.m_ControlEnabled <;> cases h2 : ss.m_ControlPendingSend <;>
    cases h3 : ss.m_ControlPendingResponse <;> cases h4 : ss.m_ControlFailure <;>
    cases h5 : ss.m_ControlSuccess <;> simp [ih]

theorem map_set_same {α : Type} (f : ServerState → α) (sl : List ServerState) (i : Nat)
    (a x : ServerState) (h : sl[i]? = some a) (hx : f x = f a) :
    (sl.set i x).map f = sl.map f := by
  induction sl generalizing i with
  | nil => simp at h
  | cons ss rest ih =>
    cases i with
    | zero =>
      simp at h
      subst h
      simp [hx]
    | succ k =>
      simp at h
      simp [ih k h]

theorem map_map_same {α : Type} (f : ServerState → α) (g : ServerState → ServerState)
    (hg : ∀ a, f (g a) = f a) (sl : List ServerState) :
    (sl.map g).map f = sl.map f := by
  simp [List.map_map, Function.comp_def, hg]

theorem mark_map_same {α : Type} (f : ServerState → α)
    (hf : ∀ a : ServerState, f { a with m_ControlPendingSend := true } = f a)
    (wl workers : List String) (sl : List ServerState) (count : Nat) :
    (Client.WorkersSetCommandPending.mark wl workers sl count).1.map f = sl.map f := by
  induction workers generalizing sl count with
  | nil => rfl
  | cons w rest ih =>
    simp only [Client.WorkersSetCommandPending.mark]
    split
    · exact ih sl count
    · split
      · exact ih sl count
      · rename_i idx hidx _ ss hss
        split
        · exact ih sl count
        · rw [ih]
          exact map_set_same f sl idx ss _ hss (hf ss)

theorem step_control_map_same {α : Type} (f : ServerState → α)
    (h1 : ∀ n a, f (Client.CommunicateJobAvailability.entry n a) = f a)
    (h2 : ∀ e a, f (Client.CommunicateCommands.entry e a) = f a)
    (h3 : ∀ a msg payload now rc,
      f (Client.Process_MsgServerInfo a msg payload now rc).1 = f a)
    (h4 : ∀ a, f (Client.WorkersSetCommandPending.reset a) = f a)
    (h5 : ∀ a : ServerState, f { a with m_ControlPendingSend := true } = f a)
    (h6 : ∀ a, f (Client.WorkersGetLastCommandResult.entry a) = f a)
    (c : Client) (ev : Event) (hev : ev.isControlOrStatus = true) :
    (step c ev).1.m_ServerList.map f = c.m_ServerList.map f := by
  cases ev with
  | communicateJobAvailability now n =>
    simp only [step, Client.CommunicateJobAvailability]
    split
    · rfl
    · split
      · rfl
      · simp only [CommunicateJobAvailability_loop_map]
        exact map_map_same f _ (h1 _) _
  | communicateCommands =>
    simp only [step, Client.CommunicateCommands]
    split
    · rfl
    · simp only [CommunicateCommands_loop_map]
      exact map_map_same f _ (h2 _) _
  | serverInfo index msg payload now =>
    simp only [step]
    split
    · rfl
    · rename_i ss hss
      exact map_set_same f _ index ss _ hss (h3 _ _ _ _ _)
  | setControlMessage msg e => rfl
  | workersSetCommandPending workers =>
    simp only [step, Client.WorkersSetCommandPending]
    rw [mark_map_same f h5]
    exact map_map_same f _ h4 _
  | workersGetLastCommandResult =>
    simp only [step, Client.WorkersGetLastCommandResult,
      WorkersGetLastCommandResult_loop_map]
    exact map_map_same f _ h6 _
  | lookForWorkers _ _ _ _ => simp [Event.isControlOrStatus] at hev
  | onDisconnected _ => simp [Event.isControlOrStatus] at hev
  | requestJob _ _ => simp [Event.isControlOrStatus] at hev
  | jobResult _ _ _ => simp [Event.isControlOrStatus] at hev

theorem inFlightIds_cons (ss : ServerState) (sl : List ServerState) :
    inFlightIds (ss :: sl) = ss.m_Jobs.map (fun job => job.m_JobId) ++ inFlightIds sl := by
  simp [inFlightIds]

theorem inFlightIds_of_map_jobs (sl sl2 : List ServerState)
    (h : sl2.map (fun ss => ss.m_Jobs) = sl.map (fun ss => ss.m_Jobs)) :
    inFlightIds sl2 = inFlightIds sl := by
  simp [inFlightIds, h]

theorem inFlightIds_set_sublist (sl : List ServerState) (i : Nat) (a x : ServerState)
    (h : sl[i]? = some a) (hx : x.m_Jobs.Sublist a.m_Jobs) :
    (inFlightIds (sl.set i x)).Sublist (inFlightIds sl) := by
  induction sl generalizing i with
  | nil => simp at h
  | cons ss rest ih =>
    cases i with
    | zero =>
      simp at h
      subst h
      simp only [List.set_cons_zero, inFlightIds_cons]
      exact List.Sublist.append (List.Sublist.map _ hx) (List.Sublist.refl _)
    | succ k =>
      simp at h
      simp only [List.set_cons_succ, inFlightIds_cons]
      exact List.Sublist.append (List.Sublist.refl _) (ih k h)

theorem inFlightIds_set_append (sl : List ServerState) (i : Nat) (a x : ServerState)
    (job : Job) (h : sl[i]? = some a) (hx : x.m_Jobs = a.m_Jobs ++ [job]) :
    (inFlightIds (sl.set i x)).Perm (job.m_JobId :: inFlightIds sl) := by
  induction sl generalizing i with
  | nil => simp at h
  | cons ss rest ih =>
    cases i with
    | zero =>
      simp at h
      subst h
      simp only [List.set_cons_zero, inFlightIds_cons, hx, List.map_append, List.map_cons,
        List.map_nil, List.append_assoc, List.singleton_append]
      exact List.perm_middle
    | succ k =>
      simp at h
      simp only [List.set_cons_succ, inFlightIds_cons]
      exact (List.Perm.append_left _ (ih k h)).trans List.perm_middle

theorem inFlightCount_eq_count (sl : List ServerState) (jobId : Nat) :
    inFlightCount sl jobId = (inFlightIds sl).count jobId := by
  induction sl with
  | nil => rfl
  | cons ss rest ih =>
    have hc : (ss.m_Jobs.map (fun job => job.m_JobId)).count jobId
        = (ss.m_Jobs.filter (fun job => job.m_JobId == jobId)).length := by
      rw [List.count, List.countP_map, List.countP_eq_length_filter]
      rfl
    simp only [inFlightCount, List.map_cons, List.sum_cons] at ih ⊢
    rw [inFlightIds_cons, List.count_append, hc, ih]

theorem LookForWorkers_map_same {α : Type} (f : ServerState → α)
    (hA : ∀ (a : ServerState) now, f { a with m_DelayTimer := Timer.Start now 0 } = f a)
    (hB : ∀ (a : ServerState) w ci n,
      f { a with m_RemoteName := w, m_Connection := some ci, m_NumJobsAvailable := n } = f a)
    (c : Client) (now : Int) (s : Nat) (cr : Option ConnectionInfo) (nd : Nat) :
    (c.LookForWorkers now s cr nd).1.m_ServerList.map f = c.m_ServerList.map f := by
  unfold Client.LookForWorkers
  simp only []
  split
  · rfl
  · split
    · rfl
    · split
      · rfl
      · split
        · rfl
        · rename_i i hi _ ss hss
          split
          · exact map_set_same f _ i ss _ hss (hA _ _)
          · exact map_set_same f _ i ss _ hss (hB _ _ _ _)

theorem Process_MsgJobResult_jobs (ss : ServerState) (p : JobResultPayload)
    (env : JobResultEnv) :
    (Client.Process_MsgJobResult ss p env).1.m_Jobs = FindDerefAndErase ss.m_Jobs p.jobId := by
  unfold Client.Process_MsgJobResult
  simp only []
  split
  · rfl
  · split
    · rfl
    · split
      · split <;> rfl
      · rfl

theorem OnDisconnected_jobs (ss : ServerState) : (Client.OnDisconnected ss).1.m_Jobs = [] := by
  unfold Client.OnDisconnected
  cases h : ss.m_Jobs <;> simp [h]

theorem step_preserves_nodup (c : Client) (ev : Event)
    (hq : queueHandsOutIdleJobs c [ev] = true)
    (hnd : (inFlightIds c.m_ServerList).Nodup) :
    (inFlightIds (step c ev).1.m_ServerList).Nodup := by
  by_cases hcs : ev.isControlOrStatus = true
  · rw [inFlightIds_of_map_jobs _ _
      (step_control_map_same (fun ss => ss.m_Jobs)
        (fun n a => by unfold Client.CommunicateJobAvailability.entry; split <;> [split; skip] <;> rfl)
        (fun e a => by
          unfold Client.CommunicateCommands.entry
          split <;> [(split <;> [split; skip]); skip] <;> rfl)
        (fun a msg payload now rc => by
          unfold Client.Process_MsgServerInfo
          simp only []
          split <;> split <;> rfl)
        (fun a => by unfold Client.WorkersSetCommandPending.reset; split <;> rfl)
        (fun a => rfl)
        (fun a => by
          unfold Client.WorkersGetLastCommandResult.entry
          split <;> [(split <;> [skip; split]); skip] <;> rfl)
        c ev hcs)]
    exact hnd
  · cases ev with
    | lookForWorkers now s cr nd =>
      simp only [step]
      rw [inFlightIds_of_map_jobs _ _
        (LookForWorkers_map_same (fun ss => ss.m_Jobs) (fun _ _ => rfl)
          (fun _ _ _ _ => rfl) c now s cr nd)]
      exact hnd
    | onDisconnected index =>
      simp only [step, onEntry]
      split
      · exact hnd
      · rename_i ss hss
        exact List.Nodup.sublist
          (inFlightIds_set_sublist _ index ss _ hss (by simp [OnDisconnected_jobs])) hnd
    | jobResult index p env =>
      simp only [step, onEntry]
      split
      · exact hnd
      · rename_i ss hss
        refine List.Nodup.sublist (inFlightIds_set_sublist _ index ss _ hss ?_) hnd
        rw [Process_MsgJobResult_jobs]
        exact List.eraseP_sublist _
    | requestJob index queueJob =>
      simp only [step, onEntry]
      split
      · exact hnd
      · rename_i ss hss
        cases hb : ss.m_BuildJobsEnabled with
        | false =>
          rw [inFlightIds_of_map_jobs _ _ (map_set_same (fun ss => ss.m_Jobs) _ index ss _ hss
            (by simp [Client.Process_MsgRequestJob, hb]))]
          exact hnd
        | true =>
          cases queueJob with
          | none =>
            rw [inFlightIds_of_map_jobs _ _ (map_set_same (fun ss => ss.m_Jobs) _ index ss _
              hss (by simp [Client.Process_MsgRequestJob, hb]))]
            exact hnd
          | some job =>
            have hfresh : job.m_JobId ∉ inFlightIds c.m_ServerList := by
              simpa [queueHandsOutIdleJobs] using hq
            have hperm := inFlightIds_set_append c.m_ServerList index ss
              (Client.Process_MsgRequestJob ss (ss.m_Connection.getD 0) (some job)).1 job hss
              (by simp [Client.Process_MsgRequestJob, hb])
            rw [hperm.nodup_iff]
            exact List.nodup_cons.mpr ⟨hfresh, hnd⟩
    | communicateJobAvailability _ _ => simp [Event.isControlOrStatus] at hcs
    | communicateCommands => simp [Event.isControlOrStatus] at hcs
    | serverInfo _ _ _ _ => simp [Event.isControlOrStatus] at hcs
    | setControlMessage _ _ => simp [Event.isControlOrStatus] at hcs
    | workersSetCommandPending _ => simp [Event.isControlOrStatus] at hcs
    | workersGetLastCommandResult => simp [Event.isControlOrStatus] at hcs

theorem run_preserves_nodup (c : Client) (evs : List Event)
    (hq : queueHandsOutIdleJobs c evs = true)
    (hnd : (inFlightIds c.m_ServerList).Nodup) :
    (inFlightIds (run c evs).1.m_ServerList).Nodup := by
  induction evs generalizing c with
  | nil => exact hnd
  | cons ev rest ih =>
    simp only [queueHandsOutIdleJobs, Bool.and_eq_true] at hq
    simp only [run]
    apply ih _ hq.2
    apply step_preserves_nodup c ev _ hnd
    simp only [queueHandsOutIdleJobs, Bool.and_eq_true, and_true]
    exact hq.1

theorem initServerList_no_jobs (now : Int) (first : Nat) (cl : List String) (i : Nat)
    (wl : List String) :
    inFlightIds (Client.initServerList now first cl i wl) = [] := by
  induction wl generalizing i with
  | nil => rfl
  | cons w rest ih =>
    simp only [Client.initServerList, inFlightIds_cons, ih]
    split <;> rfl

/-- C3: assuming the job queue never hands out a job that is in some in-flight list, in
every state reached from a freshly constructed client by any sequence of atomic steps
(RequestJob, JobResult and disconnect callbacks, and every other step of the client), each
job id occurs at most once over all in-flight lists together: in at most one ServerState,
and at most once in it. -/
theorem C3_job_in_at_most_one_in_flight_list (buildWorkerList controlWorkerList : List String)
    (port limit : Nat) (detailedLogging : Bool) (now : Int) (evs : List Event)
    (hq : queueHandsOutIdleJobs
      (Client.new buildWorkerList controlWorkerList port limit detailedLogging now) evs = true)
    (jobId : Nat) :
    inFlightCount
      (run (Client.new buildWorkerList controlWorkerList port limit detailedLogging now)
        evs).1.m_ServerList jobId ≤ 1 := by
  rw [inFlightCount_eq_count]
  refine List.nodup_iff_count_le_one.mp (run_preserves_nodup _ evs hq ?_) jobId
  simp [Client.new, initServerList_no_jobs]

/-- Witness for C3 on a sample run that ends with job 10 in flight on the second worker. -/
theorem C3_job_in_at_most_one_in_flight_list_witness :
    queueHandsOutIdleJobs (Client.new ["w1", "w2"] [] 31264 8 false 0) C3_events = true
    ∧ inFlightCount
        (run (Client.new ["w1", "w2"] [] 31264 8 false 0) C3_events).1.m_ServerList 10 ≤ 1
    ∧ inFlightIds (run (Client.new ["w1", "w2"] [] 31264 8 false 0) C3_events).1.m_ServerList
        = [10] :=
  ⟨by decide, C3_job_in_at_most_one_in_flight_list ["w1", "w2"] [] 31264 8 false 0 C3_events
    (by decide) 10, by decide⟩

theorem controlFlagsOK_of_key (a b : ServerState) (h : b.controlKey = a.controlKey)
    (ha : a.controlFlagsOK = true) : b.controlFlagsOK = true := by
  simp only [ServerState.controlKey, Prod.mk.injEq] at h
  simp only [ServerState.controlFlagsOK, h.1, h.2.1, h.2.2] at ha ⊢
  exact ha

theorem forall_of_map_key (sl sl2 : List ServerState)
    (h : sl2.map ServerState.controlKey = sl.map ServerState.controlKey)
    (hsl : ∀ a ∈ sl, a.controlFlagsOK = true) : ∀ b ∈ sl2, b.controlFlagsOK = true := by
  induction sl generalizing sl2 with
  | nil =>
    simp at h
    subst h
    simp
  | cons a rest ih =>
    cases sl2 with
    | nil => simp
    | cons b rest2 =>
      simp only [List.map_cons, List.cons.injEq] at h
      intro x hx
      rcases List.mem_cons.mp hx with hx | hx
      · subst hx
        exact controlFlagsOK_of_key a x h.1 (hsl a (List.mem_cons_self _ _))
      · exact ih rest2 h.2 (fun y hy => hsl y (List.mem_cons_of_mem _ hy)) x hx

theorem forall_mem_set {P : ServerState → Prop} (sl : List ServerState) (i : Nat)
    (x : ServerState) (hsl : ∀ a ∈ sl, P a) (hx : P x) : ∀ b ∈ sl.set i x, P b := by
  intro b hb
  rcases List.mem_or_eq_of_mem_set hb with h | h
  · exact hsl b h
  · subst h
    exact hx

theorem mark_forall (P : ServerState → Prop)
    (hP : ∀ a : ServerState, a.m_ControlEnabled = true → P a →
      P { a with m_ControlPendingSend := true })
    (wl workers : List String) (sl : List ServerState) (count : Nat)
    (hsl : ∀ a ∈ sl, P a) :
    ∀ b ∈ (Client.WorkersSetCommandPending.mark wl workers sl count).1, P b := by
  induction workers generalizing sl count with
  | nil => exact hsl
  | cons w rest ih =>
    simp only [Client.WorkersSetCommandPending.mark]
    split
    · exact ih sl count hsl
    · split
      · exact ih sl count hsl
      · rename_i idx hidx _ ss hss
        split
        · exact ih sl count hsl
        · rename_i hce
          apply ih
          apply forall_mem_set _ _ _ hsl
          apply hP ss (by simpa using hce)
          exact hsl ss (List.getElem?_mem hss)

theorem onEntry_map_same {α : Type} (f : ServerState → α) (c : Client) (index : Nat)
    (h : ServerState → ServerState × List Effect) (hf : ∀ ss, f (h ss).1 = f ss) :
    (onEntry c index h).1.m_ServerList.map f = c.m_ServerList.map f := by
  unfold onEntry
  split
  · rfl
  · rename_i ss hss
    exact map_set_same f _ index ss _ hss (hf ss)

theorem forall_mem_map {P Q : ServerState → Prop} (g : ServerState → ServerState)
    (sl : List ServerState) (hg : ∀ a, P a → Q (g a)) (hsl : ∀ a ∈ sl, P a) :
    ∀ b ∈ sl.map g, Q b := by
  intro b hb
  rcases List.mem_map.mp hb with ⟨a, ha, rfl⟩
  exact hg a (hsl a ha)

theorem CommunicateCommands_entry_ok (e : Bool) (a : ServerState)
    (ha : a.controlFlagsOK = true) :
    (Client.CommunicateCommands.entry e a).controlFlagsOK = true := by
  unfold Client.CommunicateCommands.entry
  cases hc : a.m_Connection with
  | none => simpa using ha
  | some conn =>
    cases hs : a.m_ControlPendingSend <;> cases e <;>
      simp_all [ServerState.controlFlagsOK]

theorem WorkersGetLastCommandResult_entry_ok (a : ServerState)
    (ha : a.controlFlagsOK = true) :
    (Client.WorkersGetLastCommandResult.entry a).controlFlagsOK = true := by
  unfold Client.WorkersGetLastCommandResult.entry
  cases h1 : a.m_ControlEnabled <;> cases h2 : a.m_ControlPendingSend <;>
    cases h3 : a.m_ControlPendingResponse <;> simp_all [ServerState.controlFlagsOK]

theorem Process_MsgServerInfo_ok (a : ServerState) (msg : MsgServerInfo)
    (payload : Option (List CpuDetail)) (now : Int) (rc : Nat)
    (ha : a.controlFlagsOK = true) :
    (Client.Process_MsgServerInfo a msg payload now rc).1.controlFlagsOK = true := by
  unfold Client.Process_MsgServerInfo
  cases payload <;> cases h1 : a.m_ControlEnabled <;> cases h2 : a.m_ControlPendingSend <;>
    cases h3 : a.m_ControlPendingResponse <;> simp_all [ServerState.controlFlagsOK]

theorem WorkersSetCommandPending_ok (c : Client) (workers : List String)
    (hc : ∀ a ∈ c.m_ServerList, a.controlFlagsOK = true) :
    ∀ b ∈ (c.WorkersSetCommandPending workers).m_ServerList, b.controlFlagsOK = true := by
  have h : ∀ b ∈ (c.WorkersSetCommandPending workers).m_ServerList,
      b.controlFlagsOK = true ∧ b.m_ControlPendingResponse = false := by
    simp only [Client.WorkersSetCommandPending]
    apply mark_forall (fun b => b.controlFlagsOK = true ∧ b.m_ControlPendingResponse = false)
    · intro a hce ha
      simp_all [ServerState.controlFlagsOK]
    · refine forall_mem_map (P := fun a => a.controlFlagsOK = true)
        (Q := fun b => b.controlFlagsOK = true ∧ b.m_ControlPendingResponse = false)
        _ _ ?_ hc
      intro a ha
      unfold Client.WorkersSetCommandPending.reset
      cases h1 : a.m_ControlEnabled <;> simp_all [ServerState.controlFlagsOK]
  exact fun b hb => (h b hb).1

theorem step_preserves_controlFlagsOK (c : Client) (ev : Event)
    (hc : ∀ a ∈ c.m_ServerList, a.controlFlagsOK = true) :
    ∀ b ∈ (step c ev).1.m_ServerList, b.controlFlagsOK = true := by
  cases ev with
  | lookForWorkers now s cr nd =>
    exact forall_of_map_key _ _
      (LookForWorkers_map_same ServerState.controlKey (fun _ _ => rfl) (fun _ _ _ _ => rfl)
        c now s cr nd) hc
  | communicateJobAvailability now n =>
    simp only [step, Client.CommunicateJobAvailability]
    split
    · exact hc
    · split
      · exact hc
      · simp only [CommunicateJobAvailability_loop_map]
        refine forall_mem_map (P := fun a => a.controlFlagsOK = true)
          (Q := fun b => b.controlFlagsOK = true) _ _ ?_ hc
        intro a ha
        refine controlFlagsOK_of_key a _ ?_ ha
        unfold Client.CommunicateJobAvailability.entry
        split <;> [split; skip] <;> rfl
  | communicateCommands =>
    simp only [step, Client.CommunicateCommands]
    split
    · exact hc
    · simp only [CommunicateCommands_loop_map]
      exact forall_mem_map (P := fun a => a.controlFlagsOK = true)
        (Q := fun b => b.controlFlagsOK = true) _ _ (CommunicateCommands_entry_ok _) hc
  | onDisconnected index =>
    refine forall_of_map_key _ _ (onEntry_map_same ServerState.controlKey c index _ ?_) hc
    intro ss
    unfold Client.OnDisconnected
    split <;> rfl
  | requestJob index queueJob =>
    refine forall_of_map_key _ _ (onEntry_map_same ServerState.controlKey c index _ ?_) hc
    intro ss
    unfold Client.Process_MsgRequestJob
    split <;> [skip; split] <;> rfl
  | jobResult index p env =>
    refine forall_of_map_key _ _ (onEntry_map_same ServerState.controlKey c index _ ?_) hc
    intro ss
    unfold Client.Process_MsgJobResult
    simp only []
    split
    · rfl
    · split
      · rfl
      · split
        · split <;> rfl
        · rfl
  | serverInfo index msg payload now =>
    simp only [step]
    split
    · exact hc
    · rename_i ss hss
      exact forall_mem_set _ _ _ hc
        (Process_MsgServerInfo_ok ss msg payload now _ (hc ss (List.getElem?_mem hss)))
  | setControlMessage msg e => exact hc
  | workersSetCommandPending workers => exact WorkersSetCommandPending_ok c workers hc
  | workersGetLastCommandResult =>
    simp only [step, Client.WorkersGetLastCommandResult,
      WorkersGetLastCommandResult_loop_map]
    exact forall_mem_map (P := fun a => a.controlFlagsOK = true)
      (Q := fun b => b.controlFlagsOK = true) _ _ WorkersGetLastCommandResult_entry_ok hc

theorem run_preserves_controlFlagsOK (c : Client) (evs : List Event)
    (hc : ∀ a ∈ c.m_ServerList, a.controlFlagsOK = true) :
    ∀ b ∈ (run c evs).1.m_ServerList, b.controlFlagsOK = true := by
  induction evs generalizing c with
  | nil => exact hc
  | cons ev rest ih =>
    simp only [run]
    exact ih _ (step_preserves_controlFlagsOK c ev hc)

theorem initServerList_controlFlagsOK (now : Int) (first : Nat) (cl : List String) (i : Nat)
    (wl : List String) :
    ∀ a ∈ Client.initServerList now first cl i wl, a.controlFlagsOK = true := by
  induction wl generalizing i with
  | nil => simp [Client.initServerList]
  | cons w rest ih =>
    intro a ha
    simp only [Client.initServerList, List.mem_cons] at ha
    rcases ha with ha | ha
    · subst ha
      split <;> simp [ServerState.controlFlagsOK, ServerState.new]
    · exact ih _ a ha

/-- C5: in every state reached from a freshly constructed client by any sequence of atomic
steps (`WorkersSetCommandPending`, `CommunicateCommands`, `Process( MsgServerInfo )`,
`WorkersGetLastCommandResult`, and every other step of the client, in any order), no
ServerState has `m_ControlPendingSend` and `m_ControlPendingResponse` both set. -/
theorem C5_pending_send_and_response_exclusive
    (buildWorkerList controlWorkerList : List String) (port limit : Nat)
    (detailedLogging : Bool) (now : Int) (evs : List Event) :
    ∀ ss ∈ (run (Client.new buildWorkerList controlWorkerList port limit detailedLogging now)
        evs).1.m_ServerList,
      ¬ (ss.m_ControlPendingSend = true ∧ ss.m_ControlPendingResponse = true) := by
  intro ss hss
  have h := run_preserves_controlFlagsOK _ evs
    (by simpa [Client.new] using initServerList_controlFlagsOK now _ _ 0 _) ss hss
  intro hboth
  simp [ServerState.controlFlagsOK, hboth.1, hboth.2] at h

/-- C4 (code evaluated at the failing input): on a fresh client with the single control
worker `w`, `WorkersSetCommandPending` called with the list `w, w` stores 2 in
`m_ControlPendingSendCounter` while exactly one entry has `m_ControlPendingSend` set; after
the worker connects and `CommunicateCommands` has sent the command, the counter is still 1
although no entry is pending any more. -/
theorem C4_send_counter_overcounts_repeated_name :
    (run (Client.new [] ["w"] 31264 8 false 0)
        [.setControlMessage (.MsgSetMode 0 0) false,
         .workersSetCommandPending ["w", "w"]]).1.m_ControlPendingSendCounter = 2
    ∧ (run (Client.new [] ["w"] 31264 8 false 0)
        [.setControlMessage (.MsgSetMode 0 0) false,
         .workersSetCommandPending ["w", "w"]]).1.m_ServerList.countP
          (fun ss => ss.m_ControlPendingSend) = 1
    ∧ (run (Client.new [] ["w"] 31264 8 false 0)
        [.setControlMessage (.MsgSetMode 0 0) false,
         .workersSetCommandPending ["w", "w"],
         .lookForWorkers 0 0 (some 1) 0,
         .communicateCommands]).1.m_ControlPendingSendCounter = 1
    ∧ (run (Client.new [] ["w"] 31264 8 false 0)
        [.setControlMessage (.MsgSetMode 0 0) false,
         .workersSetCommandPending ["w", "w"],
         .lookForWorkers 0 0 (some 1) 0,
         .communicateCommands]).1.m_ServerList.countP
          (fun ss => ss.m_ControlPendingSend) = 0 := by
  decide

theorem connectAttempts_append (e1 e2 : List Effect) :
    connectAttempts (e1 ++ e2) = connectAttempts e1 ++ connectAttempts e2 := by
  induction e1 with
  | nil => rfl
  | cons e rest ih => cases e <;> simp [connectAttempts, ih]

theorem scan_some (sl : List ServerState) (now : Int) (s n : Nat) (js : List Nat) (i : Nat)
    (h : Client.LookForWorkers.scan sl now s n js = some i) :
    ∃ ss, sl[i]? = some ss ∧ ss.eligible now = true ∧ ∃ j ∈ js, i = (j + s) % n := by
  induction js with
  | nil => simp [Client.LookForWorkers.scan] at h
  | cons j rest ih =>
    simp only [Client.LookForWorkers.scan] at h
    have hrest : Client.LookForWorkers.scan sl now s n rest = some i →
        ∃ ss, sl[i]? = some ss ∧ ss.eligible now = true ∧ ∃ j2 ∈ j :: rest, i = (j2 + s) % n := by
      intro h2
      obtain ⟨ss, h3, h4, j2, h5, h6⟩ := ih h2
      exact ⟨ss, h3, h4, j2, List.mem_cons_of_mem _ h5, h6⟩
    split at h
    · exact hrest h
    · rename_i ss hss
      split at h
      · exact hrest h
      · split at h
        · exact hrest h
        · split at h
          · exact hrest h
          · rename_i h1 h2 h3
            simp only [Option.some.injEq] at h
            subst h
            refine ⟨ss, hss, ?_, j, List.mem_cons_self _ _, rfl⟩
            simp only [ServerState.eligible, Bool.and_eq_true, Bool.or_eq_true,
              Bool.not_eq_true', decide_eq_false_iff_not]
            refine ⟨⟨?_, ?_⟩, h3⟩
            · cases hc : ss.m_Connection <;> simp_all
            · cases hb : ss.m_BuildJobsEnabled <;> cases hce : ss.m_ControlEnabled <;> simp_all

theorem scan_none (sl : List ServerState) (now : Int) (s n : Nat) (js : List Nat)
    (h : Client.LookForWorkers.scan sl now s n js = none) :
    ∀ j ∈ js, ∀ ss, sl[(j + s) % n]? = some ss → ss.eligible now = false := by
  induction js with
  | nil => simp
  | cons j rest ih =>
    simp only [Client.LookForWorkers.scan] at h
    intro j2 hj2 ss hss
    rcases List.mem_cons.mp hj2 with hj | hj
    · subst hj
      rw [hss] at h
      simp only [] at h
      cases hc : ss.m_Connection with
      | some conn => simp [ServerState.eligible, hc]
      | none =>
        simp only [hc, Option.isSome_none, Bool.false_eq_true, ↓reduceIte] at h
        split at h
        · rename_i h1
          cases hb : ss.m_BuildJobsEnabled <;> cases hce : ss.m_ControlEnabled <;>
            simp_all [ServerState.eligible]
        · split at h
          · rename_i h1 h2
            simp [ServerState.eligible, h2]
          · simp at h
    · apply ih _ j2 hj ss hss
      split at h
      · exact h
      · split at h
        · exact h
        · split at h
          · exact h
          · split at h
            · exact h
            · simp at h

theorem LookForWorkers_cases (c : Client) (now : Int) (s : Nat)
    (cr : Option ConnectionInfo) (nd : Nat) :
    (connectAttempts (c.LookForWorkers now s cr nd).2 = []
      ∧ (c.LookForWorkers now s cr nd).1 = c)
    ∨ ∃ i ss x, c.m_ServerList[i]? = some ss ∧ ss.eligible now = true
        ∧ connectAttempts (c.LookForWorkers now s cr nd).2 = [i]
        ∧ (c.LookForWorkers now s cr nd).1.m_ServerList = c.m_ServerList.set i x
        ∧ (cr = none → x.m_DelayTimer = Timer.Start now 0)
        ∧ (cr ≠ none → x.m_DelayTimer = ss.m_DelayTimer) := by
  unfold Client.LookForWorkers
  simp only []
  split
  · exact Or.inl ⟨rfl, rfl⟩
  · split
    · exact Or.inl ⟨rfl, rfl⟩
    · split
      · exact Or.inl ⟨rfl, rfl⟩
      · rename_i i hscan
        obtain ⟨ss, hss, hel, -⟩ := scan_some _ _ _ _ _ _ hscan
        rw [hss]
        simp only []
        cases cr with
        | none =>
          exact Or.inr ⟨i, ss, _, hss, hel, rfl, rfl, fun _ => rfl, fun h => absurd rfl h⟩
        | some ci =>
          exact Or.inr ⟨i, ss, _, hss, hel, rfl, rfl, fun h => by simp at h, fun _ => rfl⟩

theorem not_eligible_of_timer (ss : ServerState) (t now : Int)
    (hs : ss.m_DelayTimer = { m_StartTime := t })
    (hw : now - t < CONNECTION_REATTEMPT_DELAY_TIME) : ss.eligible now = false := by
  simp [ServerState.eligible, Timer.GetElapsed, hs, hw]

theorem step_timer_frame (c : Client) (ev : Event)
    (hev : ∀ now s cr nd, ev ≠ .lookForWorkers now s cr nd) :
    (step c ev).1.m_ServerList.map (fun ss => ss.m_DelayTimer)
      = c.m_ServerList.map (fun ss => ss.m_DelayTimer) := by
  by_cases hcs : ev.isControlOrStatus = true
  · exact step_control_map_same (fun ss => ss.m_DelayTimer)
      (fun n a => by unfold Client.CommunicateJobAvailability.entry; split <;> [split; skip] <;> rfl)
      (fun e a => by
        unfold Client.CommunicateCommands.entry
        split <;> [(split <;> [split; skip]); skip] <;> rfl)
      (fun a msg payload now rc => by
        unfold Client.Process_MsgServerInfo
        simp only []
        split <;> split <;> rfl)
      (fun a => by unfold Client.WorkersSetCommandPending.reset; split <;> rfl)
      (fun a => rfl)
      (fun a => by
        unfold Client.WorkersGetLastCommandResult.entry
        split <;> [(split <;> [skip; split]); skip] <;> rfl)
      c ev hcs
  · cases ev with
    | lookForWorkers now s cr nd => exact absurd rfl (hev now s cr nd)
    | onDisconnected index =>
      refine onEntry_map_same _ c index _ ?_
      intro ss
      unfold Client.OnDisconnected
      split <;> rfl
    | requestJob index queueJob =>
      refine onEntry_map_same _ c index _ ?_
      intro ss
      unfold Client.Process_MsgRequestJob
      split <;> [skip; split] <;> rfl
    | jobResult index p env =>
      refine onEntry_map_same _ c index _ ?_
      intro ss
      unfold Client.Process_MsgJobResult
      simp only []
      split
      · rfl
      · split
        · rfl
        · split
          · split <;> rfl
          · rfl
    | communicateJobAvailability _ _ => simp [Event.isControlOrStatus] at hcs
    | communicateCommands => simp [Event.isControlOrStatus] at hcs
    | serverInfo _ _ _ _ => simp [Event.isControlOrStatus] at hcs
    | setControlMessage _ _ => simp [Event.isControlOrStatus] at hcs
    | workersSetCommandPending _ => simp [Event.isControlOrStatus] at hcs
    | workersGetLastCommandResult => simp [Event.isControlOrStatus] at hcs

theorem writeOutputs_no_connect (job : Job) (bt : Nat) (env : JobResultEnv) :
    connectAttempts (Client.Process_MsgJobResult.writeOutputs job bt env).2 = [] := by
  unfold Client.Process_MsgJobResult.writeOutputs
  simp only [connectAttempts_append]
  split_ifs <;> simp [connectAttempts, connectAttempts_append]

theorem Process_MsgJobResult_no_connect (ss : ServerState) (p : JobResultPayload)
    (env : JobResultEnv) :
    connectAttempts (Client.Process_MsgJobResult ss p env).2 = [] := by
  unfold Client.Process_MsgJobResult
  simp only []
  split
  · rfl
  · split_ifs <;>
      simp [connectAttempts, connectAttempts_append, writeOutputs_no_connect]

theorem step_no_connect (c : Client) (ev : Event)
    (hev : ∀ now s cr nd, ev ≠ .lookForWorkers now s cr nd) :
    connectAttempts (step c ev).2 = [] := by
  cases ev with
  | lookForWorkers now s cr nd => exact absurd rfl (hev now s cr nd)
  | communicateJobAvailability now n =>
    simp only [step, Client.CommunicateJobAvailability]
    split
    · rfl
    · split
      · rfl
      · simp only []
        generalize c.m_ServerList = sl
        induction sl with
        | nil => rfl
        | cons ss rest ih =>
          simp only [Client.CommunicateJobAvailability.loop]
          split
          · split
            · simpa [connectAttempts] using ih
            · exact ih
          · exact ih
  | communicateCommands =>
    simp only [step, Client.CommunicateCommands]
    split
    · rfl
    · simp only []
      generalize c.m_ServerList = sl
      generalize c.m_ControlPendingSendCounter = sc
      generalize c.m_ControlPendingReceiveCounter = rc
      induction sl generalizing sc rc with
      | nil => rfl
      | cons ss rest ih =>
        simp only [Client.CommunicateCommands.loop]
        split
        · split
          · simp only [connectAttempts_append, ih]
            cases c.m_ControlMessage <;> rfl
          · exact ih _ _
        · exact ih _ _
  | onDisconnected index =>
    simp only [step, onEntry]
    split
    · rfl
    · simp only [Client.OnDisconnected]
      rename_i ss hss
      split
      · generalize ss.m_Jobs = jobs
        induction jobs with
        | nil => rfl
        | cons j rest ih => simpa [Client.OnDisconnected.loop, connectAttempts] using ih
      · rfl
  | requestJob index queueJob =>
    simp only [step, onEntry]
    split
    · rfl
    · simp only [Client.Process_MsgRequestJob]
      split <;> [skip; split] <;> rfl
  | jobResult index p env =>
    simp only [step, onEntry]
    split
    · rfl
    · exact Process_MsgJobResult_no_connect _ _ _
  | serverInfo index msg payload now =>
    simp only [step]
    split <;> rfl
  | setControlMessage msg e => rfl
  | workersSetCommandPending workers => rfl
  | workersGetLastCommandResult => rfl

theorem timerStartedAt_step (c : Client) (ev : Event) (w : Nat) (t : Int)
    (hT : timerStartedAt c w t) (hwin : lookupsWithin t [ev] = true) :
    timerStartedAt (step c ev).1 w t ∧ w ∉ connectAttempts (step c ev).2 := by
  by_cases hev : ∀ now s cr nd, ev ≠ .lookForWorkers now s cr nd
  · constructor
    · unfold timerStartedAt at hT ⊢
      rw [step_timer_frame c ev hev]
      exact hT
    · simp [step_no_connect c ev hev]
  · push_neg at hev
    obtain ⟨now, s, cr, nd, rfl⟩ := hev
    have hw : now - t < CONNECTION_REATTEMPT_DELAY_TIME := by
      simpa [lookupsWithin] using hwin
    simp only [step]
    rcases LookForWorkers_cases c now s cr nd with ⟨h1, h2⟩ | ⟨i, ss, x, hss, hel, h1, h2, -, -⟩
    · rw [h1, h2]
      exact ⟨hT, by simp⟩
    · have hne : i ≠ w := by
        intro hiw
        subst hiw
        unfold timerStartedAt at hT
        rw [List.getElem?_map, hss] at hT
        simp only [Option.map_some', Option.some.injEq] at hT
        rw [not_eligible_of_timer ss t now hT hw] at hel
        exact Bool.false_ne_true hel
      constructor
      · unfold timerStartedAt at hT ⊢
        rw [h2, List.map_set, List.getElem?_set_ne hne]
        exact hT
      · rw [h1]
        simpa using fun h => hne h.symm

theorem timerStartedAt_run (c : Client) (evs : List Event) (w : Nat) (t : Int)
    (hT : timerStartedAt c w t) (hwin : lookupsWithin t evs = true) :
    timerStartedAt (run c evs).1 w t ∧ w ∉ connectAttempts (run c evs).2 := by
  induction evs generalizing c with
  | nil => exact ⟨hT, by simp [run, connectAttempts]⟩
  | cons ev rest ih =>
    have h1 : lookupsWithin t [ev] = true ∧ lookupsWithin t rest = true := by
      cases ev <;> simp_all [lookupsWithin]
    have hs := timerStartedAt_step c ev w t hT h1.1
    have hr := ih (step c ev).1 hs.1 h1.2
    simp only [run, connectAttempts_append, List.mem_append, not_or]
    exact ⟨hr.1, hs.2, hr.2⟩

theorem failed_attempt_starts_timer (c : Client) (t : Int) (s nd : Nat) (w : Nat)
    (hfail : w ∈ connectAttempts (c.LookForWorkers t s none nd).2) :
    timerStartedAt (c.LookForWorkers t s none nd).1 w t := by
  rcases LookForWorkers_cases c t s none nd with ⟨h1, -⟩ | ⟨i, ss, x, hss, hel, h1, h2, h3, -⟩
  · rw [h1] at hfail
    simp at hfail
  · rw [h1] at hfail
    simp only [List.mem_singleton] at hfail
    subst hfail
    unfold timerStartedAt
    rw [h2, List.map_set, List.getElem?_set_self (by
      simp only [List.length_map]
      exact (List.getElem?_eq_some.mp hss).1), h3 rfl]
    simp [Timer.Start]

theorem exists_scan_position (k n s : Nat) (hk : k < n) :
    ∃ j, j < n ∧ (j + s) % n = k := by
  refine ⟨(k + n - s % n) % n, Nat.mod_lt _ (by omega), ?_⟩
  have hr : s % n < n := Nat.mod_lt _ (by omega)
  have hs : n * (s / n) + s % n = s := Nat.div_add_mod s n
  rw [Nat.mod_add_mod]
  have h2 : k + n - s % n + s = k + n * (s / n + 1) := by
    rw [Nat.mul_add, Nat.mul_one]
    omega
  rw [h2, Nat.add_mul_mod_self_left, Nat.mod_eq_of_lt hk]

theorem scan_range_complete (sl : List ServerState) (now : Int) (s : Nat) (k : Nat)
    (ss : ServerState) (hss : sl[k]? = some ss) (hel : ss.eligible now = true) :
    Client.LookForWorkers.scan sl now s sl.length (List.range sl.length) ≠ none := by
  intro hnone
  have hk : k < sl.length := (List.getElem?_eq_some.mp hss).1
  obtain ⟨j, hj, hjk⟩ := exists_scan_position k sl.length s hk
  have h := scan_none sl now s sl.length _ hnone j (List.mem_range.mpr hj) ss
    (by rw [hjk]; exact hss)
  rw [hel] at h
  exact Bool.noConfusion h

theorem LookForWorkers_attempts_eligible (c : Client) (now : Int) (s : Nat)
    (cr : Option ConnectionInfo) (nd : Nat) (k : Nat) (ssk : ServerState)
    (hlimit : c.m_ServerList.countP (fun ss => ss.m_Connection.isSome)
      < c.m_WorkerConnectionLimit)
    (hk : c.m_ServerList[k]? = some ssk) (hel : ssk.eligible now = true) :
    ∃ i ss, c.m_ServerList[i]? = some ss ∧ ss.eligible now = true
      ∧ connectAttempts (c.LookForWorkers now s cr nd).2 = [i] := by
  have hne : c.m_ServerList.countP (fun ss => ss.m_Connection.isSome)
      ≠ c.m_ServerList.length := by
    intro h
    have hall := List.countP_eq_length.mp h ssk (List.getElem?_mem hk)
    simp only [ServerState.eligible, Bool.and_eq_true] at hel
    cases hc : ssk.m_Connection <;> simp_all
  have hscan := scan_range_complete c.m_ServerList now s k ssk hk hel
  unfold Client.LookForWorkers
  simp only []
  rw [if_neg (by omega), if_neg hne]
  cases hsc : Client.LookForWorkers.scan c.m_ServerList now s c.m_ServerList.length
      (List.range c.m_ServerList.length) with
  | none => exact absurd hsc hscan
  | some i =>
    obtain ⟨ss, hss, hel2, -⟩ := scan_some _ _ _ _ _ _ hsc
    simp only [hss]
    refine ⟨i, ss, hss, hel2, ?_⟩
    cases cr <;> rfl

/-- C6: if `LookForWorkers`, run at instant `t`, attempts a connection to entry `w` and the
attempt fails, then along every later sequence of atomic steps of the client in which each
`LookForWorkers` pass runs at an instant `now` with `now - t < 10 s`, no pass hands entry
`w` to `Connect`. The cooldown blocks only `w`: in the state reached, a pass within the
window that finds the client below its connection limit and some entry eligible (not
connected, build- or control-enabled, past its own delay) attempts exactly one
connection, to an eligible entry other than `w`. -/
theorem C6_reconnect_cooldown (c : Client) (t : Int) (s nd : Nat) (w : Nat)
    (evs : List Event)
    (hfail : w ∈ connectAttempts (c.LookForWorkers t s none nd).2)
    (hwin : lookupsWithin t evs = true) :
    w ∉ connectAttempts (run (c.LookForWorkers t s none nd).1 evs).2
    ∧ ∀ (now : Int) (s2 nd2 : Nat) (cr : Option ConnectionInfo) (k : Nat) (ssk : ServerState),
        now - t < CONNECTION_REATTEMPT_DELAY_TIME →
        (run (c.LookForWorkers t s none nd).1 evs).1.m_ServerList.countP
            (fun ss => ss.m_Connection.isSome)
          < (run (c.LookForWorkers t s none nd).1 evs).1.m_WorkerConnectionLimit →
        (run (c.LookForWorkers t s none nd).1 evs).1.m_ServerList[k]? = some ssk →
        ssk.eligible now = true →
        ∃ i, i ≠ w ∧ connectAttempts
          ((run (c.LookForWorkers t s none nd).1 evs).1.LookForWorkers now s2 cr nd2).2 = [i] := by
  have hT := timerStartedAt_run _ evs w t (failed_attempt_starts_timer c t s nd w hfail) hwin
  refine ⟨hT.2, ?_⟩
  intro now s2 nd2 cr k ssk hnow hlimit hk hel
  obtain ⟨i, ss, hss, hel2, hatt⟩ :=
    LookForWorkers_attempts_eligible _ now s2 cr nd2 k ssk hlimit hk hel
  refine ⟨i, ?_, hatt⟩
  intro hiw
  subst hiw
  have h1 := hT.1
  unfold timerStartedAt at h1
  rw [List.getElem?_map, hss] at h1
  simp only [Option.map_some', Option.some.injEq] at h1
  rw [not_eligible_of_timer ss t now h1 hnow] at hel2
  exact Bool.false_ne_true hel2

/-- Witness for C6: the first pass at instant 0 fails on entry 0; the later passes within
10 s go to entry 1 or make no attempt. -/
theorem C6_reconnect_cooldown_witness :
    0 ∈ connectAttempts (C6_client.LookForWorkers 0 0 none 3).2
    ∧ lookupsWithin 0 C6_events = true
    ∧ 0 ∉ connectAttempts (run (C6_client.LookForWorkers 0 0 none 3).1 C6_events).2
    ∧ connectAttempts (run (C6_client.LookForWorkers 0 0 none 3).1 C6_events).2 = [1] :=
  ⟨by decide, by decide,
    (C6_reconnect_cooldown C6_client 0 0 3 0 C6_events (by decide) (by decide)).1,
    by decide⟩

/-- C7 (as stated, refuted): a worker connects at instant 0; its connection drops and
`LookForWorkers` runs at instant 5000, that is at most 5 s after the disconnect; the pass
hands the same entry to `Connect` again, because `OnDisconnected` left its delay timer
where the constructor had put it. -/
theorem C7_reconnect_attempt_within_delay_of_disconnect :
    (run (Client.new ["w1"] [] 31264 8 false 0)
        [.lookForWorkers 0 0 (some 1) 0]).1.m_ServerList.map (fun ss => ss.m_Connection)
      = [some 1]
    ∧ connectAttempts (run (Client.new ["w1"] [] 31264 8 false 0)
        [.lookForWorkers 0 0 (some 1) 0, .onDisconnected 0,
         .lookForWorkers 5000 0 none 0]).2 = [0, 0]
    ∧ (run (Client.new ["w1"] [] 31264 8 false 0)
        [.lookForWorkers 0 0 (some 1) 0, .onDisconnected 0]).1.m_ServerList.map
          (fun ss => ss.m_DelayTimer)
      = (Client.new ["w1"] [] 31264 8 false 0).m_ServerList.map (fun ss => ss.m_DelayTimer) := by
  decide

/-- C7 (amended): `Client::OnDisconnected` leaves the entry's reconnect-delay timer
unchanged, so right after it the entry passes the three tests of the `LookForWorkers` scan
at instant `now` exactly when it is build- or control-enabled and its timer, last started
by a failed connection attempt or by the constructor, has reached 10 s. -/
theorem C7_disconnect_keeps_delay_timer (ss : ServerState) (now : Int) :
    (Client.OnDisconnected ss).1.m_DelayTimer = ss.m_DelayTimer
    ∧ (Client.OnDisconnected ss).1.eligible now
        = ((ss.m_BuildJobsEnabled || ss.m_ControlEnabled)
            && !decide (ss.m_DelayTimer.GetElapsed now < CONNECTION_REATTEMPT_DELAY_TIME)) := by
  unfold Client.OnDisconnected
  cases h : ss.m_Jobs <;> simp [ServerState.eligible, h]

theorem iterate_dec_succ (n x : Nat) :
    AtomicDecU32^[n + 1] x = AtomicDecU32^[n] (AtomicDecU32 x) :=
  Function.iterate_succ_apply _ _ _

theorem reached_controlFlagsOK (buildWorkerList controlWorkerList : List String)
    (port limit : Nat) (detailedLogging : Bool) (now : Int) (evs : List Event) :
    ∀ ss ∈ (run (Client.new buildWorkerList controlWorkerList port limit detailedLogging now)
        evs).1.m_ServerList, ss.controlFlagsOK = true :=
  run_preserves_controlFlagsOK _ evs
    (by simpa [Client.new] using initServerList_controlFlagsOK now _ _ 0 _)

theorem accumulate_busy (ss : ServerState) (t : GatherTotals) (b : Int)
    (h : t.numCPUBusy = some b) :
    (Client.WorkersGatherInfo.accumulate ss t).numCPUBusy = some (b + ss.m_InfoNumCPUBusy) := by
  simp [Client.WorkersGatherInfo.accumulate, h]

theorem WorkersGatherInfo_loop_busy (fe : FloatEnv) (level : Int) (sl : List ServerState)
    (count : Nat) (totals : GatherTotals) (b : Int) (h : totals.numCPUBusy = some b) :
    ∃ b2, (Client.WorkersGatherInfo.loop fe level sl count totals).2.numCPUBusy = some b2
      ∧ b ≤ b2 := by
  induction sl generalizing count totals b with
  | nil => exact ⟨b, h, le_refl b⟩
  | cons ss rest ih =>
    unfold Client.WorkersGatherInfo.loop
    split
    · obtain ⟨b2, h2, h3⟩ := ih (count + 1) _ _ (accumulate_busy ss totals b h)
      refine ⟨b2, h2, ?_⟩
      have : (0 : Int) ≤ (ss.m_InfoNumCPUBusy : Int) := Int.ofNat_nonneg _
      omega
    · exact ih count totals b h

theorem WorkersGatherInfo_busy (c : Client) (fe : FloatEnv) (level : Int)
    (totals : GatherTotals) (b : Int) (h : totals.numCPUBusy = some b) :
    ∃ b2, (c.WorkersGatherInfo fe level totals).2.numCPUBusy = some b2 ∧ b ≤ b2 :=
  WorkersGatherInfo_loop_busy fe level c.m_ServerList 0 totals b h

/-- Whatever the workers report, the busy-CPU accumulator of `Client::WorkersWaitIdle`
stays at least 1 (it starts at 1 and `WorkersGatherInfo` only adds to it), so the loop test
never fails on `numCPUBusy > 0`: when the loop is seen to exit, the command result is false
or a reading of the clock is at or past the deadline. -/
theorem WorkersWaitIdle_loop_busy_positive (workers : List String) (timeout level : Int)
    (fe : FloatEnv) (rounds : List WaitIdleRound) (c : Client) (res : Bool)
    (totals : GatherTotals) (b : Int) (h : totals.numCPUBusy = some b) (hb : 1 ≤ b) :
    (∃ b2, (Client.WorkersWaitIdle.loop workers timeout level fe rounds c res
        totals).totals.numCPUBusy = some b2 ∧ 1 ≤ b2)
    ∧ ((Client.WorkersWaitIdle.loop workers timeout level fe rounds c res totals).exited = true →
        (Client.WorkersWaitIdle.loop workers timeout level fe rounds c res totals).res = false
        ∨ ∃ rd ∈ rounds, timeout ≠ 0 ∧ timeout * 1000 ≤ rd.elapsed) := by
  induction rounds generalizing c res totals b with
  | nil =>
    refine ⟨⟨b, h, hb⟩, ?_⟩
    intro hex
    simp [Client.WorkersWaitIdle.loop] at hex
  | cons r rest ih =>
    unfold Client.WorkersWaitIdle.loop
    split
    · simp only []
      obtain ⟨b2, h2, h3⟩ := WorkersGatherInfo_busy
        (run (c.WorkersSetCommandPending workers) r.env).1.WorkersGetLastCommandResult.1
        fe level totals b h
      obtain ⟨i1, i2⟩ := ih
        (run (c.WorkersSetCommandPending workers) r.env).1.WorkersGetLastCommandResult.1
        (run (c.WorkersSetCommandPending workers) r.env).1.WorkersGetLastCommandResult.2
        _ b2 h2 (by omega)
      refine ⟨i1, ?_⟩
      intro hex
      rcases i2 hex with h4 | ⟨rd, h5, h6⟩
      · exact Or.inl h4
      · exact Or.inr ⟨rd, List.mem_cons_of_mem _ h5, h6⟩
    · rename_i htest
      refine ⟨⟨b, h, hb⟩, ?_⟩
      intro _
      simp only [Client.WorkersWaitIdle.test, h, Option.getD_some, Bool.and_eq_true,
        Bool.or_eq_true, decide_eq_true_eq, not_and, not_or] at htest
      cases hres : res with
      | false => exact Or.inl rfl
      | true =>
        right
        have h7 := htest ⟨hres, by omega⟩
        exact ⟨r, List.mem_cons_self _ _, h7.1, by omega⟩

/-- C9 (code evaluated at the failing input): one control worker, connected; the caller
waits up to 60 s. In the first round the worker answers that none of its CPUs is busy, the
command result is true and 0.2 s have elapsed at the next loop test, yet
`WorkersWaitIdle` issues a second round; it leaves the loop only at the third test, when
the clock reads 60 s. The busy-CPU accumulator is 1 throughout: its initial value, to which
the reported zeros were added. -/
theorem C9_wait_idle_keeps_polling_idle_workers :
    (connectedControlClient.WorkersWaitIdle ["w"] 60 0 sampleFloatEnv [] C9_rounds).rounds = 2
    ∧ (connectedControlClient.WorkersWaitIdle ["w"] 60 0 sampleFloatEnv [] C9_rounds).exited
        = true
    ∧ (connectedControlClient.WorkersWaitIdle ["w"] 60 0 sampleFloatEnv [] C9_rounds).res = true
    ∧ (connectedControlClient.WorkersWaitIdle ["w"] 60 0 sampleFloatEnv []
        C9_rounds).totals.numCPUBusy = some 1
    ∧ (connectedControlClient.WorkersWaitIdle ["w"] 60 0 sampleFloatEnv []
        (C9_rounds.take 1)).client.m_ServerList.map
          (fun ss => (ss.m_ControlSuccess, ss.m_InfoNumCPUBusy)) = [(true, 0)] := by
  decide

theorem outputText_append_singleton (chunks : List String) (s : String) :
    outputText (chunks ++ [s]) = outputText chunks ++ s := by
  simp [outputText, List.foldl_append]

theorem jsonObject_ends (fe : FloatEnv) (level : Int) (ss : ServerState) (count : Nat) :
    ∃ init, Client.WorkersGatherInfo.jsonObject fe level ss count = init ++ ["\x7d\n"] :=
  ⟨_, rfl⟩

theorem WorkersGatherInfo_loop_json_ends (fe : FloatEnv) (level : Int) (hl : level ≤ -1)
    (sl : List ServerState) (count : Nat) (totals : GatherTotals) :
    (Client.WorkersGatherInfo.loop fe level sl count totals).1 = []
    ∨ ∃ init, (Client.WorkersGatherInfo.loop fe level sl count totals).1
        = init ++ ["\x7d\n"] := by
  induction sl generalizing count totals with
  | nil => exact Or.inl rfl
  | cons ss rest ih =>
    unfold Client.WorkersGatherInfo.loop
    split
    · have h1 : ¬ level ≥ 1 := by omega
      simp only [h1, hl, if_true, if_false]
      obtain ⟨init, hinit⟩ := jsonObject_ends fe level ss count
      rcases ih (count + 1) (Client.WorkersGatherInfo.accumulate ss totals) with h | ⟨init2, h⟩
      · right
        rw [h, List.append_nil]
        exact ⟨init, hinit⟩
      · right
        rw [h, ← List.append_assoc]
        exact ⟨_, rfl⟩
    · exact ih count totals

/-- For every negative info level and every table, the text written by
`Client::WorkersGatherInfo` ends with the opening `[` line (no worker reported) or with the
closing brace line of the last worker object: the closing `]` of the array is never
written. -/
theorem WorkersGatherInfo_json_never_closed (c : Client) (fe : FloatEnv) (n : Nat)
    (totals : GatherTotals) :
    ∃ pre, outputText (c.WorkersGatherInfo fe (-(n + 1 : Int)) totals).1 = pre ++ "[\n"
      ∨ outputText (c.WorkersGatherInfo fe (-(n + 1 : Int)) totals).1 = pre ++ "\x7d\n" := by
  have hl : (-(n + 1 : Int)) ≤ -1 := by omega
  have h1 : ¬ (-(n + 1 : Int)) ≥ 1 := by omega
  unfold Client.WorkersGatherInfo
  simp only [h1, hl, if_true, if_false, List.append_nil]
  rcases WorkersGatherInfo_loop_json_ends fe _ hl c.m_ServerList 0 totals with h | ⟨init, h⟩
  · refine ⟨"", Or.inl ?_⟩
    rw [h]
    rfl
  · refine ⟨outputText (["[\n"] ++ init), Or.inr ?_⟩
    rw [h, ← List.append_assoc, outputText_append_singleton]

/-- C10 (code evaluated at the failing input): after an info round trip with one
control worker that answered, the text written by the info display for level -1 is the
opening bracket and the worker object and then stops: no closing `]` is written. For an
empty report the text is the opening bracket line alone. -/
theorem C10_json_array_is_not_closed :
    outputText (connectedControlClient.WorkersDisplayInfo ["w"] (-1) sampleFloatEnv []
        [.communicateCommands, .serverInfo 0 idleInfo none 150]).2.2
      = "[\n  \x7b \"worker\":\"w\", \"mode\":\"idle\", \"cpu_total\":4, \"cpu_busy\":0, \"cpu_idle\":4, \"cpu_usage_total\":0.000000, \"cpu_usage_fastbuild\":0.000000\x7d\n"
    ∧ (connectedControlClient.WorkersDisplayInfo ["w"] (-1) sampleFloatEnv []
        [.communicateCommands, .serverInfo 0 idleInfo none 150]).2.1 = true
    ∧ outputText (connectedControlClient.WorkersGatherInfo sampleFloatEnv (-1) {}).1 = "[\n" := by
  decide

/-- Witness for C5 on a sample run that ends with the single entry waiting for its
response: the send flag is clear, the response flag is set. -/
theorem C5_pending_send_and_response_exclusive_witness :
    (run (Client.new [] ["w"] 31264 8 false 0) C5_events).1.m_ServerList.map
        (fun ss => (ss.m_ControlPendingSend, ss.m_ControlPendingResponse)) = [(false, true)]
    ∧ ¬ (((run (Client.new [] ["w"] 31264 8 false 0) C5_events).1.m_ServerList.getD 0
            (ServerState.new 0)).m_ControlPendingSend = true
        ∧ ((run (Client.new [] ["w"] 31264 8 false 0) C5_events).1.m_ServerList.getD 0
            (ServerState.new 0)).m_ControlPendingResponse = true) :=
  ⟨by decide, C5_pending_send_and_response_exclusive [] ["w"] 31264 8 false 0 C5_events _
    (by decide)⟩

theorem appendControlWorkers_spec (wl cl : List String) :
    ∃ ext, Client.appendControlWorkers wl cl = wl ++ ext ∧ ext.Nodup
      ∧ (∀ w ∈ ext, w ∈ cl ∧ w ∉ wl) ∧ (∀ w ∈ cl, w ∈ wl ∨ w ∈ ext) := by
  induction cl generalizing wl with
  | nil => exact ⟨[], by simp [Client.appendControlWorkers]⟩
  | cons w rest ih =>
    unfold Client.appendControlWorkers
    split
    · rename_i hw
      obtain ⟨ext, h1, h2, h3, h4⟩ := ih wl
      refine ⟨ext, h1, h2, ?_, ?_⟩
      · intro x hx
        exact ⟨List.mem_cons_of_mem _ (h3 x hx).1, (h3 x hx).2⟩
      · intro x hx
        rcases List.mem_cons.mp hx with rfl | hx
        · exact Or.inl hw
        · exact h4 x hx
    · rename_i hw
      obtain ⟨ext, h1, h2, h3, h4⟩ := ih (wl ++ [w])
      refine ⟨w :: ext, ?_, ?_, ?_, ?_⟩
      · rw [h1, List.append_assoc, List.singleton_append]
      · refine List.nodup_cons.mpr ⟨?_, h2⟩
        intro hmem
        exact (h3 w hmem).2 (by simp)
      · intro x hx
        rcases List.mem_cons.mp hx with rfl | hx
        · exact ⟨List.mem_cons_self _ _, hw⟩
        · refine ⟨List.mem_cons_of_mem _ (h3 x hx).1, ?_⟩
          intro hxw
          exact (h3 x hx).2 (List.mem_append_left _ hxw)
      · intro x hx
        rcases List.mem_cons.mp hx with rfl | hx
        · exact Or.inr (List.mem_cons_self _ _)
        · rcases h4 x hx with h | h
          · rcases List.mem_append.mp h with h | h
            · exact Or.inl h
            · right
              simp only [List.mem_singleton] at h
              subst h
              exact List.mem_cons_self _ _
          · exact Or.inr (List.mem_cons_of_mem _ h)

/-- C11 (as stated, refuted): a build-worker list that names a worker twice is copied
as it is, so the worker list holds that name twice. -/
theorem C11_repeated_build_worker_stays_repeated :
    (Client.new ["a", "a"] ["a", "b"] 31264 8 false 0).m_WorkerList = ["a", "a", "b"]
    ∧ ¬ (Client.new ["a", "a"] ["a", "b"] 31264 8 false 0).m_WorkerList.Nodup := by
  decide

theorem appendControlWorkers_ordered (wl cl : List String) :
    ∃ ext, Client.appendControlWorkers wl cl = wl ++ ext
      ∧ (∀ w, w ∈ ext ↔ w ∈ cl ∧ w ∉ wl)
      ∧ ext.Pairwise (fun x y => cl.indexOf x < cl.indexOf y) := by
  induction cl generalizing wl with
  | nil => exact ⟨[], by simp [Client.appendControlWorkers]⟩
  | cons w rest ih =>
    unfold Client.appendControlWorkers
    split
    · rename_i hw
      obtain ⟨ext, h1, h2, h3⟩ := ih wl
      refine ⟨ext, h1, ?_, ?_⟩
      · intro x
        rw [h2 x]
        constructor
        · intro h
          exact ⟨List.mem_cons_of_mem _ h.1, h.2⟩
        · intro h
          refine ⟨?_, h.2⟩
          rcases List.mem_cons.mp h.1 with hx | hx
          · exact absurd (hx ▸ hw) h.2
          · exact hx
      · refine List.Pairwise.imp_of_mem ?_ h3
        intro a b ha hb hab
        have ha2 : a ≠ w := fun e => ((h2 a).mp ha).2 (e ▸ hw)
        have hb2 : b ≠ w := fun e => ((h2 b).mp hb).2 (e ▸ hw)
        rw [List.indexOf_cons_ne _ ha2.symm, List.indexOf_cons_ne _ hb2.symm]
        omega
    · rename_i hw
      obtain ⟨ext, h1, h2, h3⟩ := ih (wl ++ [w])
      have hne : ∀ a ∈ ext, a ≠ w := by
        intro a ha e
        exact ((h2 a).mp ha).2 (by simp [e])
      refine ⟨w :: ext, ?_, ?_, ?_⟩
      · rw [h1, List.append_assoc, List.singleton_append]
      · intro x
        rw [List.mem_cons, h2 x]
        constructor
        · rintro (hx | hx)
          · subst hx
            exact ⟨List.mem_cons_self _ _, hw⟩
          · refine ⟨List.mem_cons_of_mem _ hx.1, ?_⟩
            intro hxw
            exact hx.2 (List.mem_append_left _ hxw)
        · rintro ⟨hx1, hx2⟩
          by_cases e : x = w
          · exact Or.inl e
          · right
            refine ⟨?_, ?_⟩
            · rcases List.mem_cons.mp hx1 with hx | hx
              · exact absurd hx e
              · exact hx
            · intro hm
              rcases List.mem_append.mp hm with hm | hm
              · exact hx2 hm
              · exact e (List.mem_singleton.mp hm)
      · refine List.pairwise_cons.mpr ⟨?_, ?_⟩
        · intro a ha
          rw [List.indexOf_cons_self, List.indexOf_cons_ne _ (hne a ha).symm]
          omega
        · refine List.Pairwise.imp_of_mem ?_ h3
          intro a b ha hb hab
          rw [List.indexOf_cons_ne _ (hne a ha).symm, List.indexOf_cons_ne _ (hne b hb).symm]
          omega

theorem nodup_of_pairwise_indexOf (cl ext : List String)
    (h : ext.Pairwise (fun x y => cl.indexOf x < cl.indexOf y)) : ext.Nodup := by
  refine List.Pairwise.imp ?_ h
  intro a b hab e
  subst e
  omega

/-- C11 (amended): for every build-worker list B and control-worker list C, the worker
list is B itself followed by the names of C that do not occur in B, each of them once and
in order of first occurrence in C (their first positions in C increase along the list):
every name of C is in the list, every worker taken from B precedes every worker that
occurs only in C, and the list has no repeated name whenever B has none. -/
theorem C11_worker_list (buildWorkerList controlWorkerList : List String) (port limit : Nat)
    (detailedLogging : Bool) (now : Int) :
    ∃ ext, (Client.new buildWorkerList controlWorkerList port limit detailedLogging
          now).m_WorkerList = buildWorkerList ++ ext
      ∧ ext.Nodup
      ∧ (∀ w ∈ ext, w ∈ controlWorkerList ∧ w ∉ buildWorkerList)
      ∧ (∀ w ∈ controlWorkerList, w ∈ buildWorkerList ∨ w ∈ ext)
      ∧ ext.Pairwise (fun x y => controlWorkerList.indexOf x < controlWorkerList.indexOf y)
      ∧ (∀ (i j : Nat) (v : String), i < buildWorkerList.length →
          (Client.new buildWorkerList controlWorkerList port limit detailedLogging
            now).m_WorkerList[j]? = some v → v ∉ buildWorkerList → i < j)
      ∧ (buildWorkerList.Nodup → (buildWorkerList ++ ext).Nodup) := by
  obtain ⟨ext, h1, h2, h3⟩ :=
    appendControlWorkers_ordered buildWorkerList controlWorkerList
  have hwl : (Client.new buildWorkerList controlWorkerList port limit detailedLogging
      now).m_WorkerList = buildWorkerList ++ ext := h1
  have hnd : ext.Nodup := nodup_of_pairwise_indexOf controlWorkerList ext h3
  refine ⟨ext, hwl, hnd, fun w hw => (h2 w).mp hw, ?_, h3, ?_, ?_⟩
  · intro w hw
    by_cases hB : w ∈ buildWorkerList
    · exact Or.inl hB
    · exact Or.inr ((h2 w).mpr ⟨hw, hB⟩)
  · intro i j v hi hv hvB
    rw [hwl] at hv
    by_contra hij
    rw [List.getElem?_append_left (by omega)] at hv
    exact hvB (List.getElem?_mem hv)
  · intro hB
    refine List.nodup_append.mpr ⟨hB, hnd, ?_⟩
    intro x hxB hxe
    exact ((h2 x).mp hxe).2 hxB

theorem initServerList_length (now : Int) (first : Nat) (cl : List String) (i : Nat)
    (wl : List String) : (Client.initServerList now first cl i wl).length = wl.length := by
  induction wl generalizing i with
  | nil => rfl
  | cons w rest ih => simp [Client.initServerList, ih]

theorem initServerList_getElem (now : Int) (first : Nat) (cl : List String) (i : Nat)
    (wl : List String) (k : Nat) (ss : ServerState) (w : String)
    (hss : (Client.initServerList now first cl i wl)[k]? = some ss) (hw : wl[k]? = some w) :
    (ss.m_BuildJobsEnabled = true ↔ i + k < first)
    ∧ (ss.m_ControlEnabled = true ↔ (i + k < first → w ∈ cl)) := by
  induction wl generalizing i k with
  | nil => simp at hw
  | cons w0 rest ih =>
    cases k with
    | zero =>
      simp only [Client.initServerList, List.getElem?_cons_zero, Option.some.injEq] at hss hw
      subst hw
      subst hss
      by_cases h : i < first
      · simp [h]
      · simp [h]
    | succ k =>
      simp only [Client.initServerList, List.getElem?_cons_succ] at hss hw
      have := ih (i + 1) k hss hw
      rw [show i + (k + 1) = i + 1 + k by omega]
      exact this

/-- C12: for every build-worker list B and control-worker list C, the constructed worker
list is B followed by the names of C that are not in B, each once, and the server table has
exactly one entry per name of it, `|B|` plus the number of those names: for every index `i`
below that size there is an entry `i` and a worker name `i`, the entry has
`m_BuildJobsEnabled` set if and only if `i < |B|` and `m_ControlEnabled` set if and only if
the `i`-th worker name occurs in C; so every entry has at least one capability, and a worker
named in both lists has an entry, and each of its entries has both. -/
theorem C12_server_table_capabilities (buildWorkerList controlWorkerList : List String)
    (port limit : Nat) (detailedLogging : Bool) (now : Int) :
    ∃ ext : List String,
      ext.Nodup
      ∧ (∀ w, w ∈ ext ↔ w ∈ controlWorkerList ∧ w ∉ buildWorkerList)
      ∧ (Client.new buildWorkerList controlWorkerList port limit detailedLogging
          now).m_WorkerList = buildWorkerList ++ ext
      ∧ (Client.new buildWorkerList controlWorkerList port limit detailedLogging
          now).m_ServerList.length = buildWorkerList.length + ext.length
      ∧ (∀ i, i < buildWorkerList.length + ext.length →
          ∃ (ss : ServerState) (w : String),
            (Client.new buildWorkerList controlWorkerList port limit detailedLogging
              now).m_ServerList[i]? = some ss
            ∧ (Client.new buildWorkerList controlWorkerList port limit detailedLogging
              now).m_WorkerList[i]? = some w
            ∧ (ss.m_BuildJobsEnabled = true ↔ i < buildWorkerList.length)
            ∧ (ss.m_ControlEnabled = true ↔ w ∈ controlWorkerList)
            ∧ (ss.m_BuildJobsEnabled = true ∨ ss.m_ControlEnabled = true)
            ∧ (w ∈ buildWorkerList → w ∈ controlWorkerList →
                ss.m_BuildJobsEnabled = true ∧ ss.m_ControlEnabled = true))
      ∧ (∀ w, w ∈ buildWorkerList ∨ w ∈ controlWorkerList →
          ∃ (i : Nat) (ss : ServerState),
            (Client.new buildWorkerList controlWorkerList port limit detailedLogging
              now).m_WorkerList[i]? = some w
            ∧ (Client.new buildWorkerList controlWorkerList port limit detailedLogging
              now).m_ServerList[i]? = some ss
            ∧ (ss.m_BuildJobsEnabled = true ↔ w ∈ buildWorkerList)
            ∧ (ss.m_ControlEnabled = true ↔ w ∈ controlWorkerList)) := by
  obtain ⟨ext, h1, h2, h3⟩ :=
    appendControlWorkers_ordered buildWorkerList controlWorkerList
  have hwl : (Client.new buildWorkerList controlWorkerList port limit detailedLogging
      now).m_WorkerList = buildWorkerList ++ ext := h1
  have hsl : (Client.new buildWorkerList controlWorkerList port limit detailedLogging
      now).m_ServerList = Client.initServerList now buildWorkerList.length controlWorkerList 0
        (buildWorkerList ++ ext) := by
    simp only [Client.new, h1]
  have hlen : (Client.new buildWorkerList controlWorkerList port limit detailedLogging
      now).m_ServerList.length = buildWorkerList.length + ext.length := by
    rw [hsl, initServerList_length, List.length_append]
  have hentry : ∀ i, i < buildWorkerList.length + ext.length →
      ∃ (ss : ServerState) (w : String),
        (Client.new buildWorkerList controlWorkerList port limit detailedLogging
          now).m_ServerList[i]? = some ss
        ∧ (Client.new buildWorkerList controlWorkerList port limit detailedLogging
          now).m_WorkerList[i]? = some w
        ∧ (ss.m_BuildJobsEnabled = true ↔ i < buildWorkerList.length)
        ∧ (ss.m_ControlEnabled = true ↔ w ∈ controlWorkerList)
        ∧ (w ∈ buildWorkerList ↔ i < buildWorkerList.length) := by
    intro i hi
    have hi1 : i < (Client.new buildWorkerList controlWorkerList port limit detailedLogging
        now).m_ServerList.length := by rw [hlen]; exact hi
    have hi2 : i < (Client.new buildWorkerList controlWorkerList port limit detailedLogging
        now).m_WorkerList.length := by rw [hwl, List.length_append]; exact hi
    obtain ⟨ss, hss⟩ : ∃ ss, (Client.new buildWorkerList controlWorkerList port limit
        detailedLogging now).m_ServerList[i]? = some ss :=
      ⟨_, List.getElem?_eq_getElem hi1⟩
    obtain ⟨w, hw⟩ : ∃ w, (Client.new buildWorkerList controlWorkerList port limit
        detailedLogging now).m_WorkerList[i]? = some w :=
      ⟨_, List.getElem?_eq_getElem hi2⟩
    refine ⟨ss, w, hss, hw, ?_⟩
    rw [hsl] at hss
    rw [hwl] at hw
    obtain ⟨hb, hc⟩ := initServerList_getElem _ _ _ _ _ i ss w hss hw
    rw [Nat.zero_add] at hb hc
    have hmemB : w ∈ buildWorkerList ↔ i < buildWorkerList.length := by
      constructor
      · intro hwB
        by_contra hi3
        rw [List.getElem?_append_right (by omega)] at hw
        exact ((h2 w).mp (List.getElem?_mem hw)).2 hwB
      · intro hi3
        rw [List.getElem?_append_left hi3] at hw
        exact List.getElem?_mem hw
    refine ⟨hb, ?_, hmemB⟩
    rw [hc]
    constructor
    · intro h
      by_cases hi3 : i < buildWorkerList.length
      · exact h hi3
      · rw [List.getElem?_append_right (by omega)] at hw
        exact ((h2 w).mp (List.getElem?_mem hw)).1
    · intro h _
      exact h
  refine ⟨ext, nodup_of_pairwise_indexOf controlWorkerList ext h3, h2, hwl, hlen, ?_, ?_⟩
  · intro i hi
    obtain ⟨ss, w, hss, hw, hb, hc, hmemB⟩ := hentry i hi
    refine ⟨ss, w, hss, hw, hb, hc, ?_, ?_⟩
    · by_cases hi3 : i < buildWorkerList.length
      · exact Or.inl (hb.mpr hi3)
      · right
        rw [hc]
        have hw2 := hw
        rw [hwl, List.getElem?_append_right (by omega)] at hw2
        exact ((h2 w).mp (List.getElem?_mem hw2)).1
    · intro hwB hwC
      exact ⟨hb.mpr (hmemB.mp hwB), hc.mpr hwC⟩
  · intro w hw
    have hmem : w ∈ buildWorkerList ++ ext := by
      by_cases hB : w ∈ buildWorkerList
      · exact List.mem_append_left _ hB
      · rcases hw with hw | hw
        · exact absurd hw hB
        · exact List.mem_append_right _ ((h2 w).mpr ⟨hw, hB⟩)
    obtain ⟨i, hi, hget⟩ := List.getElem_of_mem hmem
    have hi2 : i < buildWorkerList.length + ext.length := by
      rw [← List.length_append]; exact hi
    obtain ⟨ss, w2, hss, hw2, hb, hc, hmemB⟩ := hentry i hi2
    have hww : w2 = w := by
      rw [hwl, List.getElem?_eq_getElem hi, hget] at hw2
      exact (Option.some.inj hw2).symm
    subst hww
    exact ⟨i, ss, hw2, hss, by rw [hb, hmemB], hc⟩

theorem scan_cons_eq (sl : List ServerState) (now : Int) (s n j : Nat) (js : List Nat) :
    Client.LookForWorkers.scan sl now s n (j :: js)
      = if eligibleAt sl now ((j + s) % n) = true then some ((j + s) % n)
        else Client.LookForWorkers.scan sl now s n js := by
  cases hscan : Client.LookForWorkers.scan sl now s n (j :: js) with
  | some i =>
    obtain ⟨ss, hss, hel, j2, hj2, hi⟩ := scan_some sl now s n (j :: js) i hscan
    by_cases he : eligibleAt sl now ((j + s) % n) = true
    · rw [if_pos he]
      simp only [Client.LookForWorkers.scan] at hscan
      unfold eligibleAt at he
      split at he
      · rename_i ss0 hss0
        simp only [hss0] at hscan
        simp only [ServerState.eligible, Bool.and_eq_true, Bool.or_eq_true,
          Bool.not_eq_true', decide_eq_false_iff_not, Option.isNone_iff_eq_none] at he
        obtain ⟨⟨h1, h2⟩, h3⟩ := he
        have h2b : (!ss0.m_BuildJobsEnabled && !ss0.m_ControlEnabled) = false := by
          rcases h2 with h2 | h2 <;> simp [h2]
        simp only [h1, Option.isSome_none, Bool.false_eq_true, if_false, h2b, h3] at hscan
        exact hscan.symm
      · exact absurd he Bool.false_ne_true
    · rw [if_neg he]
      simp only [Client.LookForWorkers.scan] at hscan
      split at hscan
      · exact hscan.symm
      · rename_i ss0 hss0
        split at hscan
        · exact hscan.symm
        · split at hscan
          · exact hscan.symm
          · split at hscan
            · exact hscan.symm
            · rename_i h1 h2 h3
              exfalso
              apply he
              unfold eligibleAt
              rw [hss0]
              simp only [ServerState.eligible, Bool.and_eq_true, Bool.or_eq_true,
                Bool.not_eq_true', decide_eq_false_iff_not]
              refine ⟨⟨?_, ?_⟩, h3⟩
              · cases hc : ss0.m_Connection <;> simp_all
              · cases hb : ss0.m_BuildJobsEnabled <;> cases hce : ss0.m_ControlEnabled <;>
                  simp_all
  | none =>
    have hn := scan_none sl now s n (j :: js) hscan
    have he : ¬ eligibleAt sl now ((j + s) % n) = true := by
      unfold eligibleAt
      split
      · rename_i ss0 hss0
        rw [hn j (List.mem_cons_self _ _) ss0 hss0]
        exact Bool.false_ne_true
      · exact Bool.false_ne_true
    rw [if_neg he]
    simp only [Client.LookForWorkers.scan] at hscan
    split at hscan
    · exact hscan.symm
    · split at hscan
      · exact hscan.symm
      · split at hscan
        · exact hscan.symm
        · split at hscan
          · exact hscan.symm
          · simp at hscan

theorem scan_range_first (sl : List ServerState) (now : Int) (s n a m : Nat) :
    (∀ j, a ≤ j → j < a + m → eligibleAt sl now ((j + s) % n) = false) →
      Client.LookForWorkers.scan sl now s n (List.range' a m) = none := by
  induction m generalizing a with
  | zero => intro _; rfl
  | succ m ih =>
    intro h
    rw [List.range'_succ, scan_cons_eq, if_neg (by rw [h a (le_refl a) (by omega)]; exact Bool.false_ne_true)]
    exact ih (a + 1) (fun j h1 h2 => h j (by omega) (by omega))

theorem scan_range_found (sl : List ServerState) (now : Int) (s n a m j : Nat)
    (h1 : a ≤ j) (h2 : j < a + m) (hj : eligibleAt sl now ((j + s) % n) = true)
    (hfirst : ∀ j2, a ≤ j2 → j2 < j → eligibleAt sl now ((j2 + s) % n) = false) :
    Client.LookForWorkers.scan sl now s n (List.range' a m) = some ((j + s) % n) := by
  induction m generalizing a with
  | zero => omega
  | succ m ih =>
    rw [List.range'_succ, scan_cons_eq]
    by_cases haj : a = j
    · subst haj
      rw [if_pos hj]
    · rw [if_neg (by rw [hfirst a (le_refl a) (by omega)]; exact Bool.false_ne_true)]
      exact ih (a + 1) (by omega) (by omega) (fun j2 h3 h4 => hfirst j2 (by omega) h4)

theorem LookForWorkers_attempts_eq (c : Client) (now : Int) (s : Nat)
    (cr : Option ConnectionInfo) (nd : Nat)
    (h1 : c.m_ServerList.countP (fun ss => ss.m_Connection.isSome) < c.m_WorkerConnectionLimit)
    (h2 : c.m_ServerList.countP (fun ss => ss.m_Connection.isSome) ≠ c.m_ServerList.length) :
    connectAttempts (c.LookForWorkers now s cr nd).2
      = (Client.LookForWorkers.scan c.m_ServerList now s c.m_ServerList.length
          (List.range c.m_ServerList.length)).toList := by
  unfold Client.LookForWorkers
  simp only []
  rw [if_neg (by omega), if_neg h2]
  cases hsc : Client.LookForWorkers.scan c.m_ServerList now s c.m_ServerList.length
      (List.range c.m_ServerList.length) with
  | none => rfl
  | some i =>
    obtain ⟨ss, hss, -, -⟩ := scan_some _ _ _ _ _ _ hsc
    simp only [hss]
    cases cr <;> rfl

/-- C18: for every table state, connection limit and start index `s`, one pass of
`LookForWorkers` hands at most one entry to `Connect`; none when the number of live
connections has reached the connection limit or equals the number of workers; otherwise
none when no entry is eligible (disconnected, build- or control-enabled, delay timer at or
past the reconnect delay), and else exactly the first eligible entry in the circular order
`s, s+1, ...` (indices taken modulo the table size). -/
theorem C18_look_for_workers_attempt (c : Client) (now : Int) (s : Nat)
    (cr : Option ConnectionInfo) (nd : Nat) :
    (connectAttempts (c.LookForWorkers now s cr nd).2).length ≤ 1
    ∧ (c.m_ServerList.countP (fun ss => ss.m_Connection.isSome) ≥ c.m_WorkerConnectionLimit
        ∨ c.m_ServerList.countP (fun ss => ss.m_Connection.isSome) = c.m_ServerList.length →
        connectAttempts (c.LookForWorkers now s cr nd).2 = [])
    ∧ (c.m_ServerList.countP (fun ss => ss.m_Connection.isSome) < c.m_WorkerConnectionLimit →
        c.m_ServerList.countP (fun ss => ss.m_Connection.isSome) ≠ c.m_ServerList.length →
        ((∀ ss ∈ c.m_ServerList, ss.eligible now = false) →
          connectAttempts (c.LookForWorkers now s cr nd).2 = [])
        ∧ (∀ j, j < c.m_ServerList.length →
            eligibleAt c.m_ServerList now ((j + s) % c.m_ServerList.length) = true →
            (∀ j2, j2 < j →
              eligibleAt c.m_ServerList now ((j2 + s) % c.m_ServerList.length) = false) →
            connectAttempts (c.LookForWorkers now s cr nd).2
              = [(j + s) % c.m_ServerList.length])
        ∧ ((∃ ss ∈ c.m_ServerList, ss.eligible now = true) →
            ∃ j, j < c.m_ServerList.length
              ∧ eligibleAt c.m_ServerList now ((j + s) % c.m_ServerList.length) = true
              ∧ ∀ j2, j2 < j →
                eligibleAt c.m_ServerList now ((j2 + s) % c.m_ServerList.length) = false)) := by
  refine ⟨?_, ?_, ?_⟩
  · rcases LookForWorkers_cases c now s cr nd with ⟨h, -⟩ | ⟨i, ss, x, -, -, h, -⟩
    · simp [h]
    · simp [h]
  · intro h
    unfold Client.LookForWorkers
    simp only []
    rcases h with h | h
    · rw [if_pos h]
      rfl
    · by_cases hl : c.m_ServerList.countP (fun ss => ss.m_Connection.isSome)
          ≥ c.m_WorkerConnectionLimit
      · rw [if_pos hl]
        rfl
      · rw [if_neg hl, if_pos h]
        rfl
  · intro h1 h2
    have hnot : ∀ i, eligibleAt c.m_ServerList now i = false ∨
        ∃ ss, c.m_ServerList[i]? = some ss ∧ ss.eligible now = true := by
      intro i
      unfold eligibleAt
      cases hi : c.m_ServerList[i]? with
      | none => exact Or.inl rfl
      | some ss =>
        cases he : ss.eligible now with
        | false => exact Or.inl he
        | true => exact Or.inr ⟨ss, rfl, he⟩
    refine ⟨?_, ?_, ?_⟩
    · intro hall
      rw [LookForWorkers_attempts_eq c now s cr nd h1 h2, List.range_eq_range',
        scan_range_first]
      · rfl
      · intro j _ _
        rcases hnot ((j + s) % c.m_ServerList.length) with h | ⟨ss, hss, he⟩
        · exact h
        · rw [hall ss (List.getElem?_mem hss)] at he
          exact absurd he Bool.false_ne_true
    · intro j hj he hfirst
      rw [LookForWorkers_attempts_eq c now s cr nd h1 h2, List.range_eq_range',
        scan_range_found c.m_ServerList now s c.m_ServerList.length 0
          c.m_ServerList.length j (Nat.zero_le _) (by omega) he
          (fun j2 _ h4 => hfirst j2 h4)]
      rfl
    · rintro ⟨ss, hss, he⟩
      obtain ⟨k, hk⟩ := List.mem_iff_getElem?.mp hss
      have hklt : k < c.m_ServerList.length := (List.getElem?_eq_some.mp hk).1
      obtain ⟨j0, hj0, hj0k⟩ := exists_scan_position k c.m_ServerList.length s hklt
      have hex : ∃ j, j < c.m_ServerList.length
          ∧ eligibleAt c.m_ServerList now ((j + s) % c.m_ServerList.length) = true := by
        refine ⟨j0, hj0, ?_⟩
        rw [hj0k]
        unfold eligibleAt
        rw [hk]
        exact he
      refine ⟨Nat.find hex, (Nat.find_spec hex).1, (Nat.find_spec hex).2, ?_⟩
      intro j2 hj2
      have hmin := Nat.find_min hex hj2
      rw [not_and] at hmin
      have hlt : j2 < c.m_ServerList.length := by
        have := (Nat.find_spec hex).1
        omega
      cases h : eligibleAt c.m_ServerList now ((j2 + s) % c.m_ServerList.length) with
      | false => rfl
      | true => exact absurd h (hmin hlt)

/-- C19 (as stated, refuted): `LookForWorkers` connects to a control-only worker while
the job queue holds 5 distributable jobs; the Connection message carries 0 and the entry's
advertised count is set to 0, not 5. -/
theorem C19_control_only_worker_is_told_zero_jobs :
    controlOnlyClient.m_ServerList.map
        (fun ss => (ss.m_BuildJobsEnabled, ss.m_ControlEnabled)) = [(false, true)]
    ∧ sentMessages (controlOnlyClient.LookForWorkers 0 0 (some 1) 5).2
        = [(1, OutMsg.MsgConnection 0)]
    ∧ (controlOnlyClient.LookForWorkers 0 0 (some 1) 5).1.m_ServerList.map
        (fun ss => (ss.m_Connection, ss.m_NumJobsAvailable)) = [(some 1, 0)] := by
  decide

/-- C19 (amended): whenever `LookForWorkers` connects successfully to an entry, that entry
is build- or control-enabled (a blacklisted entry is never connected to); the Connection
message is the only message sent and carries the job queue's current distributable-job
count (as a 32-bit value) when the entry is build-enabled and 0 when it is not; the entry
stores the connection and its advertised count is set to the value sent. -/
theorem C19_connection_message_job_count (c : Client) (now : Int) (s : Nat)
    (ci : ConnectionInfo) (nd : Nat) (i : Nat)
    (h : i ∈ connectAttempts (c.LookForWorkers now s (some ci) nd).2) :
    ∃ ss ss2, c.m_ServerList[i]? = some ss
      ∧ (c.LookForWorkers now s (some ci) nd).1.m_ServerList[i]? = some ss2
      ∧ (ss.m_BuildJobsEnabled = true ∨ ss.m_ControlEnabled = true)
      ∧ ss2.m_Connection = some ci
      ∧ sentMessages (c.LookForWorkers now s (some ci) nd).2
          = [(ci, OutMsg.MsgConnection (if ss.m_BuildJobsEnabled then nd % U32 else 0))]
      ∧ ss2.m_NumJobsAvailable = (if ss.m_BuildJobsEnabled then nd % U32 else 0) := by
  unfold Client.LookForWorkers at h ⊢
  simp only [] at h ⊢
  split at h
  · simp [connectAttempts] at h
  · split at h
    · simp [connectAttempts] at h
    · rename_i h1 h2
      rw [if_neg h1, if_neg h2]
      cases hsc : Client.LookForWorkers.scan c.m_ServerList now s c.m_ServerList.length
          (List.range c.m_ServerList.length) with
      | none =>
        rw [hsc] at h
        simp [connectAttempts] at h
      | some k =>
        obtain ⟨ss, hss, hel, -⟩ := scan_some _ _ _ _ _ _ hsc
        rw [hsc] at h
        simp only [hss, connectAttempts, List.mem_singleton] at h
        subst h
        simp only [hss]
        have hlt : i < c.m_ServerList.length := (List.getElem?_eq_some.mp hss).1
        refine ⟨ss, _, rfl, List.getElem?_set_self hlt, ?_, rfl, rfl, rfl⟩
        simp only [ServerState.eligible, Bool.and_eq_true, Bool.or_eq_true] at hel
        exact hel.1.2

/-- Witness for C19 (amended) on a build worker with 5 distributable jobs in the queue:
the Connection message carries 5. -/
theorem C19_connection_message_job_count_witness :
    0 ∈ connectAttempts (buildOnlyClient.LookForWorkers 0 0 (some 1) 5).2
    ∧ sentMessages (buildOnlyClient.LookForWorkers 0 0 (some 1) 5).2
        = [(1, OutMsg.MsgConnection 5)]
    ∧ ∃ ss ss2, buildOnlyClient.m_ServerList[0]? = some ss
      ∧ (buildOnlyClient.LookForWorkers 0 0 (some 1) 5).1.m_ServerList[0]? = some ss2
      ∧ (ss.m_BuildJobsEnabled = true ∨ ss.m_ControlEnabled = true)
      ∧ ss2.m_Connection = some 1
      ∧ sentMessages (buildOnlyClient.LookForWorkers 0 0 (some 1) 5).2
          = [(1, OutMsg.MsgConnection (if ss.m_BuildJobsEnabled then 5 % U32 else 0))]
      ∧ ss2.m_NumJobsAvailable = (if ss.m_BuildJobsEnabled then 5 % U32 else 0) :=
  ⟨by decide, by decide,
    C19_connection_message_job_count buildOnlyClient 0 0 1 5 0 (by decide)⟩

theorem CommunicateJobAvailability_loop_only_sends (n : Nat) (sl : List ServerState) :
    (Client.CommunicateJobAvailability.loop n sl).2
      = (sl.filterMap (statusOwed n)).map (fun m => Effect.send m.1 m.2 false) := by
  induction sl with
  | nil => rfl
  | cons ss rest ih =>
    simp only [Client.CommunicateJobAvailability.loop, List.filterMap_cons, statusOwed]
    cases hc : ss.m_Connection with
    | none => simpa using ih
    | some conn =>
      by_cases hb : (ss.m_BuildJobsEnabled && (ss.m_NumJobsAvailable != n)) = true
      · have hb2 : ss.m_BuildJobsEnabled = true ∧ ss.m_NumJobsAvailable ≠ n := by
          simpa using hb
        simp only [hb, if_true, ih, if_pos hb2, List.map_cons]
      · have hb2 : ¬ (ss.m_BuildJobsEnabled = true ∧ ss.m_NumJobsAvailable ≠ n) := by
          simpa using hb
        simp only [hb, Bool.false_eq_true, if_false, ih, if_neg hb2]

theorem statusOwed_entry (n : Nat) (ss : ServerState) :
    statusOwed n (Client.CommunicateJobAvailability.entry n ss) = none := by
  unfold statusOwed Client.CommunicateJobAvailability.entry
  cases hc : ss.m_Connection with
  | none => simp [hc]
  | some conn =>
    by_cases hb : (ss.m_BuildJobsEnabled && (ss.m_NumJobsAvailable != n)) = true
    · simp [hb, hc]
    · simp only [hb, Bool.false_eq_true, if_false, hc]
      have hb2 : ¬ (ss.m_BuildJobsEnabled = true ∧ ss.m_NumJobsAvailable ≠ n) := by
        simpa using hb
      rw [if_neg hb2]

theorem filterMap_statusOwed_map_entry (n : Nat) (sl : List ServerState) :
    (sl.map (Client.CommunicateJobAvailability.entry n)).filterMap (statusOwed n) = [] := by
  induction sl with
  | nil => rfl
  | cons ss rest ih => simp [List.filterMap_cons, statusOwed_entry, ih]

theorem CommunicateJobAvailability_second_pass (c2 : Client) (now2 : Int) (nd : Nat)
    (sl : List ServerState)
    (h : c2.m_ServerList = sl.map (Client.CommunicateJobAvailability.entry (nd % U32))) :
    (c2.CommunicateJobAvailability now2 nd).2 = [] := by
  unfold Client.CommunicateJobAvailability
  split
  · rfl
  · simp only []
    split
    · rfl
    · simp only [CommunicateJobAvailability_loop_only_sends, h,
        filterMap_statusOwed_map_entry]
      rfl

theorem step_status_timer_frame (c : Client) (ev : Event)
    (hev : ∀ t n, ev ≠ Event.communicateJobAvailability t n) :
    (step c ev).1.m_StatusUpdateTimer = c.m_StatusUpdateTimer := by
  cases ev with
  | lookForWorkers now s cr nd =>
    simp only [step]
    unfold Client.LookForWorkers
    simp only []
    split
    · rfl
    · split
      · rfl
      · split
        · rfl
        · split
          · rfl
          · split <;> rfl
  | communicateJobAvailability t n => exact absurd rfl (hev t n)
  | communicateCommands =>
    simp only [step]
    unfold Client.CommunicateCommands
    split <;> rfl
  | onDisconnected index =>
    simp only [step]
    unfold onEntry
    split <;> rfl
  | requestJob index queueJob =>
    simp only [step]
    unfold onEntry
    split <;> rfl
  | jobResult index p env =>
    simp only [step]
    unfold onEntry
    split <;> rfl
  | serverInfo index msg payload now =>
    simp only [step]
    split <;> rfl
  | setControlMessage msg e => rfl
  | workersSetCommandPending workers => rfl
  | workersGetLastCommandResult => rfl

theorem run_status_timer_frame (c : Client) (evs : List Event)
    (hev : ∀ ev ∈ evs, ∀ t n, ev ≠ Event.communicateJobAvailability t n) :
    (run c evs).1.m_StatusUpdateTimer = c.m_StatusUpdateTimer := by
  induction evs generalizing c with
  | nil => rfl
  | cons ev rest ih =>
    simp only [run]
    rw [ih _ (fun e he => hev e (List.mem_cons_of_mem _ he)),
      step_status_timer_frame c ev (hev ev (List.mem_cons_self _ _))]

theorem CommunicateJobAvailability_too_soon (c : Client) (now : Int) (nd : Nat)
    (hlt : c.m_StatusUpdateTimer.GetElapsed now < CLIENT_STATUS_UPDATE_FREQUENCY) :
    c.CommunicateJobAvailability now nd = (c, []) := by
  simp only [Client.CommunicateJobAvailability, if_pos hlt]

theorem CommunicateJobAvailability_timer (c : Client) (now : Int) (nd : Nat)
    (hel : ¬ c.m_StatusUpdateTimer.GetElapsed now < CLIENT_STATUS_UPDATE_FREQUENCY) :
    (c.CommunicateJobAvailability now nd).1.m_StatusUpdateTimer = Timer.Start now 0 := by
  simp only [Client.CommunicateJobAvailability, if_neg hel]
  split <;> rfl

/-- C20: a pass of `CommunicateJobAvailability` that finds at least 100 ms elapsed since
the last update, with distributable-job count N (as a 32-bit value), sends Status(N) to
exactly the entries that have a live connection, `m_BuildJobsEnabled` set and an advertised
count other than N, in table order, and makes no other call; afterwards each live
build-enabled entry has advertised count N and is otherwise unchanged, every other entry
is unchanged, and a following pass with the same count sends nothing at whatever instant
it runs. Such a pass restarts the status timer at its own instant, and no other step of the
client touches that timer: whatever the other steps do in between, a pass that comes less
than 100 ms after it makes no call and changes nothing, for every job count. A pass that
finds less than 100 ms elapsed makes no call and changes nothing, the timer included. -/
theorem C20_communicate_job_availability (c : Client) (now : Int) (nd : Nat) :
    (c.m_StatusUpdateTimer.GetElapsed now ≥ CLIENT_STATUS_UPDATE_FREQUENCY →
      (c.CommunicateJobAvailability now nd).2
        = (c.m_ServerList.filterMap (statusOwed (nd % U32))).map
            (fun m => Effect.send m.1 m.2 false)
      ∧ (c.CommunicateJobAvailability now nd).1.m_ServerList.length = c.m_ServerList.length
      ∧ (∀ (i : Nat) (ss ss2 : ServerState), c.m_ServerList[i]? = some ss →
          (c.CommunicateJobAvailability now nd).1.m_ServerList[i]? = some ss2 →
          (ss.m_Connection.isSome = true ∧ ss.m_BuildJobsEnabled = true →
            ss2 = { ss with m_NumJobsAvailable := nd % U32 })
          ∧ (¬ (ss.m_Connection.isSome = true ∧ ss.m_BuildJobsEnabled = true) → ss2 = ss))
      ∧ (∀ now2 : Int,
          ((c.CommunicateJobAvailability now nd).1.CommunicateJobAvailability now2 nd).2 = [])
      ∧ (c.CommunicateJobAvailability now nd).1.m_StatusUpdateTimer = Timer.Start now 0
      ∧ (∀ now2 : Int,
          (c.CommunicateJobAvailability now nd).1.m_StatusUpdateTimer.GetElapsed now2
            = now2 - now)
      ∧ (∀ (evs : List Event) (now2 : Int) (nd2 : Nat),
          (∀ ev ∈ evs, ∀ t n, ev ≠ Event.communicateJobAvailability t n) →
          now2 - now < CLIENT_STATUS_UPDATE_FREQUENCY →
          (run (c.CommunicateJobAvailability now nd).1 evs).1.CommunicateJobAvailability
              now2 nd2
            = ((run (c.CommunicateJobAvailability now nd).1 evs).1, [])))
    ∧ (c.m_StatusUpdateTimer.GetElapsed now < CLIENT_STATUS_UPDATE_FREQUENCY →
        (c.CommunicateJobAvailability now nd) = (c, []))
    ∧ (∀ (ev : Event), (∀ t n, ev ≠ Event.communicateJobAvailability t n) →
        (step c ev).1.m_StatusUpdateTimer = c.m_StatusUpdateTimer) := by
  refine ⟨?_, ?_, step_status_timer_frame c⟩
  · intro hel
    have hnot : ¬ c.m_StatusUpdateTimer.GetElapsed now < CLIENT_STATUS_UPDATE_FREQUENCY := by
      omega
    have hlist : (c.CommunicateJobAvailability now nd).1.m_ServerList
        = c.m_ServerList.map (Client.CommunicateJobAvailability.entry (nd % U32)) := by
      simp only [Client.CommunicateJobAvailability, if_neg hnot]
      cases hsl : c.m_ServerList with
      | nil => simp [hsl]
      | cons a rest =>
        simp only [hsl, List.isEmpty_cons, Bool.false_eq_true, if_false,
          CommunicateJobAvailability_loop_map]
    have htimer := CommunicateJobAvailability_timer c now nd hnot
    refine ⟨?_, ?_, ?_, ?_, htimer, ?_, ?_⟩
    · simp only [Client.CommunicateJobAvailability, if_neg hnot]
      cases hsl : c.m_ServerList with
      | nil => simp [hsl]
      | cons a rest =>
        simp only [hsl, List.isEmpty_cons, Bool.false_eq_true, if_false,
          CommunicateJobAvailability_loop_only_sends]
    · rw [hlist, List.length_map]
    · intro i ss ss2 hss hss2
      rw [hlist, List.getElem?_map, hss] at hss2
      simp only [Option.map_some', Option.some.injEq] at hss2
      subst hss2
      unfold Client.CommunicateJobAvailability.entry
      cases hc : ss.m_Connection with
      | none => simp
      | some conn =>
        cases hb : ss.m_BuildJobsEnabled with
        | false => simp
        | true =>
          by_cases hn : ss.m_NumJobsAvailable = nd % U32
          · simp only [hn, bne_self_eq_false, Bool.and_false, Bool.false_eq_true, if_false,
              Option.isSome_some, and_self, not_true_eq_false, forall_const, true_implies,
              false_implies, and_true]
            cases ss
            simp_all
          · have hne : (ss.m_NumJobsAvailable != nd % U32) = true := by simpa using hn
            simp [hne]
    · intro now2
      exact CommunicateJobAvailability_second_pass _ now2 nd c.m_ServerList hlist
    · intro now2
      rw [htimer]
      simp [Timer.GetElapsed, Timer.Start]
    · intro evs now2 nd2 hevs hlt
      have ht : (run (c.CommunicateJobAvailability now nd).1 evs).1.m_StatusUpdateTimer
          = Timer.Start now 0 := by
        rw [run_status_timer_frame _ evs hevs, htimer]
      have hlt2 : (run (c.CommunicateJobAvailability now nd).1
          evs).1.m_StatusUpdateTimer.GetElapsed now2 < CLIENT_STATUS_UPDATE_FREQUENCY := by
        rw [ht]
        simpa [Timer.GetElapsed, Timer.Start] using hlt
      exact CommunicateJobAvailability_too_soon _ now2 nd2 hlt2
  · intro hlt
    simp only [Client.CommunicateJobAvailability, if_pos hlt]

/-! ### Worker settings file -/

theorem readU32_writeU32 (x : Nat) (rest : List Byte) (h : x < U32) :
    readU32 (writeU32 x ++ rest) = some (x, rest) := by
  simp only [writeU32, readU32, List.cons_append, List.nil_append, Nat.mod_mod]
  have hx : x % 256 + 256 * (x / 256 % 256) + 65536 * (x / 65536 % 256)
      + 16777216 * (x / 16777216 % 256) = x := by
    unfold U32 at h
    omega
  rw [hx]

theorem readBool_writeBool (b : Bool) (rest : List Byte) :
    readBool (writeBool b ++ rest) = some (b, rest) := by
  cases b <;> simp [writeBool, readBool]

theorem readString_writeString (s rest : List Byte) (h : s.length < U32) :
    readString (writeString s ++ rest) = some (s, rest) := by
  unfold readString writeString
  rw [List.append_assoc, readU32_writeU32 _ _ h]
  simp

theorem readStringArray_loop_write (names : List (List Byte)) (rest : List Byte)
    (h : ∀ name ∈ names, name.length < U32) :
    readStringArray.loop names.length ((names.map writeString).flatten ++ rest)
      = some (names, rest) := by
  induction names with
  | nil => simp [readStringArray.loop]
  | cons name names ih =>
    have h1 : name.length < U32 := h name (List.mem_cons_self _ _)
    have h2 : ∀ n ∈ names, n.length < U32 := fun n hn => h n (List.mem_cons_of_mem _ hn)
    simp only [List.map_cons, List.flatten_cons, List.length_cons, readStringArray.loop,
      List.append_assoc]
    rw [readString_writeString _ _ h1]
    simp only [ih h2]

theorem readStringArray_writeStringArray (names : List (List Byte)) (rest : List Byte)
    (hlen : names.length < U32) (h : ∀ name ∈ names, name.length < U32) :
    readStringArray (writeStringArray names ++ rest) = some (names, rest) := by
  unfold readStringArray writeStringArray
  rw [List.append_assoc, readU32_writeU32 _ _ hlen]
  exact readStringArray_loop_write names rest h

theorem settingsVersion_header (h0 h1 h2 v : Nat) (body : List Byte) (hv : v < 128) :
    settingsVersion (h0 :: h1 :: h2 :: v :: body) = (v : Int) := by
  have h256 : v % 256 = v := Nat.mod_eq_of_lt (by omega)
  simp [settingsVersion, List.getD, h256, hv]

theorem Load_version_1_to_3 (s : WorkerSettings) (uninitMode : Nat) (h0 h1 h2 v : Nat)
    (mode cpus b : Nat) (rest : List Byte) (hv1 : 1 ≤ v) (hv3 : v ≤ 3)
    (hm : mode < U32) (hc : cpus < U32) :
    s.Load (some (h0 :: h1 :: h2 :: v :: (writeU32 mode ++ (writeU32 cpus ++ (b :: rest)))))
        uninitMode
      = { s with m_Mode := mode, m_NumCPUsToUse := cpus, m_StartMinimized := (b % 256 != 0) } := by
  have hver := settingsVersion_header h0 h1 h2 v
    (writeU32 mode ++ (writeU32 cpus ++ (b :: rest))) (by omega)
  unfold WorkerSettings.Load
  simp only [hver, FBUILDWORKER_SETTINGS_MIN_VERSION, FBUILDWORKER_SETTINGS_CURRENT_VERSION]
  have c1 : ¬ ((v : Int) < 1 ∨ (v : Int) > 4) := by omega
  have c2 : ¬ ((v : Int) ≥ 4) := by omega
  simp only [c1, c2, if_false, List.drop_succ_cons, List.drop_zero,
    readU32_writeU32 _ _ hm, readU32_writeU32 _ _ hc, Option.getD_some, readBool]

theorem Load_version_4 (s : WorkerSettings) (uninitMode : Nat) (h0 h1 h2 : Nat)
    (mode cpus b grace blockingGrace : Nat) (names : List (List Byte)) (rest : List Byte)
    (hm : mode < U32) (hc : cpus < U32) (hg : grace < U32) (hb : blockingGrace < U32)
    (hlen : names.length < U32) (hnames : ∀ name ∈ names, name.length < U32) :
    s.Load (some (h0 :: h1 :: h2 :: 4 :: (writeU32 mode ++ (writeU32 cpus ++ (b :: (writeU32 grace
        ++ (writeStringArray names ++ (writeU32 blockingGrace ++ rest))))))))
        uninitMode
      = { m_Mode := mode, m_NumCPUsToUse := cpus, m_StartMinimized := (b % 256 != 0),
          m_GracePeriod := grace, m_BlockingProcessNames := names,
          m_BlockingGracePeriod := blockingGrace } := by
  have hver := settingsVersion_header h0 h1 h2 4
    (writeU32 mode ++ (writeU32 cpus ++ (b :: (writeU32 grace
        ++ (writeStringArray names ++ (writeU32 blockingGrace ++ rest)))))) (by omega)
  unfold WorkerSettings.Load
  simp only [hver, FBUILDWORKER_SETTINGS_MIN_VERSION, FBUILDWORKER_SETTINGS_CURRENT_VERSION]
  have c1 : ¬ (((4 : Nat) : Int) < 1 ∨ ((4 : Nat) : Int) > 4) := by omega
  have c2 : (((4 : Nat) : Int) ≥ 4) := by omega
  simp only [c1, c2, if_false, if_true, List.drop_succ_cons, List.drop_zero,
    readU32_writeU32 _ _ hm, readU32_writeU32 _ _ hc, Option.getD_some, readBool,
    readU32_writeU32 _ _ hg, readStringArray_writeStringArray _ _ hlen hnames,
    readU32_writeU32 _ _ hb]

/-- C13: for every settings state whose members hold values of their types, the file
written by `Save` starts with the bytes F, W, S and the version byte 4, and `Load` of that
file, from any earlier state, gives back the saved state in all six members. -/
theorem C13_settings_round_trip (s s0 : WorkerSettings) (uninitMode : Nat)
    (h : s.wellFormed) :
    (∃ body, s.Save true = some (70 :: 87 :: 83 :: 4 :: body))
      ∧ s0.Load (s.Save true) uninitMode = s := by
  obtain ⟨hm, hc, hg, hb, hlen, hnames⟩ := h
  refine ⟨⟨_, rfl⟩, ?_⟩
  have hl := Load_version_4 s0 uninitMode 70 87 83 s.m_Mode s.m_NumCPUsToUse
    (if s.m_StartMinimized then 1 else 0) s.m_GracePeriod s.m_BlockingGracePeriod
    s.m_BlockingProcessNames [] hm hc hg hb hlen hnames
  simp only [WorkerSettings.Save, if_true, writeBool, List.cons_append, List.nil_append,
    List.append_assoc, List.append_nil] at hl ⊢
  rw [hl]
  cases s with
  | mk m c sm g n bg => cases sm <;> simp

theorem C13_settings_round_trip_witness :
    sampleSettings.wellFormed
      ∧ (∃ body, sampleSettings.Save true = some (70 :: 87 :: 83 :: 4 :: body))
      ∧ (WorkerSettings.init 8).Load (sampleSettings.Save true) 0 = sampleSettings :=
  have hw : sampleSettings.wellFormed := by
    simp [WorkerSettings.wellFormed, sampleSettings, U32]
  ⟨hw, C13_settings_round_trip sampleSettings (WorkerSettings.init 8) 0 hw⟩

/-- C14 counterexample: a version-1 file read into freshly constructed settings leaves the
blocking grace period at 30, the value given by the constructor, not 0. -/
theorem C14_version1_file_keeps_blocking_grace_default :
    (WorkerSettings.init 8).m_BlockingGracePeriod = 30
      ∧ (WorkerSettings.init 8).Load (some sampleV1File) 0
          = { m_Mode := 2, m_NumCPUsToUse := 3, m_StartMinimized := true, m_GracePeriod := 0,
              m_BlockingProcessNames := [], m_BlockingGracePeriod := 30 }
      ∧ ((WorkerSettings.init 8).Load (some sampleV1File) 0).m_BlockingGracePeriod ≠ 0
      ∧ (WorkerSettings.new 8 (some sampleV1File) 0).m_BlockingGracePeriod ≠ 0 := by
  decide

/-- C14 (amended): a version-1 file read into freshly constructed settings gives mode,
number of CPUs and start-minimized from the file and leaves the grace period 0, the list of
blocking process names empty and the blocking grace period 30; the constructor afterwards
only lowers the number of CPUs to the number of processors. -/
theorem C14_version1_file_into_fresh_settings (numProcessors mode cpus uninitMode : Nat)
    (startMinimized : Bool) (rest : List Byte) (hm : mode < U32) (hc : cpus < U32) :
    (WorkerSettings.init numProcessors).Load
        (some ([70, 87, 83, 1] ++ writeU32 mode ++ writeU32 cpus ++ writeBool startMinimized
          ++ rest)) uninitMode
      = { m_Mode := mode, m_NumCPUsToUse := cpus, m_StartMinimized := startMinimized,
          m_GracePeriod := 0, m_BlockingProcessNames := [], m_BlockingGracePeriod := 30 }
    ∧ WorkerSettings.new numProcessors
        (some ([70, 87, 83, 1] ++ writeU32 mode ++ writeU32 cpus ++ writeBool startMinimized
          ++ rest)) uninitMode
      = { m_Mode := mode, m_NumCPUsToUse := min (numProcessors % U32) cpus,
          m_StartMinimized := startMinimized,
          m_GracePeriod := 0, m_BlockingProcessNames := [], m_BlockingGracePeriod := 30 } := by
  have hl := Load_version_1_to_3 (WorkerSettings.init numProcessors) uninitMode 70 87 83 1
    mode cpus (if startMinimized then 1 else 0) rest (by omega) (by omega) hm hc
  have hb : ((if startMinimized then 1 else 0) % 256 != 0) = startMinimized := by
    cases startMinimized <;> rfl
  rw [hb] at hl
  simp only [WorkerSettings.new, writeBool, List.cons_append, List.nil_append,
    List.append_assoc] at hl ⊢
  rw [hl]
  simp [WorkerSettings.init]

theorem C14_version1_file_into_fresh_settings_witness :
    (WorkerSettings.init 2).Load
        (some ([70, 87, 83, 1] ++ writeU32 2 ++ writeU32 3 ++ writeBool true ++ [])) 0
      = { m_Mode := 2, m_NumCPUsToUse := 3, m_StartMinimized := true,
          m_GracePeriod := 0, m_BlockingProcessNames := [], m_BlockingGracePeriod := 30 }
    ∧ WorkerSettings.new 2
        (some ([70, 87, 83, 1] ++ writeU32 2 ++ writeU32 3 ++ writeBool true ++ [])) 0
      = { m_Mode := 2, m_NumCPUsToUse := min (2 % U32) 3, m_StartMinimized := true,
          m_GracePeriod := 0, m_BlockingProcessNames := [], m_BlockingGracePeriod := 30 } :=
  C14_version1_file_into_fresh_settings 2 2 3 0 true [] (by decide) (by decide)

/-- C15: `Load` of a file whose version byte (fourth header byte, signed) is below 1 or
above 4 returns the settings unchanged; for a version byte from 1 to 3 the grace period,
the blocking process names and the blocking grace period are never touched and mode,
number of CPUs and start-minimized come from the nine bytes after the header; for version 4
the grace period, the blocking process names and the blocking grace period are read after
them in that order. The function has no result other than the settings. -/
theorem C15_load_version_gate (s : WorkerSettings) (uninitMode : Nat) :
    (∀ file, settingsVersion file < 1 ∨ settingsVersion file > 4 →
        s.Load (some file) uninitMode = s)
    ∧ (∀ file, 1 ≤ settingsVersion file → settingsVersion file ≤ 3 →
        (s.Load (some file) uninitMode).m_GracePeriod = s.m_GracePeriod
          ∧ (s.Load (some file) uninitMode).m_BlockingProcessNames = s.m_BlockingProcessNames
          ∧ (s.Load (some file) uninitMode).m_BlockingGracePeriod = s.m_BlockingGracePeriod)
    ∧ (∀ (h0 h1 h2 v : Nat) (mode cpus b : Nat) (rest : List Byte),
        1 ≤ v → v ≤ 3 → mode < U32 → cpus < U32 →
        s.Load (some ([h0, h1, h2, v] ++ writeU32 mode ++ writeU32 cpus ++ [b] ++ rest))
            uninitMode
          = { s with m_Mode := mode, m_NumCPUsToUse := cpus,
                     m_StartMinimized := (b % 256 != 0) })
    ∧ (∀ (h0 h1 h2 : Nat) (mode cpus b grace blockingGrace : Nat)
        (names : List (List Byte)) (rest : List Byte),
        mode < U32 → cpus < U32 → grace < U32 → blockingGrace < U32 →
        names.length < U32 → (∀ name ∈ names, name.length < U32) →
        s.Load (some ([h0, h1, h2, 4] ++ writeU32 mode ++ writeU32 cpus ++ [b]
            ++ writeU32 grace ++ writeStringArray names ++ writeU32 blockingGrace ++ rest))
            uninitMode
          = { m_Mode := mode, m_NumCPUsToUse := cpus, m_StartMinimized := (b % 256 != 0),
              m_GracePeriod := grace, m_BlockingProcessNames := names,
              m_BlockingGracePeriod := blockingGrace }) := by
  refine ⟨?_, ?_, ?_, ?_⟩
  · intro file hv
    simp only [WorkerSettings.Load, FBUILDWORKER_SETTINGS_MIN_VERSION,
      FBUILDWORKER_SETTINGS_CURRENT_VERSION, hv, if_true]
  · intro file h1 h3
    have c1 : ¬ (settingsVersion file < 1 ∨ settingsVersion file > 4) := by omega
    have c2 : ¬ (settingsVersion file ≥ 4) := by omega
    simp only [WorkerSettings.Load, FBUILDWORKER_SETTINGS_MIN_VERSION,
      FBUILDWORKER_SETTINGS_CURRENT_VERSION, c1, c2, if_false, and_self]
  · intro h0 h1 h2 v mode cpus b rest hv1 hv3 hm hc
    have hl := Load_version_1_to_3 s uninitMode h0 h1 h2 v mode cpus b rest hv1 hv3 hm hc
    simpa only [List.cons_append, List.nil_append, List.append_assoc] using hl
  · intro h0 h1 h2 mode cpus b grace blockingGrace names rest hm hc hg hb hlen hnames
    have hl := Load_version_4 s uninitMode h0 h1 h2 mode cpus b grace blockingGrace names rest
      hm hc hg hb hlen hnames
    simpa only [List.cons_append, List.nil_append, List.append_assoc] using hl

/-! ### Command line -/

theorem workercmdflag_value_index (scanI : String → Option Int) (scanU : String → Option Nat)
    (programName : String) (argv : List String) (i : Nat) (st : ParseState)
    (hflag : argv.getD (i + 1) "" = "grace") (hlen : i + 1 < argv.length) :
    (i + 3 < argv.length →
      ProcessCommandLine.workercmdflag scanI scanU programName argv i st
        = .next { st with m_WorkerCommandGracePeriod :=
                    (scanI (argv.getD (i + 3) "")).getD st.m_WorkerCommandGracePeriod } (i + 2))
    ∧ (argv.length ≤ i + 3 →
      ProcessCommandLine.workercmdflag scanI scanU programName argv i st
        = .ret .OPTIONS_ERROR st
            (optionErrorLines "Missing <value>" (argv.getD i "") programName)) := by
  have h1 : ¬ (i + 1 ≥ argv.length) := by omega
  have h2 : ¬ ("grace" = "nofailure") := by decide
  constructor
  · intro h3
    have h4 : ¬ (i + 1 + 2 ≥ argv.length) := by omega
    simp only [ProcessCommandLine.workercmdflag, h1, hflag, h2, h4, if_false, true_or, if_true]
  · intro h3
    have h4 : i + 1 + 2 ≥ argv.length := by omega
    simp only [ProcessCommandLine.workercmdflag, h1, hflag, h2, h4, if_false, true_or, if_true]

/-- C16: with `-workercmdflag grace 5` (and likewise `wait 5`) as the last arguments the
argument loop returns `OPTIONS_ERROR` with the message for a missing value, whatever the
other options do and whatever the number scanners answer; with one more argument after
them the grace period is scanned from that argument, not from `5`, and that argument is
then handled once more as an argument of its own. -/
theorem C16_trailing_workercmdflag_value_is_rejected
    (otherOption : String → List String → Nat → ParseState → BranchResult)
    (scanI : String → Option Int) (scanU : String → Option Nat) :
    ProcessCommandLine.loop otherOption scanI scanU "fbuild"
        ["fbuild", "-workercmdflag", "grace", "5"] 4 1 {}
      = some (.ret .OPTIONS_ERROR { m_Args := "-workercmdflag" }
          ["FBuild: Error: Missing <value> for '-workercmdflag' argument\n",
           "Try \"fbuild -help\"\n"])
    ∧ ProcessCommandLine.loop otherOption scanI scanU "fbuild"
        ["fbuild", "-workercmdflag", "wait", "5"] 4 1 {}
      = some (.ret .OPTIONS_ERROR { m_Args := "-workercmdflag" }
          ["FBuild: Error: Missing <value> for '-workercmdflag' argument\n",
           "Try \"fbuild -help\"\n"])
    ∧ ProcessCommandLine.loop otherOption sampleScanI sampleScanU "fbuild"
        ["fbuild", "-workercmdflag", "grace", "5", "7"] 5 1 {}
      = some (.next { m_Args := "-workercmdflag 7", m_Targets := ["7"],
                      m_WorkerCommandGracePeriod := 7, buildNeeded := true } 5) := by
  refine ⟨?_, ?_, ?_⟩
  · simp [ProcessCommandLine.loop, ProcessCommandLine.workercmdflag, optionErrorLines]
    decide
  · simp [ProcessCommandLine.loop, ProcessCommandLine.workercmdflag, optionErrorLines]
    decide
  · simp [ProcessCommandLine.loop, ProcessCommandLine.workercmdflag, sampleScanI]
    decide

/-! ### Program entry -/

theorem waitLoop_returned (l : List (Bool × Bool)) (code : Int)
    (h : (Main.waitLoop l).1 = .returned code) : code = FBUILD_BUILD_FAILED := by
  induction l with
  | nil => simp [Main.waitLoop] at h
  | cons r rest ih =>
    obtain ⟨t, s⟩ := r
    cases t <;> cases s <;> simp [Main.waitLoop] at h
    · exact ih h
    · exact h.symm

theorem waitLoop_no_shared (l : List (Bool × Bool)) :
    sharedReturnCodes (Main.waitLoop l).2 = [] := by
  induction l with
  | nil => simp [Main.waitLoop, sharedReturnCodes]
  | cons r rest ih =>
    obtain ⟨t, s⟩ := r
    cases t <;> cases s <;> simp [Main.waitLoop, sharedReturnCodes, ih]

theorem waitLoop_acquires (k : Nat) (stop : Bool) (rest : List (Bool × Bool)) :
    Main.waitLoop (List.replicate k (false, false) ++ (true, stop) :: rest)
      = (.proceed, List.replicate k (.sleep 1000)) := by
  induction k with
  | zero => simp [Main.waitLoop]
  | succ k ih => simp [List.replicate_succ, Main.waitLoop, ih]

theorem waitLoop_stopped (k : Nat) (rest : List (Bool × Bool)) :
    Main.waitLoop (List.replicate k (false, false) ++ (false, true) :: rest)
      = (.returned FBUILD_BUILD_FAILED, List.replicate (k + 1) (.sleep 1000)) := by
  induction k with
  | zero => simp [Main.waitLoop]
  | succ k ih => simp [List.replicate_succ, Main.waitLoop, ih]

theorem finalLoop_returned (l : List (Bool × Bool)) (code : Int)
    (h : (Main.finalLoop l).1 = .returned code) :
    code = FBUILD_FAILED_TO_SPAWN_WRAPPER_FINAL := by
  induction l with
  | nil => simp [Main.finalLoop] at h
  | cons r rest ih =>
    obtain ⟨t, s⟩ := r
    cases t <;> cases s <;> simp [Main.finalLoop] at h
    · exact ih h
    · exact h.symm

theorem finalLoop_no_shared (l : List (Bool × Bool)) :
    sharedReturnCodes (Main.finalLoop l).2 = [] := by
  induction l with
  | nil => simp [Main.finalLoop, sharedReturnCodes]
  | cons r rest ih =>
    obtain ⟨t, s⟩ := r
    cases t <;> cases s <;> simp [Main.finalLoop, sharedReturnCodes, ih]

theorem sharedReturnCodes_append (a b : List MainEffect) :
    sharedReturnCodes (a ++ b) = sharedReturnCodes a ++ sharedReturnCodes b := by
  induction a with
  | nil => simp [sharedReturnCodes]
  | cons x rest ih => cases x <;> simp [sharedReturnCodes, ih]

theorem sharedReturnCodes_replicate_sleep (n ms : Nat) :
    sharedReturnCodes (List.replicate n (.sleep ms)) = [] := by
  induction n with
  | zero => simp [sharedReturnCodes]
  | succ n ih => simp [List.replicate_succ, sharedReturnCodes, ih]

theorem build_code (e : MainEnv) (shared : Bool) :
    (Main.build e shared).1 = FBUILD_ERROR_LOADING_BFF
      ∨ (Main.build e shared).1 = FBUILD_BUILD_FAILED ∨ (Main.build e shared).1 = FBUILD_OK := by
  unfold Main.build
  split
  · exact Or.inl rfl
  · split
    · exact Or.inr (Or.inl rfl)
    · cases e.actionResult <;> simp

theorem build_shared (e : MainEnv) (shared : Bool) :
    ∀ code ∈ sharedReturnCodes (Main.build e shared).2,
      code = FBUILD_ERROR_LOADING_BFF ∨ code = FBUILD_BUILD_FAILED ∨ code = FBUILD_OK := by
  unfold Main.build
  cases shared <;> cases e.initializeOk <;> cases e.hasWorkerCommands
    <;> cases e.workerCommandsFailed <;> cases e.actionResult
    <;> simp [Main.shareReturnCode, sharedReturnCodes]

theorem lockSection_returned (e : MainEnv) (code : Int)
    (h : (Main.lockSection e).1 = .returned code) :
    (code = FBUILD_ALREADY_RUNNING ∧ Main.needsLock e = true ∧ e.mainTryLock = false
        ∧ e.m_WaitMode = false)
      ∨ (code = FBUILD_BUILD_FAILED ∧ e.m_WaitMode = true) := by
  unfold Main.lockSection at h
  cases hn : Main.needsLock e <;> cases ht : e.mainTryLock <;> cases hw : e.m_WaitMode
    <;> simp [hn, ht, hw] at h
  · exact Or.inl ⟨h.symm, rfl, rfl, rfl⟩
  · exact Or.inr ⟨waitLoop_returned _ _ h, rfl⟩

theorem lockSection_already_running (e : MainEnv) (hn : Main.needsLock e = true)
    (ht : e.mainTryLock = false) (hw : e.m_WaitMode = false) :
    (Main.lockSection e).1 = .returned FBUILD_ALREADY_RUNNING := by
  simp [Main.lockSection, hn, ht, hw]

theorem lockSection_no_shared (e : MainEnv) :
    sharedReturnCodes (Main.lockSection e).2 = [] := by
  unfold Main.lockSection
  cases Main.needsLock e <;> cases e.mainTryLock <;> cases e.m_WaitMode
    <;> simp [sharedReturnCodes, waitLoop_no_shared]

theorem WrapperMainProcess_already_running (e : MainEnv) :
    (WrapperMainProcess e).1 = some FBUILD_ALREADY_RUNNING ↔
      e.spawnIntermediate = true
        ∧ (e.intermediateExit = FBUILD_ALREADY_RUNNING
            ∨ (e.intermediateExit = FBUILD_OK ∧ e.startedAfter.isSome = true
                ∧ e.finalReleasedAfter.isSome = true
                ∧ e.sharedReturnCode = FBUILD_ALREADY_RUNNING)) := by
  unfold WrapperMainProcess
  cases hs : e.spawnIntermediate
  · simp [FBUILD_FAILED_TO_SPAWN_WRAPPER, FBUILD_ALREADY_RUNNING]
  · by_cases h6 : e.intermediateExit = FBUILD_FAILED_TO_SPAWN_WRAPPER_FINAL
    · simp [h6, FBUILD_FAILED_TO_SPAWN_WRAPPER_FINAL, FBUILD_ALREADY_RUNNING, FBUILD_OK]
    · by_cases h0 : e.intermediateExit = FBUILD_OK
      · cases ha : e.startedAfter <;> cases hb : e.finalReleasedAfter
          <;> simp [h0, FBUILD_FAILED_TO_SPAWN_WRAPPER_FINAL, FBUILD_ALREADY_RUNNING, FBUILD_OK]
      · simp [h6, h0]

theorem WrapperMainProcess_no_shared (e : MainEnv) :
    sharedReturnCodes (WrapperMainProcess e).2 = [] := by
  unfold WrapperMainProcess
  cases e.spawnIntermediate
  · simp [sharedReturnCodes]
  · by_cases h6 : e.intermediateExit = FBUILD_FAILED_TO_SPAWN_WRAPPER_FINAL
    · simp [h6, sharedReturnCodes]
    · by_cases h0 : e.intermediateExit = FBUILD_OK
      · cases e.startedAfter <;> cases e.finalReleasedAfter
          <;> simp [h0, FBUILD_OK, FBUILD_FAILED_TO_SPAWN_WRAPPER_FINAL, sharedReturnCodes,
            sharedReturnCodes_replicate_sleep]
      · simp [h6, h0, sharedReturnCodes]

theorem afterLock_already_running (e : MainEnv) :
    (Main.afterLock e).1 = some FBUILD_ALREADY_RUNNING ↔
      e.m_WrapperMode = .WRAPPER_MODE_MAIN_PROCESS
        ∧ (WrapperMainProcess e).1 = some FBUILD_ALREADY_RUNNING := by
  unfold Main.afterLock
  have hb : ∀ shared, (Main.build e shared).1 ≠ FBUILD_ALREADY_RUNNING := by
    intro shared
    rcases build_code e shared with h | h | h <;> rw [h] <;> decide
  by_cases hm : e.m_WrapperMode = .WRAPPER_MODE_MAIN_PROCESS
  · simp [hm]
  · by_cases hf : e.m_WrapperMode = .WRAPPER_MODE_FINAL_PROCESS
    · rw [if_neg hm, if_pos hf]
      simp only [hm, false_and, iff_false]
      rcases hl : Main.finalLoop e.finalRounds with ⟨o, out⟩
      cases o with
      | proceed =>
        cases e.sharedMemoryPtr
        · simp [FBUILD_FAILED_TO_SPAWN_WRAPPER_FINAL, FBUILD_ALREADY_RUNNING]
        · simpa using hb true
      | returned code =>
        have hc := finalLoop_returned e.finalRounds code (by rw [hl])
        simp [hc, FBUILD_FAILED_TO_SPAWN_WRAPPER_FINAL, FBUILD_ALREADY_RUNNING]
      | waiting => simp
    · simpa [hm, hf] using hb false

theorem afterLock_shared (e : MainEnv) :
    ∀ code ∈ sharedReturnCodes (Main.afterLock e).2,
      code = FBUILD_ERROR_LOADING_BFF ∨ code = FBUILD_BUILD_FAILED ∨ code = FBUILD_OK := by
  unfold Main.afterLock
  by_cases hm : e.m_WrapperMode = .WRAPPER_MODE_MAIN_PROCESS
  · simp [hm, WrapperMainProcess_no_shared]
  · by_cases hf : e.m_WrapperMode = .WRAPPER_MODE_FINAL_PROCESS
    · rw [if_neg hm, if_pos hf]
      have hn := finalLoop_no_shared e.finalRounds
      rcases hl : Main.finalLoop e.finalRounds with ⟨o, out⟩
      rw [hl] at hn
      simp only at hn
      cases o with
      | proceed =>
        cases e.sharedMemoryPtr
        · simp [hn]
        · simp only [Bool.true_eq_false, if_false, sharedReturnCodes_append, hn,
            List.nil_append, sharedReturnCodes]
          exact build_shared e true
      | returned code => simp [hn]
      | waiting => simp [hn]
    · simp only [hm, hf, if_false]
      exact build_shared e false

theorem Main_of_options_ok (e : MainEnv) (hok : e.optionsResult = .OPTIONS_OK)
    (hi : e.m_WrapperMode ≠ .WRAPPER_MODE_INTERMEDIATE_PROCESS) :
    Main e = (match Main.lockSection e with
      | (.returned code, out) => (some code, out)
      | (.waiting, out) => (none, out)
      | (.proceed, out) => ((Main.afterLock e).1, out ++ (Main.afterLock e).2)) := by
  simp [Main, hok, hi]

theorem needsLock_not_intermediate (e : MainEnv) (hn : Main.needsLock e = true) :
    e.m_WrapperMode ≠ .WRAPPER_MODE_INTERMEDIATE_PROCESS := by
  intro h
  simp [Main.needsLock, h] at hn

theorem Main_already_running_iff (e : MainEnv) :
    (Main e).1 = some FBUILD_ALREADY_RUNNING ↔
      (e.optionsResult = .OPTIONS_OK ∧ Main.needsLock e = true ∧ e.mainTryLock = false
          ∧ e.m_WaitMode = false)
      ∨ (e.optionsResult = .OPTIONS_OK ∧ e.m_WrapperMode = .WRAPPER_MODE_MAIN_PROCESS
          ∧ (Main.lockSection e).1 = .proceed
          ∧ (WrapperMainProcess e).1 = some FBUILD_ALREADY_RUNNING) := by
  cases hok : e.optionsResult with
  | OPTIONS_OK_AND_QUIT => simp [Main, hok, FBUILD_OK, FBUILD_ALREADY_RUNNING]
  | OPTIONS_ERROR => simp [Main, hok, FBUILD_BAD_ARGS, FBUILD_ALREADY_RUNNING]
  | OPTIONS_OK =>
    by_cases hi : e.m_WrapperMode = .WRAPPER_MODE_INTERMEDIATE_PROCESS
    · have hn : Main.needsLock e = false := by simp [Main.needsLock, hi]
      cases hs : e.spawnFinal <;>
        simp [Main, hok, hi, hn, hs, WrapperIntermediateProcess, FBUILD_OK,
          FBUILD_ALREADY_RUNNING, FBUILD_FAILED_TO_SPAWN_WRAPPER_FINAL]
    · rw [Main_of_options_ok e hok hi]
      rcases hl : Main.lockSection e with ⟨o, out⟩
      cases o with
      | returned code =>
        have hr := lockSection_returned e code (by rw [hl])
        constructor
        · intro h
          simp only [Option.some.injEq] at h
          rcases hr with ⟨_, h1, h2, h3⟩ | ⟨h1, _⟩
          · exact Or.inl ⟨rfl, h1, h2, h3⟩
          · rw [h1] at h
            exact absurd h (by decide)
        · rintro (⟨_, h1, h2, h3⟩ | ⟨_, _, h3, _⟩)
          · have := lockSection_already_running e h1 h2 h3
            rw [hl] at this
            simp only [LoopOutcome.returned.injEq] at this
            simp [this]
          · simp at h3
      | waiting =>
        constructor
        · intro h
          simp at h
        · rintro (⟨_, h1, h2, h3⟩ | ⟨_, _, h3, _⟩)
          · have := lockSection_already_running e h1 h2 h3
            rw [hl] at this
            simp at this
          · simp at h3
      | proceed =>
        simp only [afterLock_already_running, true_and, and_true]
        constructor
        · intro h
          exact Or.inr h
        · rintro (⟨h1, h2, h3⟩ | h)
          · have := lockSection_already_running e h1 h2 h3
            rw [hl] at this
            simp at this
          · exact h

theorem Main_shared (e : MainEnv) :
    ∀ code ∈ sharedReturnCodes (Main e).2,
      code = FBUILD_ERROR_LOADING_BFF ∨ code = FBUILD_BUILD_FAILED ∨ code = FBUILD_OK := by
  cases hok : e.optionsResult with
  | OPTIONS_OK_AND_QUIT => simp [Main, hok, sharedReturnCodes]
  | OPTIONS_ERROR => simp [Main, hok, sharedReturnCodes]
  | OPTIONS_OK =>
    by_cases hi : e.m_WrapperMode = .WRAPPER_MODE_INTERMEDIATE_PROCESS
    · simp [Main, hok, hi, sharedReturnCodes]
    · rw [Main_of_options_ok e hok hi]
      have hn := lockSection_no_shared e
      rcases hl : Main.lockSection e with ⟨o, out⟩
      rw [hl] at hn
      simp only at hn
      cases o with
      | returned code => simp [hn]
      | waiting => simp [hn]
      | proceed =>
        simp only [sharedReturnCodes_append, hn, List.nil_append]
        exact afterLock_shared e

/-- C17 counterexample: a wrapper main process that obtains the main-process lock on the
first try returns -4 when its intermediate process ends with exit code -4. -/
theorem C17_forwarded_exit_code_gives_already_running :
    C17_env.optionsResult = .OPTIONS_OK ∧ C17_env.mainTryLock = true
      ∧ (Main.lockSection C17_env).1 = .proceed
      ∧ (Main C17_env).1 = some FBUILD_ALREADY_RUNNING := by
  decide

/-- C17 (amended): `Main` returns -4 exactly when option parsing succeeded, the
main-process lock is needed, the first try fails and `-wait` is not set, or when it is the
wrapper main process, has the lock, and forwards -4 as the exit code of its intermediate
process or as the return code left in the shared memory. Under `-wait` a first acquiring
try after k refusals ends the lock section after k sleeps of one second, and a stop-build
flag seen after the sleep of refusal k+1 makes `Main` return -1. A run without wrapper and
without build never returns -4, a run as intermediate process returns 0 or -6, and no run
stores -4 in the shared memory. -/
theorem C17_already_running_return_code (e : MainEnv) :
    ((Main e).1 = some FBUILD_ALREADY_RUNNING ↔
      (e.optionsResult = .OPTIONS_OK ∧ Main.needsLock e = true ∧ e.mainTryLock = false
          ∧ e.m_WaitMode = false)
      ∨ (e.optionsResult = .OPTIONS_OK ∧ e.m_WrapperMode = .WRAPPER_MODE_MAIN_PROCESS
          ∧ (Main.lockSection e).1 = .proceed ∧ e.spawnIntermediate = true
          ∧ (e.intermediateExit = FBUILD_ALREADY_RUNNING
              ∨ (e.intermediateExit = FBUILD_OK ∧ e.startedAfter.isSome = true
                  ∧ e.finalReleasedAfter.isSome = true
                  ∧ e.sharedReturnCode = FBUILD_ALREADY_RUNNING))))
    ∧ (e.optionsResult = .OPTIONS_OK → Main.needsLock e = true → e.mainTryLock = false →
        e.m_WaitMode = true → ∀ (k : Nat) (stop : Bool) (rest : List (Bool × Bool)),
        (e.waitRounds = List.replicate k (false, false) ++ (true, stop) :: rest →
          Main.lockSection e = (.proceed,
            .output "FBuild: Waiting for another FASTBuild to terminate due to -wait option.\n"
              :: List.replicate k (.sleep 1000)))
        ∧ (e.waitRounds = List.replicate k (false, false) ++ (false, true) :: rest →
          Main e = (some FBUILD_BUILD_FAILED,
            .output "FBuild: Waiting for another FASTBuild to terminate due to -wait option.\n"
              :: List.replicate (k + 1) (.sleep 1000))))
    ∧ (e.m_WrapperMode = .WRAPPER_MODE_NONE → e.m_PerformBuild = false →
        (Main e).1 ≠ some FBUILD_ALREADY_RUNNING)
    ∧ (e.optionsResult = .OPTIONS_OK → e.m_WrapperMode = .WRAPPER_MODE_INTERMEDIATE_PROCESS →
        (Main e).1 = some FBUILD_OK ∨ (Main e).1 = some FBUILD_FAILED_TO_SPAWN_WRAPPER_FINAL)
    ∧ (∀ code ∈ sharedReturnCodes (Main e).2, code ≠ FBUILD_ALREADY_RUNNING) := by
  refine ⟨?_, ?_, ?_, ?_, ?_⟩
  · rw [Main_already_running_iff, WrapperMainProcess_already_running]
  · intro hok hn ht hw k stop rest
    have hi := needsLock_not_intermediate e hn
    constructor
    · intro hr
      simp [Main.lockSection, hn, ht, hw, hr, waitLoop_acquires]
    · intro hr
      rw [Main_of_options_ok e hok hi]
      simp [Main.lockSection, hn, ht, hw, hr, waitLoop_stopped]
  · intro hm hp h
    rw [Main_already_running_iff] at h
    rcases h with ⟨_, hn, _, _⟩ | ⟨_, hm2, _, _⟩
    · simp [Main.needsLock, hm, hp] at hn
    · rw [hm] at hm2
      exact absurd hm2 (by decide)
  · intro hok hi
    cases hs : e.spawnFinal <;> simp [Main, hok, hi, WrapperIntermediateProcess, hs]
  · intro code hc h
    rcases Main_shared e code hc with h1 | h1 | h1 <;> rw [h1] at h <;> exact absurd h (by decide)

/-! ### Command pass -/

theorem iterate_inc_succ (n x : Nat) :
    AtomicIncU32^[n + 1] x = AtomicIncU32^[n] (AtomicIncU32 x) :=
  Function.iterate_succ_apply _ _ _

theorem iterate_dec_exact (k x : Nat) (hk : k ≤ x) (hx : x < U32) :
    AtomicDecU32^[k] x = x - k := by
  induction k generalizing x with
  | zero => rfl
  | succ k ih =>
    rw [iterate_dec_succ]
    have h1 : AtomicDecU32 x = x - 1 := by
      unfold AtomicDecU32 U32 at *
      omega
    rw [h1, ih (x - 1) (by omega) (by omega)]
    omega

theorem iterate_inc_exact (k x : Nat) (hx : x < U32) :
    AtomicIncU32^[k] x = (x + k) % U32 := by
  induction k generalizing x with
  | zero =>
    simp only [Function.iterate_zero, id_eq, Nat.add_zero]
    exact (Nat.mod_eq_of_lt hx).symm
  | succ k ih =>
    rw [iterate_inc_succ]
    have h1 : AtomicIncU32 x < U32 := by
      unfold AtomicIncU32
      exact Nat.mod_lt _ (by unfold U32; omega)
    rw [ih _ h1]
    unfold AtomicIncU32 U32
    omega

theorem CommunicateCommands_loop_counters (msg : Option OutMsg) (e : Bool)
    (sl : List ServerState) (sc rc : Nat) :
    (Client.CommunicateCommands.loop msg e sl sc rc).sendCounter
        = AtomicDecU32^[sl.countP ServerState.commandDue] sc
    ∧ (Client.CommunicateCommands.loop msg e sl sc rc).receiveCounter
        = (if e then AtomicIncU32^[sl.countP ServerState.commandDue] rc else rc) := by
  induction sl generalizing sc rc with
  | nil => cases e <;> exact ⟨rfl, rfl⟩
  | cons ss rest ih =>
    unfold Client.CommunicateCommands.loop
    cases hc : ss.m_Connection with
    | none =>
      have hd : ss.commandDue = false := by simp [ServerState.commandDue, hc]
      simp only [List.countP_cons, hd, Bool.false_eq_true, if_false, Nat.add_zero]
      exact ih sc rc
    | some conn =>
      cases hp : ss.m_ControlPendingSend with
      | false =>
        have hd : ss.commandDue = false := by simp [ServerState.commandDue, hp]
        simp only [List.countP_cons, hd, Bool.false_eq_true, if_false, Nat.add_zero]
        exact ih sc rc
      | true =>
        have hd : ss.commandDue = true := by simp [ServerState.commandDue, hc, hp]
        simp only [List.countP_cons, hd, if_true]
        cases e with
        | false =>
          obtain ⟨i1, i2⟩ := ih (AtomicDecU32 sc) rc
          refine ⟨?_, ?_⟩
          · rw [iterate_dec_succ]
            exact i1
          · simpa using i2
        | true =>
          obtain ⟨i1, i2⟩ := ih (AtomicDecU32 sc) (AtomicIncU32 rc)
          refine ⟨?_, ?_⟩
          · rw [iterate_dec_succ]
            exact i1
          · simp only [if_true] at i2 ⊢
            rw [iterate_inc_succ]
            exact i2

theorem CommunicateCommands_loop_sends (msg : OutMsg) (e : Bool)
    (sl : List ServerState) (sc rc : Nat) :
    (Client.CommunicateCommands.loop (some msg) e sl sc rc).effects
      = (sl.filter ServerState.commandDue).map
          (fun ss => Effect.send (ss.m_Connection.getD 0) msg msg.HasPayload) := by
  induction sl generalizing sc rc with
  | nil => rfl
  | cons ss rest ih =>
    unfold Client.CommunicateCommands.loop
    cases hc : ss.m_Connection with
    | none =>
      have hd : ss.commandDue = false := by simp [ServerState.commandDue, hc]
      simp only [List.filter_cons, hd, Bool.false_eq_true, if_false]
      exact ih sc rc
    | some conn =>
      cases hp : ss.m_ControlPendingSend with
      | false =>
        have hd : ss.commandDue = false := by simp [ServerState.commandDue, hp]
        simp only [List.filter_cons, hd, Bool.false_eq_true, if_false]
        exact ih sc rc
      | true =>
        have hd : ss.commandDue = true := by simp [ServerState.commandDue, hc, hp]
        simp only [List.filter_cons, hd, if_true, List.map_cons, hc, Option.getD_some,
          List.singleton_append, List.cons.injEq, true_and]
        exact ih _ _

theorem CommunicateCommands_of_pending (c : Client)
    (hne : c.m_ControlPendingSendCounter ≠ 0) :
      (c.CommunicateCommands.1.m_ServerList.length = c.m_ServerList.length
       ∧ ∀ (i : Nat) (ss : ServerState), c.m_ServerList[i]? = some ss →
          (ss.commandDue = false → c.CommunicateCommands.1.m_ServerList[i]? = some ss)
          ∧ (ss.commandDue = true →
              c.CommunicateCommands.1.m_ServerList[i]?
                = some (if c.m_ControlMessageExpectResponse
                    then { ss with m_ControlPendingSend := false,
                                   m_ControlPendingResponse := true }
                    else { ss with m_ControlPendingSend := false,
                                   m_ControlSuccess := true })))
      ∧ c.CommunicateCommands.1.m_ControlPendingSendCounter
          = AtomicDecU32^[c.m_ServerList.countP ServerState.commandDue]
              c.m_ControlPendingSendCounter
      ∧ (c.m_ServerList.countP ServerState.commandDue ≤ c.m_ControlPendingSendCounter →
          c.m_ControlPendingSendCounter < U32 →
          c.CommunicateCommands.1.m_ControlPendingSendCounter
            = c.m_ControlPendingSendCounter - c.m_ServerList.countP ServerState.commandDue)
      ∧ c.CommunicateCommands.1.m_ControlPendingReceiveCounter
          = (if c.m_ControlMessageExpectResponse
              then AtomicIncU32^[c.m_ServerList.countP ServerState.commandDue]
                c.m_ControlPendingReceiveCounter
              else c.m_ControlPendingReceiveCounter)
      ∧ (c.m_ControlMessageExpectResponse = true → c.m_ControlPendingReceiveCounter < U32 →
          c.CommunicateCommands.1.m_ControlPendingReceiveCounter
            = (c.m_ControlPendingReceiveCounter
                + c.m_ServerList.countP ServerState.commandDue) % U32)
      ∧ (∀ msg, c.m_ControlMessage = some msg →
          c.CommunicateCommands.2
            = (c.m_ServerList.filter ServerState.commandDue).map
                (fun ss => Effect.send (ss.m_Connection.getD 0) msg msg.HasPayload))
      ∧ c.CommunicateCommands.1.m_WorkerList = c.m_WorkerList
      ∧ c.CommunicateCommands.1.m_ControlMessage = c.m_ControlMessage := by
  have hcc : c.CommunicateCommands
      = ({ c with
            m_ServerList := (Client.CommunicateCommands.loop c.m_ControlMessage
              c.m_ControlMessageExpectResponse c.m_ServerList
              c.m_ControlPendingSendCounter c.m_ControlPendingReceiveCounter).serverList
            m_ControlPendingSendCounter := (Client.CommunicateCommands.loop c.m_ControlMessage
              c.m_ControlMessageExpectResponse c.m_ServerList
              c.m_ControlPendingSendCounter c.m_ControlPendingReceiveCounter).sendCounter
            m_ControlPendingReceiveCounter := (Client.CommunicateCommands.loop
              c.m_ControlMessage
              c.m_ControlMessageExpectResponse c.m_ServerList
              c.m_ControlPendingSendCounter c.m_ControlPendingReceiveCounter).receiveCounter },
          (Client.CommunicateCommands.loop c.m_ControlMessage
              c.m_ControlMessageExpectResponse c.m_ServerList
              c.m_ControlPendingSendCounter c.m_ControlPendingReceiveCounter).effects) := by
    simp [Client.CommunicateCommands, hne]
  obtain ⟨k1, k2⟩ := CommunicateCommands_loop_counters c.m_ControlMessage
    c.m_ControlMessageExpectResponse c.m_ServerList c.m_ControlPendingSendCounter
    c.m_ControlPendingReceiveCounter
  rw [hcc]
  simp only [CommunicateCommands_loop_map, k1, k2]
  refine ⟨⟨by simp, ?_⟩, by trivial, ?_, by trivial, ?_, ?_, by trivial, by trivial⟩
  · intro i ss hss
    simp only [List.getElem?_map, hss, Option.map_some']
    constructor
    · intro hd
      congr 1
      unfold Client.CommunicateCommands.entry
      cases hc : ss.m_Connection with
      | none => rfl
      | some conn =>
        have : ss.m_ControlPendingSend = false := by
          simpa [ServerState.commandDue, hc] using hd
        simp [this]
    · intro hd
      congr 1
      unfold Client.CommunicateCommands.entry
      have h1 : ss.m_ControlPendingSend = true ∧ ss.m_Connection.isSome = true := by
        simpa [ServerState.commandDue] using hd
      cases hc : ss.m_Connection with
      | none => simp [hc] at h1
      | some conn => simp [h1.1]
  · intro hk hx
    exact iterate_dec_exact _ _ hk hx
  · intro he hx
    simp only [he, if_true]
    exact iterate_inc_exact _ _ hx
  · intro msg hm
    rw [hm]
    exact CommunicateCommands_loop_sends msg _ _ _ _

/-- C21: when the pending-send counter is not zero, `CommunicateCommands` leaves every
entry without pending send or without live connection as it was; in every other entry it
clears the pending-send flag and changes nothing else but, when a response is expected, the
pending-response flag, which it sets, and, when none is expected, the success flag, which
it sets. The pending-send counter is decremented once per such entry and the
pending-receive counter incremented once per such entry when a response is expected,
unchanged otherwise (the exact differences when nothing wraps); the installed message is
sent once to each such entry, in table order, and nothing else is called. When the counter
is zero nothing is sent and nothing changes, whatever the flags of the entries. All this
holds of every client state. In every state the client can be in, that is, every state
reached from a freshly constructed client by any sequence of its steps, each entry that had
pending send and a live connection ends with pending send cleared, with pending response set
if and only if a response is expected, and with the success flag set when none is. -/
theorem C21_communicate_commands (c : Client) :
    (c.m_ControlPendingSendCounter ≠ 0 →
      (c.CommunicateCommands.1.m_ServerList.length = c.m_ServerList.length
       ∧ ∀ (i : Nat) (ss : ServerState), c.m_ServerList[i]? = some ss →
          (ss.commandDue = false → c.CommunicateCommands.1.m_ServerList[i]? = some ss)
          ∧ (ss.commandDue = true →
              c.CommunicateCommands.1.m_ServerList[i]?
                = some (if c.m_ControlMessageExpectResponse
                    then { ss with m_ControlPendingSend := false,
                                   m_ControlPendingResponse := true }
                    else { ss with m_ControlPendingSend := false,
                                   m_ControlSuccess := true })))
      ∧ c.CommunicateCommands.1.m_ControlPendingSendCounter
          = AtomicDecU32^[c.m_ServerList.countP ServerState.commandDue]
              c.m_ControlPendingSendCounter
      ∧ (c.m_ServerList.countP ServerState.commandDue ≤ c.m_ControlPendingSendCounter →
          c.m_ControlPendingSendCounter < U32 →
          c.CommunicateCommands.1.m_ControlPendingSendCounter
            = c.m_ControlPendingSendCounter - c.m_ServerList.countP ServerState.commandDue)
      ∧ c.CommunicateCommands.1.m_ControlPendingReceiveCounter
          = (if c.m_ControlMessageExpectResponse
              then AtomicIncU32^[c.m_ServerList.countP ServerState.commandDue]
                c.m_ControlPendingReceiveCounter
              else c.m_ControlPendingReceiveCounter)
      ∧ (c.m_ControlMessageExpectResponse = true → c.m_ControlPendingReceiveCounter < U32 →
          c.CommunicateCommands.1.m_ControlPendingReceiveCounter
            = (c.m_ControlPendingReceiveCounter
                + c.m_ServerList.countP ServerState.commandDue) % U32)
      ∧ (∀ msg, c.m_ControlMessage = some msg →
          c.CommunicateCommands.2
            = (c.m_ServerList.filter ServerState.commandDue).map
                (fun ss => Effect.send (ss.m_Connection.getD 0) msg msg.HasPayload))
      ∧ c.CommunicateCommands.1.m_WorkerList = c.m_WorkerList
      ∧ c.CommunicateCommands.1.m_ControlMessage = c.m_ControlMessage)
    ∧ (c.m_ControlPendingSendCounter = 0 → c.CommunicateCommands = (c, []))
    ∧ (∀ (buildWorkerList controlWorkerList : List String) (port limit : Nat)
        (detailedLogging : Bool) (now : Int) (evs : List Event),
        c = (run (Client.new buildWorkerList controlWorkerList port limit detailedLogging now)
              evs).1 →
        c.m_ControlPendingSendCounter ≠ 0 →
        ∀ (i : Nat) (ss : ServerState), c.m_ServerList[i]? = some ss →
          ss.commandDue = true →
          ∃ ss2, c.CommunicateCommands.1.m_ServerList[i]? = some ss2
            ∧ ss2.m_ControlPendingSend = false
            ∧ (ss2.m_ControlPendingResponse = true ↔ c.m_ControlMessageExpectResponse = true)
            ∧ (c.m_ControlMessageExpectResponse = false → ss2.m_ControlSuccess = true)) := by
  refine ⟨CommunicateCommands_of_pending c, ?_, ?_⟩
  · intro h0
    simp [Client.CommunicateCommands, h0]
  · intro buildWorkerList controlWorkerList port limit detailedLogging now evs hc hne i ss hss hd
    have hinv : ss.controlFlagsOK = true := by
      have hmem : ss ∈ c.m_ServerList := List.getElem?_mem hss
      rw [hc] at hmem
      exact reached_controlFlagsOK buildWorkerList controlWorkerList port limit
        detailedLogging now evs ss hmem
    have hsend : ss.m_ControlPendingSend = true := by
      simp only [ServerState.commandDue, Bool.and_eq_true] at hd
      exact hd.1
    have hresp : ss.m_ControlPendingResponse = false := by
      cases h : ss.m_ControlPendingResponse
      · rfl
      · simp [ServerState.controlFlagsOK, hsend, h] at hinv
    have hafter := ((CommunicateCommands_of_pending c hne).1.2 i ss hss).2 hd
    refine ⟨_, hafter, ?_⟩
    cases he : c.m_ControlMessageExpectResponse
    · simp [hresp]
    · simp

/-- Witness for C21 on the state reached by the sample run: the only entry is owed the
command; after the pass its pending-send flag is cleared, its success flag set, no response
is awaited and the send counter is back to 0. -/
theorem C21_communicate_commands_witness :
    (C21_reached.m_ControlPendingSendCounter = 1
      ∧ C21_reached.m_ControlMessageExpectResponse = false
      ∧ C21_reached.m_ServerList.map (fun ss => ss.commandDue) = [true])
    ∧ (C21_reached.CommunicateCommands.1.m_ServerList.map
        (fun ss => (ss.m_ControlPendingSend, ss.m_ControlPendingResponse, ss.m_ControlSuccess))
        = [(false, false, true)]
      ∧ C21_reached.CommunicateCommands.1.m_ControlPendingSendCounter = 0
      ∧ sentMessages C21_reached.CommunicateCommands.2 = [(1, OutMsg.MsgSetMode 0 0)])
    ∧ (∀ (i : Nat) (ss : ServerState), C21_reached.m_ServerList[i]? = some ss →
        ss.commandDue = true →
        ∃ ss2, C21_reached.CommunicateCommands.1.m_ServerList[i]? = some ss2
          ∧ ss2.m_ControlPendingSend = false
          ∧ (ss2.m_ControlPendingResponse = true
              ↔ C21_reached.m_ControlMessageExpectResponse = true)
          ∧ (C21_reached.m_ControlMessageExpectResponse = false
              → ss2.m_ControlSuccess = true)) :=
  ⟨by decide, by decide,
    (C21_communicate_commands C21_reached).2.2 [] ["w"] 31264 8 false 0 C21_events rfl
      (by decide)⟩

/-! ### Job handlers -/

/-- C22: on a RequestJob, an entry that is not build-enabled gets one NoJobAvailable, the
queue is not asked and the entry is unchanged; a build-enabled entry for which the queue
has no job gets one NoJobAvailable and is unchanged; when the queue returns job J the entry
changes only in its in-flight list, which gets J appended, and one Job message with the
tool id of J is sent with payload, after the START_JOB monitor line. -/
theorem C22_request_job (ss : ServerState) (connection : ConnectionInfo)
    (queueJob : Option Job) :
    (ss.m_BuildJobsEnabled = false →
      Client.Process_MsgRequestJob ss connection queueJob
        = (ss, [Effect.send connection OutMsg.MsgNoJobAvailable false]))
    ∧ (ss.m_BuildJobsEnabled = true → queueJob = none →
      Client.Process_MsgRequestJob ss connection queueJob
        = (ss, [Effect.getDistributableJobToProcess,
                Effect.send connection OutMsg.MsgNoJobAvailable false]))
    ∧ (∀ job, ss.m_BuildJobsEnabled = true → queueJob = some job →
      Client.Process_MsgRequestJob ss connection queueJob
        = ({ ss with m_Jobs := ss.m_Jobs ++ [job] },
            [Effect.getDistributableJobToProcess,
             Effect.monitor ("START_JOB " ++ ss.m_RemoteName ++ " \"" ++ job.nodeName ++ "\" \n"),
             Effect.send connection (OutMsg.MsgJob job.toolId) true])
      ∧ sentMessages (Client.Process_MsgRequestJob ss connection queueJob).2
          = [(connection, OutMsg.MsgJob job.toolId)]) := by
  refine ⟨?_, ?_, ?_⟩
  · intro h
    simp [Client.Process_MsgRequestJob, h]
  · intro h hq
    simp [Client.Process_MsgRequestJob, h, hq]
  · intro job h hq
    simp [Client.Process_MsgRequestJob, h, hq, startJobLine, sentMessages]

theorem writtenFiles_append (a b : List Effect) :
    writtenFiles (a ++ b) = writtenFiles a ++ writtenFiles b := by
  induction a with
  | nil => rfl
  | cons x rest ih => cases x <;> simp [writtenFiles, ih]

theorem stampedJobs_append (a b : List Effect) :
    stampedJobs (a ++ b) = stampedJobs a ++ stampedJobs b := by
  induction a with
  | nil => rfl
  | cons x rest ih => cases x <;> simp [stampedJobs, ih]

theorem cachedJobs_append (a b : List Effect) :
    cachedJobs (a ++ b) = cachedJobs a ++ cachedJobs b := by
  induction a with
  | nil => rfl
  | cons x rest ih => cases x <;> simp [cachedJobs, ih]

theorem finishedJobs_append (a b : List Effect) :
    finishedJobs (a ++ b) = finishedJobs a ++ finishedJobs b := by
  induction a with
  | nil => rfl
  | cons x rest ih => cases x <;> simp [finishedJobs, ih]

theorem monitorLines_append (a b : List Effect) :
    monitorLines (a ++ b) = monitorLines a ++ monitorLines b := by
  induction a with
  | nil => rfl
  | cons x rest ih => cases x <;> simp [monitorLines, ih]

theorem writeOutputs_spec (job : Job) (buildTime : Nat) (env : JobResultEnv) :
    (Client.Process_MsgJobResult.writeOutputs job buildTime env).1
        = (env.ensurePathExists
            && allExtracted env.extractFile 0 (outputFilesInOrder job))
    ∧ writtenFiles (Client.Process_MsgJobResult.writeOutputs job buildTime env).2
        = (if env.ensurePathExists then
            extractionsUpToFailure env.extractFile 0 (outputFilesInOrder job) else [])
    ∧ stampedJobs (Client.Process_MsgJobResult.writeOutputs job buildTime env).2
        = (if (Client.Process_MsgJobResult.writeOutputs job buildTime env).1 then [job]
            else [])
    ∧ cachedJobs (Client.Process_MsgJobResult.writeOutputs job buildTime env).2
        = (if (Client.Process_MsgJobResult.writeOutputs job buildTime env).1
              && env.useCacheWrite && job.shouldUseCache then [job] else [])
    ∧ finishedJobs (Client.Process_MsgJobResult.writeOutputs job buildTime env).2 = []
    ∧ monitorLines (Client.Process_MsgJobResult.writeOutputs job buildTime env).2 = [] := by
  have hw : ∀ (l : List Effect),
      l = (if job.isMSVC then
            (if job.warningsAsErrorsMSVC = false then [Effect.handleWarningsMSVC job] else [])
          else if job.isClang || job.isGCC then
            (if !job.warningsAsErrorsClangGCC then [Effect.handleWarningsClangGCC job] else [])
          else []) →
      writtenFiles l = [] ∧ stampedJobs l = [] ∧ cachedJobs l = [] ∧ finishedJobs l = []
        ∧ monitorLines l = [] := by
    intro l hl
    subst hl
    split_ifs <;> simp [writtenFiles, stampedJobs, cachedJobs, finishedJobs, monitorLines]
  obtain ⟨w1, w2, w3, w4, w5⟩ := hw _ rfl
  clear hw
  unfold Client.Process_MsgJobResult.writeOutputs
  simp only [writtenFiles_append, stampedJobs_append, cachedJobs_append, finishedJobs_append,
    monitorLines_append, w1, w2, w3, w4, w5, List.append_nil]
  cases h0 : env.ensurePathExists
  · simp [writtenFiles, stampedJobs, cachedJobs, finishedJobs, monitorLines]
  · cases h1 : env.extractFile 0 job.nodeName
    · cases hp : job.isUsingPDB <;> cases hs : job.isUsingStaticAnalysisMSVC <;>
        simp [h1, hp, hs, outputFilesInOrder, allExtracted, extractionsUpToFailure, writtenFiles,
          stampedJobs, cachedJobs, finishedJobs, monitorLines]
    · cases hp : job.isUsingPDB
      · cases hs : job.isUsingStaticAnalysisMSVC
        · cases hc : (env.useCacheWrite && job.shouldUseCache) <;>
            simp [h1, hp, hs, hc, outputFilesInOrder, allExtracted, extractionsUpToFailure,
              writtenFiles, stampedJobs, cachedJobs, finishedJobs, monitorLines,
              Bool.and_assoc]
        · cases h3 : env.extractFile 1 job.nativeAnalysisXMLPath <;>
          cases hc : (env.useCacheWrite && job.shouldUseCache) <;>
            simp [h1, hp, hs, h3, hc, outputFilesInOrder, allExtracted, extractionsUpToFailure,
              writtenFiles, stampedJobs, cachedJobs, finishedJobs, monitorLines,
              Bool.and_assoc]
      · cases h2 : env.extractFile 1 job.pdbName
        · cases hs : job.isUsingStaticAnalysisMSVC <;>
            simp [h1, hp, hs, h2, outputFilesInOrder, allExtracted, extractionsUpToFailure,
              writtenFiles, stampedJobs, cachedJobs, finishedJobs, monitorLines]
        · cases hs : job.isUsingStaticAnalysisMSVC
          · cases hc : (env.useCacheWrite && job.shouldUseCache) <;>
              simp [h1, hp, hs, h2, hc, outputFilesInOrder, allExtracted, extractionsUpToFailure,
                writtenFiles, stampedJobs, cachedJobs, finishedJobs, monitorLines,
                Bool.and_assoc]
          · cases h3 : env.extractFile 2 job.nativeAnalysisXMLPath <;>
            cases hc : (env.useCacheWrite && job.shouldUseCache) <;>
              simp [h1, hp, hs, h2, h3, hc, outputFilesInOrder, allExtracted, extractionsUpToFailure,
                writtenFiles, stampedJobs, cachedJobs, finishedJobs, monitorLines,
                Bool.and_assoc]

theorem Process_MsgJobResult_success (ss : ServerState) (p : JobResultPayload)
    (env : JobResultEnv) (job0 : Job) (hres : p.result = true)
    (hwanted : env.returnedJob = some job0) :
    (Client.Process_MsgJobResult ss p env).2
      = [Effect.onReturnRemoteJob p.jobId]
        ++ (Client.Process_MsgJobResult.writeOutputs (job0.SetMessages p.messages)
              p.buildTime env).2
        ++ (if env.monitorEnabled then
              [Effect.monitor (finishJobLine
                (Client.Process_MsgJobResult.writeOutputs (job0.SetMessages p.messages)
                  p.buildTime env).1
                ss.m_RemoteName job0.nodeName
                (env.messagesForMonitorLog (job0.SetMessages p.messages)))]
            else [])
        ++ [Effect.finishedProcessingJob (job0.SetMessages p.messages)
              (Client.Process_MsgJobResult.writeOutputs (job0.SetMessages p.messages)
                p.buildTime env).1] := by
  simp [Client.Process_MsgJobResult, hres, hwanted, Job.SetMessages]

/-- C23: for a successful JobResult of a job the queue still wants, the files handed to
`WriteFileToDisk` are the node's output files in the order object file, PDB (when used),
static-analysis XML (when used), at the consecutive indices 0, 1, ..., up to and including
the first extraction that fails (none at all when the path of the object file cannot be
created); so the XML is taken from index 1 without a PDB and from index 2 with one. The job
is finished with result true exactly when the path was created and every extraction
succeeded; otherwise the node is neither stamped nor committed to the cache. -/
theorem C23_output_extraction_order (ss : ServerState) (p : JobResultPayload)
    (env : JobResultEnv) (job0 : Job) (hres : p.result = true)
    (hwanted : env.returnedJob = some job0) :
    writtenFiles (Client.Process_MsgJobResult ss p env).2
        = (if env.ensurePathExists then
            extractionsUpToFailure env.extractFile 0
              (outputFilesInOrder (job0.SetMessages p.messages))
           else [])
    ∧ finishedJobs (Client.Process_MsgJobResult ss p env).2
        = [(job0.SetMessages p.messages,
            env.ensurePathExists
              && allExtracted env.extractFile 0
                  (outputFilesInOrder (job0.SetMessages p.messages)))]
    ∧ ((env.ensurePathExists
          && allExtracted env.extractFile 0
              (outputFilesInOrder (job0.SetMessages p.messages))) = false →
        stampedJobs (Client.Process_MsgJobResult ss p env).2 = []
        ∧ cachedJobs (Client.Process_MsgJobResult ss p env).2 = [])
    ∧ ((env.ensurePathExists
          && allExtracted env.extractFile 0
              (outputFilesInOrder (job0.SetMessages p.messages))) = true →
        stampedJobs (Client.Process_MsgJobResult ss p env).2 = [job0.SetMessages p.messages])
    ∧ (env.ensurePathExists = true → env.extractFile 0 job0.nodeName = true →
        job0.isUsingPDB = false → job0.isUsingStaticAnalysisMSVC = true →
        writtenFiles (Client.Process_MsgJobResult ss p env).2
          = [(job0.nodeName, 0), (job0.nativeAnalysisXMLPath, 1)])
    ∧ (env.ensurePathExists = true → env.extractFile 0 job0.nodeName = true →
        job0.isUsingPDB = true → env.extractFile 1 job0.pdbName = true →
        job0.isUsingStaticAnalysisMSVC = true →
        writtenFiles (Client.Process_MsgJobResult ss p env).2
          = [(job0.nodeName, 0), (job0.pdbName, 1), (job0.nativeAnalysisXMLPath, 2)])
    ∧ (env.ensurePathExists = true → env.extractFile 0 job0.nodeName = false →
        writtenFiles (Client.Process_MsgJobResult ss p env).2 = [(job0.nodeName, 0)]) := by
  obtain ⟨s1, s2, s3, s4, s5, -⟩ :=
    writeOutputs_spec (job0.SetMessages p.messages) p.buildTime env
  have hwf : writtenFiles (Client.Process_MsgJobResult ss p env).2
      = (if env.ensurePathExists then
          extractionsUpToFailure env.extractFile 0
            (outputFilesInOrder (job0.SetMessages p.messages))
         else []) := by
    rw [Process_MsgJobResult_success ss p env job0 hres hwanted]
    cases env.monitorEnabled <;> simp [writtenFiles_append, s2, writtenFiles]
  refine ⟨hwf, ?_, ?_, ?_, ?_, ?_, ?_⟩
  · rw [Process_MsgJobResult_success ss p env job0 hres hwanted]
    cases env.monitorEnabled <;> simp [finishedJobs_append, s5, s1, finishedJobs]
  · intro hf
    rw [hf] at s1
    rw [Process_MsgJobResult_success ss p env job0 hres hwanted]
    cases env.monitorEnabled <;>
      simp [stampedJobs_append, cachedJobs_append, s3, s4, s1, stampedJobs, cachedJobs]
  · intro ht
    rw [ht] at s1
    rw [Process_MsgJobResult_success ss p env job0 hres hwanted]
    cases env.monitorEnabled <;> simp [stampedJobs_append, s3, s1, stampedJobs]
  · intro h0 h1 hp hs
    rw [hwf]
    simp [h0, h1, hp, hs, outputFilesInOrder, extractionsUpToFailure, Job.SetMessages]
  · intro h0 h1 hp h2 hs
    rw [hwf]
    simp [h0, h1, hp, h2, hs, outputFilesInOrder, extractionsUpToFailure, Job.SetMessages]
  · intro h0 h1
    rw [hwf]
    simp [h0, h1, outputFilesInOrder, extractionsUpToFailure, Job.SetMessages]

/-- Witness for C23: object file written, PDB extraction fails, so the XML is not tried and
the job is finished with result false. -/
theorem C23_output_extraction_order_witness :
    writtenFiles (Client.Process_MsgJobResult C24_entry C23_payload C23_env).2
        = [("a.obj", 0), ("a.pdb", 1)]
    ∧ finishedJobs (Client.Process_MsgJobResult C24_entry C23_payload C23_env).2
        = [(C23_job, false)]
    ∧ stampedJobs (Client.Process_MsgJobResult C24_entry C23_payload C23_env).2 = []
    ∧ cachedJobs (Client.Process_MsgJobResult C24_entry C23_payload C23_env).2 = [] := by
  have h := C23_output_extraction_order C24_entry C23_payload C23_env C23_job rfl rfl
  refine ⟨?_, ?_, ?_, ?_⟩
  · rw [h.1]
    decide
  · rw [h.2.1]
    decide
  · exact (h.2.2.1 (by decide)).1
  · exact (h.2.2.1 (by decide)).2

theorem Process_MsgJobResult_finish_line (ss : ServerState) (p : JobResultPayload)
    (env : JobResultEnv) (job0 : Job) (hwanted : env.returnedJob = some job0)
    (hmon : env.monitorEnabled = true)
    (hnoretry : returnedJobs (Client.Process_MsgJobResult ss p env).2 = []) :
    ∃ job result,
      finishedJobs (Client.Process_MsgJobResult ss p env).2 = [(job, result)]
      ∧ monitorLines (Client.Process_MsgJobResult ss p env).2
          = [finishJobLine result ss.m_RemoteName job.nodeName
              (env.messagesForMonitorLog job)] := by
  cases hres : p.result with
  | true =>
    obtain ⟨-, -, -, -, s5, s6⟩ :=
      writeOutputs_spec (job0.SetMessages p.messages) p.buildTime env
    refine ⟨job0.SetMessages p.messages,
      (Client.Process_MsgJobResult.writeOutputs (job0.SetMessages p.messages)
        p.buildTime env).1, ?_, ?_⟩
    · rw [Process_MsgJobResult_success ss p env job0 hres hwanted]
      simp [finishedJobs_append, s5, hmon, finishedJobs]
    · rw [Process_MsgJobResult_success ss p env job0 hres hwanted]
      have hn : (job0.SetMessages p.messages).nodeName = job0.nodeName := rfl
      simp [monitorLines_append, s6, hmon, monitorLines, hn]
  | false =>
    cases hsys : p.systemError with
    | false =>
      refine ⟨job0.SetMessages p.messages, false, ?_, ?_⟩ <;>
        simp [Client.Process_MsgJobResult, hres, hsys, hwanted, hmon, finishedJobs,
          monitorLines, Job.SetMessages]
    | true =>
      by_cases hlt : (job0.SetMessages p.messages).OnSystemError.GetSystemErrorCount
          < SYSTEM_ERROR_ATTEMPT_COUNT
      · exfalso
        simp [Client.Process_MsgJobResult, hres, hsys, hwanted, hlt, returnedJobs]
          at hnoretry
      · cases he : EndsWith (problemText (job0.SetMessages p.messages).nodeName p.messages)
            (Char.ofNat 10) <;>
        refine ⟨(job0.SetMessages p.messages).OnSystemError, false, ?_, ?_⟩ <;>
          simp [Client.Process_MsgJobResult, hres, hsys, hwanted, hmon, hlt, he, finishedJobs,
            monitorLines]

/-- C24: a JobResult with `success = false` and `system_error = true` for a wanted job
with no earlier system error, monitoring enabled: the job goes back to the queue for a
retry and no FINISH_JOB line (no monitor line at all) is written for it, although its
START_JOB line was written when it was handed to the worker. -/
theorem C24_retry_writes_no_finish_job_line :
    monitorLines (Client.Process_MsgRequestJob { C24_entry with m_Jobs := [] } 1
        C24_env.returnedJob).2 = ["START_JOB w1 \"a.obj\" \n"]
    ∧ returnedJobs (Client.Process_MsgJobResult C24_entry C24_payload C24_env).2
        = [{ m_JobId := 7, nodeName := "a.obj", messages := ["disk full"],
             m_SystemErrorCount := 1 }]
    ∧ monitorLines (Client.Process_MsgJobResult C24_entry C24_payload C24_env).2 = []
    ∧ finishedJobs (Client.Process_MsgJobResult C24_entry C24_payload C24_env).2 = [] := by
  decide

theorem MessageType_toNat_ofNat (n : Nat) : (MessageType.ofNat n).toNat = n := by
  unfold MessageType.ofNat
  split <;> rfl

theorem dispatch_default (c : Client) (index : Nat) (connection : ConnectionInfo)
    (ss : ServerState) (imsg : IMessage) (payload : Option ReceivedData) (env : ReceiveEnv)
    (h3 : imsg.m_MsgType ≠ .MSG_REQUEST_JOB) (h6 : imsg.m_MsgType ≠ .MSG_JOB_RESULT)
    (h7 : imsg.m_MsgType ≠ .MSG_REQUEST_MANIFEST) (h9 : imsg.m_MsgType ≠ .MSG_REQUEST_FILE)
    (h12 : imsg.m_MsgType ≠ .MSG_SERVER_INFO) :
    Client.OnReceive.dispatch c index connection ss imsg payload env
      = ({ c with m_ServerList := c.m_ServerList.set index { ss with m_CurrentMessage := none } },
          [Effect.disconnect connection]) := by
  unfold Client.OnReceive.dispatch
  cases h : imsg.m_MsgType <;> simp_all

theorem dispatch_clears_current (c : Client) (index : Nat) (connection : ConnectionInfo)
    (ss : ServerState) (imsg : IMessage) (payload : Option ReceivedData) (env : ReceiveEnv)
    (hi : index < c.m_ServerList.length) :
    ((Client.OnReceive.dispatch c index connection ss imsg payload env).1.m_ServerList[index]?).map
        (fun e => e.m_CurrentMessage) = some none := by
  unfold Client.OnReceive.dispatch
  simp [List.getElem?_set_self hi]

/-- C25: in `OnReceive`, a buffer that arrives while the entry has no current message is
read as a header; if its payload flag is set it is stored as the current message and
nothing else happens, and the next buffer for that entry is handed to the handler as the
payload of the stored header; a header without payload flag is handled at once without
payload. The handler is chosen by the tag: RequestJob (3), JobResult (6), RequestManifest
(7), RequestFile (9) and ServerInfo (12) go to their `Process` function, and for every
other tag the connection is disconnected and nothing else is done. After every handled
message the entry's current message is null again. -/
theorem C25_on_receive (c : Client) (index : Nat) (connection : ConnectionInfo)
    (data : ReceivedData) (env : ReceiveEnv) :
    (∀ ss, c.m_ServerList[index]? = some ss → ss.m_CurrentMessage = none →
        data.asMessage.m_HasPayload = true →
        c.OnReceive index connection data env
          = ({ c with m_ServerList :=
                c.m_ServerList.set index { ss with m_CurrentMessage := some data.asMessage } },
              [])
        ∧ ∀ (data2 : ReceivedData) (env2 : ReceiveEnv),
            (c.OnReceive index connection data env).1.OnReceive index connection data2 env2
              = Client.OnReceive.dispatch (c.OnReceive index connection data env).1 index
                  connection { ss with m_CurrentMessage := some data.asMessage }
                  data.asMessage (some data2) env2)
    ∧ (∀ ss, c.m_ServerList[index]? = some ss → ss.m_CurrentMessage = none →
        data.asMessage.m_HasPayload = false →
        c.OnReceive index connection data env
          = Client.OnReceive.dispatch c index connection
              { ss with m_CurrentMessage := some data.asMessage } data.asMessage none env)
    ∧ (∀ ss imsg, c.m_ServerList[index]? = some ss → ss.m_CurrentMessage = some imsg →
        c.OnReceive index connection data env
          = Client.OnReceive.dispatch c index connection ss imsg (some data) env)
    ∧ (∀ (ss : ServerState) (imsg : IMessage) (payload : Option ReceivedData),
        (index < c.m_ServerList.length →
          ((Client.OnReceive.dispatch c index connection ss imsg payload
              env).1.m_ServerList[index]?).map (fun e => e.m_CurrentMessage) = some none)
        ∧ (∀ n, imsg.m_MsgType = MessageType.ofNat n → n ∉ [3, 6, 7, 9, 12] →
            Client.OnReceive.dispatch c index connection ss imsg payload env
              = ({ c with m_ServerList :=
                    c.m_ServerList.set index { ss with m_CurrentMessage := none } },
                  [Effect.disconnect connection]))
        ∧ (imsg.m_MsgType = MessageType.ofNat 3 →
            Client.OnReceive.dispatch c index connection ss imsg payload env
              = ({ c with
                   m_ServerList :=
                     c.m_ServerList.set index
                       { (Client.Process_MsgRequestJob ss connection env.queueJob).1 with
                         m_CurrentMessage := none } },
                  (Client.Process_MsgRequestJob ss connection env.queueJob).2))
        ∧ (imsg.m_MsgType = MessageType.ofNat 6 →
            Client.OnReceive.dispatch c index connection ss imsg payload env
              = ({ c with
                   m_ServerList :=
                     c.m_ServerList.set index
                       { (Client.Process_MsgJobResult ss (jobResultOfPayload payload env)
                           env.jobResultEnv).1 with
                         m_CurrentMessage := none } },
                  (Client.Process_MsgJobResult ss (jobResultOfPayload payload env)
                    env.jobResultEnv).2))
        ∧ (imsg.m_MsgType = MessageType.ofNat 7 →
            Client.OnReceive.dispatch c index connection ss imsg payload env
              = ({ c with m_ServerList :=
                    c.m_ServerList.set index { ss with m_CurrentMessage := none } },
                  Client.Process_MsgRequestManifest ss connection imsg.toolId))
        ∧ (imsg.m_MsgType = MessageType.ofNat 9 →
            Client.OnReceive.dispatch c index connection ss imsg payload env
              = ({ c with m_ServerList :=
                    c.m_ServerList.set index { ss with m_CurrentMessage := none } },
                  Client.Process_MsgRequestFile ss connection imsg.toolId imsg.fileId
                    env.hasFileData))
        ∧ (imsg.m_MsgType = MessageType.ofNat 12 →
            (Client.OnReceive.dispatch c index connection ss imsg payload env).2 = []
            ∧ (Client.OnReceive.dispatch c index connection ss imsg payload env).1
                = { c with
                    m_ServerList :=
                      c.m_ServerList.set index
                        { (Client.Process_MsgServerInfo ss (serverInfoOfHeader imsg)
                            (serverInfoDetails payload) env.now
                            c.m_ControlPendingReceiveCounter).1 with
                          m_CurrentMessage := none },
                    m_ControlPendingReceiveCounter :=
                      (Client.Process_MsgServerInfo ss (serverInfoOfHeader imsg)
                        (serverInfoDetails payload) env.now
                        c.m_ControlPendingReceiveCounter).2 })) := by
  refine ⟨?_, ?_, ?_, ?_⟩
  · intro ss hss hcur hpay
    have h1 : c.OnReceive index connection data env
        = ({ c with m_ServerList :=
              c.m_ServerList.set index { ss with m_CurrentMessage := some data.asMessage } },
            []) := by
      simp [Client.OnReceive, hss, hcur, hpay]
    refine ⟨h1, ?_⟩
    intro data2 env2
    have hi : index < c.m_ServerList.length := by
      by_contra hcon
      rw [List.getElem?_eq_none (by omega)] at hss
      exact absurd hss (by simp)
    rw [h1]
    simp [Client.OnReceive, List.getElem?_set_self hi]
  · intro ss hss hcur hpay
    simp [Client.OnReceive, hss, hcur, hpay]
  · intro ss imsg hss hcur
    simp [Client.OnReceive, hss, hcur]
  · intro ss imsg payload
    refine ⟨dispatch_clears_current c index connection ss imsg payload env, ?_, ?_, ?_, ?_, ?_,
      ?_⟩
    · intro n hn hnot
      have hne : ∀ t : MessageType, t.toNat ∈ [3, 6, 7, 9, 12] → imsg.m_MsgType ≠ t := by
        intro t ht heq
        have : (MessageType.ofNat n).toNat = t.toNat := by rw [← hn, heq]
        rw [MessageType_toNat_ofNat] at this
        rw [this] at hnot
        exact hnot ht
      exact dispatch_default c index connection ss imsg payload env
        (hne _ (by decide)) (hne _ (by decide)) (hne _ (by decide)) (hne _ (by decide))
        (hne _ (by decide))
    · intro h
      have h2 : imsg.m_MsgType = .MSG_REQUEST_JOB := h
      simp [Client.OnReceive.dispatch, h2]
    · intro h
      have h2 : imsg.m_MsgType = .MSG_JOB_RESULT := h
      simp [Client.OnReceive.dispatch, h2]
    · intro h
      have h2 : imsg.m_MsgType = .MSG_REQUEST_MANIFEST := h
      simp [Client.OnReceive.dispatch, h2]
    · intro h
      have h2 : imsg.m_MsgType = .MSG_REQUEST_FILE := h
      simp [Client.OnReceive.dispatch, h2]
    · intro h
      have h2 : imsg.m_MsgType = .MSG_SERVER_INFO := h
      refine ⟨by simp [Client.OnReceive.dispatch, h2], ?_⟩
      simp only [Client.OnReceive.dispatch, h2]

/-! ### Wait loop -/

theorem nextWait_spec (w : Nat) (h : w ≤ 100) :
    Client.WorkersGetLastCommandResult.nextWait w = min 100 ((12 * w + 9) / 10) := by
  unfold Client.WorkersGetLastCommandResult.nextWait U32
  have hm : (w * 12 + 9) % 4294967296 = w * 12 + 9 := Nat.mod_eq_of_lt (by omega)
  rw [hm]
  omega

theorem waitSeq_succ (n : Nat) :
    waitSeq (n + 1) = Client.WorkersGetLastCommandResult.nextWait (waitSeq n) :=
  Function.iterate_succ_apply' _ _ _

theorem waitSeq_bounds (n : Nat) : 1 ≤ waitSeq n ∧ waitSeq n ≤ 100 := by
  induction n with
  | zero => exact ⟨Nat.le_refl 1, by decide⟩
  | succ n ih =>
    rw [waitSeq_succ, nextWait_spec _ ih.2]
    omega

theorem wait_terminates (timeoutMS : Nat) (hT : timeoutMS ≤ U32 - 101) :
    ∀ (fuel round totalMs : Nat), totalMs < timeoutMS + 100 →
      timeoutMS ≤ totalMs + fuel →
      ∃ sleeps,
        Client.WorkersGetLastCommandResult.wait (fun _ => true) timeoutMS fuel round totalMs
            (waitSeq round) = some sleeps
        ∧ sleeps = (List.range' round sleeps.length).map waitSeq
        ∧ timeoutMS ≤ totalMs + sleeps.sum
        ∧ totalMs + sleeps.sum < timeoutMS + 100
        ∧ (totalMs < timeoutMS → sleeps ≠ []) := by
  intro fuel
  induction fuel with
  | zero =>
    intro round totalMs h1 h2
    refine ⟨[], ?_, rfl, ?_, ?_, ?_⟩
    · have : ¬ totalMs < timeoutMS := by omega
      simp [Client.WorkersGetLastCommandResult.wait, this]
    · simpa using h2
    · simpa using h1
    · intro h
      omega
  | succ fuel ih =>
    intro round totalMs h1 h2
    by_cases hlt : totalMs < timeoutMS
    · obtain ⟨hb1, hb2⟩ := waitSeq_bounds round
      have hwrap : (totalMs + waitSeq round) % U32 = totalMs + waitSeq round := by
        apply Nat.mod_eq_of_lt
        unfold U32 at hT ⊢
        omega
      obtain ⟨rest, r1, r2, r3, r4, -⟩ := ih (round + 1) (totalMs + waitSeq round)
        (by omega) (by omega)
      refine ⟨waitSeq round :: rest, ?_, ?_, ?_, ?_, ?_⟩
      · simp only [Client.WorkersGetLastCommandResult.wait, hlt, decide_True, Bool.and_self,
          if_true, hwrap, ← waitSeq_succ, r1, Option.map_some']
      · simp only [List.length_cons, List.range'_succ, List.map_cons, List.cons.injEq,
          true_and]
        exact r2
      · simp only [List.sum_cons]
        omega
      · simp only [List.sum_cons]
        omega
      · intro _
        exact List.cons_ne_nil _ _
    · refine ⟨[], ?_, rfl, ?_, ?_, ?_⟩
      · simp [Client.WorkersGetLastCommandResult.wait, hlt]
      · simp only [List.sum_nil]
        omega
      · simpa using h1
      · intro h
        exact absurd h hlt

/-- C26: while the pending counters stay non-zero, the sleeps of the wait loop of
`WorkersGetLastCommandResult` start at 1 ms and each next one is
`min(100, (12*w + 9) div 10)` of the one before: the durations grow strictly until they
are 100 ms (reached at the twentieth sleep), never exceed 100 ms and then stay there; and
for every timeout `T <= 2^32 - 101` the loop ends after finitely many sleeps, which are
these durations in order, with total slept time at least `T` and below `T + 100`. -/
theorem C26_wait_loop_backoff :
    waitSeq 0 = 1
    ∧ (∀ n, waitSeq (n + 1) = min 100 ((12 * waitSeq n + 9) / 10))
    ∧ (∀ n, 1 ≤ waitSeq n ∧ waitSeq n ≤ 100)
    ∧ (∀ n, waitSeq n < 100 → waitSeq n < waitSeq (n + 1))
    ∧ (∀ n, waitSeq n = 100 → waitSeq (n + 1) = 100)
    ∧ waitSeq 19 = 100
    ∧ (∀ timeoutMS, timeoutMS ≤ U32 - 101 →
        ∃ sleeps,
          Client.WorkersGetLastCommandResult.wait (fun _ => true) timeoutMS timeoutMS 0 0 1
              = some sleeps
          ∧ sleeps = (List.range sleeps.length).map waitSeq
          ∧ timeoutMS ≤ sleeps.sum ∧ sleeps.sum < timeoutMS + 100) := by
  have hsucc : ∀ n, waitSeq (n + 1) = min 100 ((12 * waitSeq n + 9) / 10) := by
    intro n
    rw [waitSeq_succ, nextWait_spec _ (waitSeq_bounds n).2]
  refine ⟨rfl, hsucc, waitSeq_bounds, ?_, ?_, by decide, ?_⟩
  · intro n h
    rw [hsucc]
    have := (waitSeq_bounds n).1
    omega
  · intro n h
    rw [hsucc, h]
    decide
  · intro timeoutMS hT
    obtain ⟨sleeps, r1, r2, r3, r4, -⟩ :=
      wait_terminates timeoutMS hT timeoutMS 0 0 (by omega) (by omega)
    refine ⟨sleeps, r1, ?_, by simpa using r3, by simpa using r4⟩
    rw [List.range_eq_range']
    exact r2

/-! ### Idle detection -/

theorem Clamp_bounds (a : Int) : 0 ≤ Clamp a 0 10 ∧ Clamp a 0 10 ≤ 10 := by
  unfold Clamp
  split_ifs <;> omega

theorem smoothFloat_frame (st : IdleDetection) (geFloat : F32 → F32 → Bool) :
    (IdleDetection.Update.smoothFloat st geFloat).m_IdleSmoother = st.m_IdleSmoother
    ∧ (IdleDetection.Update.smoothFloat st geFloat).m_IsIdle = st.m_IsIdle := by
  unfold IdleDetection.Update.smoothFloat
  simp only []
  split <;> split <;> exact ⟨rfl, rfl⟩

theorem smooth_spec (st : IdleDetection) (sample : Bool) :
    (IdleDetection.Update.smooth st sample).m_IdleSmoother
        = Clamp (st.m_IdleSmoother + (if sample then 1 else -2)) 0 10
    ∧ (IdleDetection.Update.smooth st sample).m_IsIdle
        = (if Clamp (st.m_IdleSmoother + (if sample then 1 else -2)) 0 10 = 10 then true
           else if Clamp (st.m_IdleSmoother + (if sample then 1 else -2)) 0 10 = 0 then false
           else st.m_IsIdle) := by
  unfold IdleDetection.Update.smooth
  cases sample
  · simp only [Bool.false_eq_true, if_false]
    have e : st.m_IdleSmoother - 2 = st.m_IdleSmoother + -2 := by omega
    rw [e]
    by_cases h10 : Clamp (st.m_IdleSmoother + -2) 0 10 = 10
    · simp [h10]
    · by_cases h0 : Clamp (st.m_IdleSmoother + -2) 0 10 = 0
      · simp [h0]
      · simp [h10, h0]
  · simp only [if_true]
    by_cases h10 : Clamp (st.m_IdleSmoother + 1) 0 10 = 10
    · simp [h10]
    · by_cases h0 : Clamp (st.m_IdleSmoother + 1) 0 10 = 0
      · simp [h0]
      · simp [h10, h0]

theorem Update_spec (st : IdleDetection) (sample : Bool) (idleCurrent : F32)
    (geFloat : F32 → F32 → Bool) :
    (st.Update sample idleCurrent geFloat).m_IdleSmoother
        = Clamp (st.m_IdleSmoother + (if sample then 1 else -2)) 0 10
    ∧ (st.Update sample idleCurrent geFloat).IsIdle
        = (if (st.Update sample idleCurrent geFloat).m_IdleSmoother = 10 then true
           else if (st.Update sample idleCurrent geFloat).m_IdleSmoother = 0 then false
           else st.IsIdle) := by
  unfold IdleDetection.Update IdleDetection.IsIdle
  obtain ⟨f1, f2⟩ := smoothFloat_frame
    (IdleDetection.Update.smooth { st with m_IsIdleCurrent := idleCurrent } sample) geFloat
  obtain ⟨s1, s2⟩ := smooth_spec { st with m_IsIdleCurrent := idleCurrent } sample
  rw [f1, f2, s1, s2]
  exact ⟨rfl, rfl⟩

theorem updates_stays_not_idle (geFloat : F32 → F32 → Bool) (samples : List (Bool × F32)) :
    ∀ (st : IdleDetection), st.m_IsIdle = false → 0 ≤ st.m_IdleSmoother →
      st.m_IdleSmoother + samples.length < 10 →
      (IdleDetection.updates geFloat st samples).IsIdle = false := by
  induction samples with
  | nil =>
    intro st h _ _
    exact h
  | cons s rest ih =>
    intro st h h0 hlen
    simp only [List.length_cons] at hlen
    obtain ⟨u1, u2⟩ := Update_spec st s.1 s.2 geFloat
    have hb := Clamp_bounds (st.m_IdleSmoother + (if s.1 then 1 else -2))
    have hle : Clamp (st.m_IdleSmoother + (if s.1 then 1 else -2)) 0 10
        ≤ st.m_IdleSmoother + 1 := by
      unfold Clamp
      cases s.1 <;> simp only [Bool.false_eq_true, if_false, if_true] <;> split_ifs <;> omega
    rw [u1] at u2
    generalize Clamp (st.m_IdleSmoother + (if s.1 then 1 else -2)) 0 10 = c at u1 u2 hb hle
    apply ih
    · have h2 : (st.Update s.1 s.2 geFloat).IsIdle = false := by
        rw [u2]
        have hne : ¬ c = 10 := by
          push_cast at hlen
          omega
        by_cases h00 : c = 0
        · simp [hne, h00]
        · simp only [hne, h00, if_false]
          exact h
      exact h2
    · rw [u1]
      exact hb.1
    · rw [u1]
      push_cast at hlen ⊢
      omega

theorem updates_idle_samples (geFloat : F32 → F32 → Bool) (samples : List (Bool × F32)) :
    ∀ (st : IdleDetection), 0 ≤ st.m_IdleSmoother → (∀ s ∈ samples, s.1 = true) →
      10 ≤ st.m_IdleSmoother + samples.length → samples ≠ [] →
      (IdleDetection.updates geFloat st samples).IsIdle = true
      ∧ (IdleDetection.updates geFloat st samples).m_IdleSmoother = 10 := by
  induction samples with
  | nil =>
    intro st _ _ _ hne
    exact absurd rfl hne
  | cons s rest ih =>
    intro st h0 hall hlen _
    simp only [List.length_cons] at hlen
    have hs : s.1 = true := hall s (List.mem_cons_self _ _)
    obtain ⟨u1, u2⟩ := Update_spec st s.1 s.2 geFloat
    rw [hs] at u1 u2
    simp only [if_true] at u1
    have hb := Clamp_bounds (st.m_IdleSmoother + 1)
    have hc : Clamp (st.m_IdleSmoother + 1) 0 10 = min 10 (st.m_IdleSmoother + 1) := by
      unfold Clamp
      split_ifs <;> omega
    cases rest with
    | nil =>
      simp only [List.length_nil] at hlen
      have h10 : (st.Update true s.2 geFloat).m_IdleSmoother = 10 := by
        rw [u1, hc]
        push_cast at hlen
        omega
      simp only [IdleDetection.updates, hs]
      refine ⟨?_, h10⟩
      rw [u2, h10]
      rfl
    | cons r rest2 =>
      simp only [IdleDetection.updates, hs] at ih ⊢
      apply ih
      · rw [u1]
        exact hb.1
      · intro x hx
        exact hall x (List.mem_cons_of_mem _ hx)
      · rw [u1, hc]
        simp only [List.length_cons] at hlen ⊢
        push_cast at hlen ⊢
        omega
      · exact List.cons_ne_nil _ _

theorem updates_stays_idle (geFloat : F32 → F32 → Bool) (samples : List (Bool × F32)) :
    ∀ (st : IdleDetection), st.m_IsIdle = true → st.m_IdleSmoother ≤ 10 →
      0 < st.m_IdleSmoother - 2 * samples.length →
      (IdleDetection.updates geFloat st samples).IsIdle = true := by
  induction samples with
  | nil =>
    intro st h _ _
    exact h
  | cons s rest ih =>
    intro st h h10 hlen
    simp only [List.length_cons] at hlen
    obtain ⟨u1, u2⟩ := Update_spec st s.1 s.2 geFloat
    have hb := Clamp_bounds (st.m_IdleSmoother + (if s.1 then 1 else -2))
    have hge : st.m_IdleSmoother - 2
        ≤ Clamp (st.m_IdleSmoother + (if s.1 then 1 else -2)) 0 10 := by
      unfold Clamp
      cases s.1 <;> simp only [Bool.false_eq_true, if_false, if_true] <;> split_ifs <;> omega
    rw [u1] at u2
    generalize Clamp (st.m_IdleSmoother + (if s.1 then 1 else -2)) 0 10 = c at u1 u2 hb hge
    apply ih
    · have h2 : (st.Update s.1 s.2 geFloat).IsIdle = true := by
        rw [u2]
        have hne : ¬ c = 0 := by
          push_cast at hlen
          omega
        by_cases hc10 : c = 10
        · simp [hc10]
        · simp only [hne, hc10, if_false]
          exact h
      exact h2
    · rw [u1]
      exact hb.2
    · rw [u1]
      push_cast at hlen ⊢
      omega

theorem updates_busy_samples (geFloat : F32 → F32 → Bool) (samples : List (Bool × F32)) :
    ∀ (st : IdleDetection), st.m_IdleSmoother ≤ 10 → (∀ s ∈ samples, s.1 = false) →
      st.m_IdleSmoother ≤ 2 * samples.length → samples ≠ [] →
      (IdleDetection.updates geFloat st samples).IsIdle = false
      ∧ (IdleDetection.updates geFloat st samples).m_IdleSmoother = 0 := by
  induction samples with
  | nil =>
    intro st _ _ _ hne
    exact absurd rfl hne
  | cons s rest ih =>
    intro st h0 hall hlen _
    simp only [List.length_cons] at hlen
    have hs : s.1 = false := hall s (List.mem_cons_self _ _)
    obtain ⟨u1, u2⟩ := Update_spec st s.1 s.2 geFloat
    rw [hs] at u1 u2
    simp only [Bool.false_eq_true, if_false] at u1
    have hb := Clamp_bounds (st.m_IdleSmoother + -2)
    have hc : Clamp (st.m_IdleSmoother + -2) 0 10 = max 0 (st.m_IdleSmoother - 2) := by
      unfold Clamp
      split_ifs <;> omega
    cases rest with
    | nil =>
      simp only [List.length_nil] at hlen
      have h00 : (st.Update false s.2 geFloat).m_IdleSmoother = 0 := by
        rw [u1, hc]
        push_cast at hlen
        omega
      simp only [IdleDetection.updates, hs]
      refine ⟨?_, h00⟩
      rw [u2, h00]
      rfl
    | cons r rest2 =>
      simp only [IdleDetection.updates, hs] at ih ⊢
      apply ih
      · rw [u1]
        exact hb.2
      · intro x hx
        exact hall x (List.mem_cons_of_mem _ hx)
      · rw [u1, hc]
        simp only [List.length_cons] at hlen ⊢
        push_cast at hlen ⊢
        omega
      · exact List.cons_ne_nil _ _

/-- C27: every `Update` adds 1 to the smoother counter on an idle sample and subtracts 2 on
a non-idle sample and clamps it, so that it lies from 0 to 10 afterwards; `IsIdle` is true
after an `Update` that leaves the counter at 10, false after one that leaves it at 0 and
otherwise keeps its value. From the constructed state no sequence of fewer than 10 samples
makes `IsIdle` true and 10 idle samples do; from a counter of 10 with `IsIdle` true no
sequence of fewer than 5 samples makes `IsIdle` false and 5 non-idle samples do. -/
theorem C27_idle_smoother (geFloat : F32 → F32 → Bool) :
    (∀ (st : IdleDetection) (sample : Bool) (idleCurrent : F32),
        (st.Update sample idleCurrent geFloat).m_IdleSmoother
            = Clamp (st.m_IdleSmoother + (if sample then 1 else -2)) 0 10
        ∧ 0 ≤ (st.Update sample idleCurrent geFloat).m_IdleSmoother
        ∧ (st.Update sample idleCurrent geFloat).m_IdleSmoother ≤ 10
        ∧ (st.Update sample idleCurrent geFloat).IsIdle
            = (if (st.Update sample idleCurrent geFloat).m_IdleSmoother = 10 then true
               else if (st.Update sample idleCurrent geFloat).m_IdleSmoother = 0 then false
               else st.IsIdle))
    ∧ (∀ (currentId : Nat) (handle : Option Nat) (samples : List (Bool × F32)),
        (samples.length < 10 →
          (IdleDetection.updates geFloat (IdleDetection.new currentId handle) samples).IsIdle
            = false)
        ∧ (samples.length = 10 → (∀ s ∈ samples, s.1 = true) →
          (IdleDetection.updates geFloat (IdleDetection.new currentId handle) samples).IsIdle
            = true))
    ∧ (∀ (st : IdleDetection) (samples : List (Bool × F32)),
        st.m_IdleSmoother = 10 → st.IsIdle = true →
        (samples.length < 5 → (IdleDetection.updates geFloat st samples).IsIdle = true)
        ∧ (samples.length = 5 → (∀ s ∈ samples, s.1 = false) →
            (IdleDetection.updates geFloat st samples).IsIdle = false)) := by
  refine ⟨?_, ?_, ?_⟩
  · intro st sample idleCurrent
    obtain ⟨u1, u2⟩ := Update_spec st sample idleCurrent geFloat
    have hb := Clamp_bounds (st.m_IdleSmoother + (if sample then 1 else -2))
    rw [← u1] at hb
    exact ⟨u1, hb.1, hb.2, u2⟩
  · intro currentId handle samples
    constructor
    · intro hlen
      apply updates_stays_not_idle geFloat samples _ rfl
      · exact Int.le_refl 0
      · simp only [IdleDetection.new]
        omega
    · intro hlen hall
      refine (updates_idle_samples geFloat samples _ (Int.le_refl 0) hall ?_ ?_).1
      · simp only [IdleDetection.new]
        omega
      · intro hnil
        rw [hnil] at hlen
        simp at hlen
  · intro st samples h10 hidle
    constructor
    · intro hlen
      apply updates_stays_idle geFloat samples st hidle (by omega)
      omega
    · intro hlen hall
      refine (updates_busy_samples geFloat samples st (by omega) hall (by omega) ?_).1
      intro hnil
      rw [hnil] at hlen
      simp at hlen

/-! ### Argument helper -/

theorem StripQuotes_singleton (c : Char) :
    Args.StripQuotes [c] = if isQuoteChar c then [] else [c] := by
  cases h : isQuoteChar c <;> simp [Args.StripQuotes, h]

theorem StripQuotes_two_or_more (c d : Char) (mid : List Char) :
    Args.StripQuotes (c :: (mid ++ [d]))
      = (if isQuoteChar c then [] else [c]) ++ mid ++ (if isQuoteChar d then [] else [d]) := by
  have hlast : (c :: (mid ++ [d])).getD ((c :: (mid ++ [d])).length - 1) ' ' = d := by
    simp [List.getD_eq_getElem?_getD, List.getElem?_cons, List.getElem?_append_right]
  unfold Args.StripQuotes
  simp only [hlast]
  cases hc : isQuoteChar c <;> cases hd : isQuoteChar d <;>
    simp [hc, hd, List.take_append_eq_append_take]

/-- C28: `StripQuotes` gives the empty string for the empty range and for a range made of
one quote character; otherwise it removes the first character if it is a quote (single or
double) and, independently, the last character if it is a quote, and copies the characters
in between unchanged. So at most one quote is removed at each end, a leading double quote
and a trailing single quote are both removed, and a range that neither starts nor ends with
a quote is returned as it is. -/
theorem C28_strip_quotes :
    Args.StripQuotes [] = []
    ∧ (∀ c, Args.StripQuotes [c] = if isQuoteChar c then [] else [c])
    ∧ (∀ c d mid, Args.StripQuotes (c :: (mid ++ [d]))
        = (if isQuoteChar c then [] else [c]) ++ mid ++ (if isQuoteChar d then [] else [d]))
    ∧ (∀ s, (∀ c, s.head? = some c → isQuoteChar c = false) →
        (∀ d, s.getLast? = some d → isQuoteChar d = false) → Args.StripQuotes s = s)
    ∧ (∀ mid, Args.StripQuotes (Char.ofNat 34 :: (mid ++ [Char.ofNat 39])) = mid)
    ∧ (∀ c, isQuoteChar c = true ↔ (c = Char.ofNat 34 ∨ c = Char.ofNat 39)) := by
  refine ⟨rfl, StripQuotes_singleton, StripQuotes_two_or_more, ?_, ?_, ?_⟩
  · intro s hfirst hlast
    cases s with
    | nil => rfl
    | cons c rest =>
      have hc : isQuoteChar c = false := hfirst c rfl
      rcases List.eq_nil_or_concat rest with rfl | ⟨mid, d, rfl⟩
      · rw [StripQuotes_singleton, hc]
        rfl
      · rw [List.concat_eq_append] at hlast ⊢
        have hd : isQuoteChar d = false := by
          apply hlast d
          rw [show c :: (mid ++ [d]) = (c :: mid) ++ [d] from rfl]
          exact List.getLast?_concat _
        rw [StripQuotes_two_or_more, hc, hd]
        simp
  · intro mid
    rw [StripQuotes_two_or_more]
    simp [isQuoteChar]
  · intro c
    simp [isQuoteChar]

/-! ### Process tracking -/

theorem sortedAppend_perm {α : Type} (key : α → Nat) (x : α) (l : List α) :
    (sortedAppend key x l).Perm (x :: l) := by
  induction l with
  | nil => exact List.Perm.refl _
  | cons y rest ih =>
    unfold sortedAppend
    split
    · exact (List.Perm.cons y ih).trans (List.Perm.swap x y rest)
    · exact List.Perm.refl _

theorem mem_sortedAppend {α : Type} (key : α → Nat) (x y : α) (l : List α) :
    y ∈ sortedAppend key x l ↔ y = x ∨ y ∈ l := by
  rw [(sortedAppend_perm key x l).mem_iff, List.mem_cons]

theorem map_storeProcess (info : ProcessInfo) (ps : List ProcessInfo) :
    (storeProcess info ps).map (fun p => p.m_PID) = ps.map (fun p => p.m_PID) := by
  induction ps with
  | nil => rfl
  | cons p rest ih =>
    unfold storeProcess
    split
    · rename_i h
      simp [h]
    · simp [ih]

theorem mem_storeProcess (info : ProcessInfo) (ps : List ProcessInfo)
    (hnd : (ps.map (fun p => p.m_PID)).Nodup) (q : ProcessInfo) :
    q ∈ storeProcess info ps ↔
      (q = info ∧ info.m_PID ∈ ps.map (fun p => p.m_PID))
      ∨ (q ∈ ps ∧ q.m_PID ≠ info.m_PID) := by
  induction ps with
  | nil => simp [storeProcess]
  | cons p rest ih =>
    have hnd2 : (rest.map (fun p => p.m_PID)).Nodup := (List.nodup_cons.mp hnd).2
    have hnot : p.m_PID ∉ rest.map (fun p => p.m_PID) := (List.nodup_cons.mp hnd).1
    unfold storeProcess
    by_cases h : p.m_PID = info.m_PID
    · simp only [h, if_true, List.mem_cons, List.map_cons, true_or, and_true]
      constructor
      · rintro (rfl | hq)
        · exact Or.inl rfl
        · right
          refine ⟨Or.inr hq, ?_⟩
          intro heq
          apply hnot
          rw [h, ← heq]
          exact List.mem_map_of_mem _ hq
      · rintro (rfl | ⟨hq | hq, hne⟩)
        · exact Or.inl rfl
        · rw [hq, h] at hne
          exact absurd rfl hne
        · exact Or.inr hq
    · simp only [h, if_false, List.mem_cons, List.map_cons, ih hnd2]
      constructor
      · rintro (rfl | ⟨rfl, hin⟩ | ⟨hq, hne⟩)
        · exact Or.inr ⟨Or.inl rfl, h⟩
        · exact Or.inl ⟨rfl, Or.inr hin⟩
        · exact Or.inr ⟨Or.inr hq, hne⟩
      · rintro (⟨rfl, hin | hin⟩ | ⟨rfl | hq, hne⟩)
        · exact absurd hin.symm h
        · exact Or.inr (Or.inl ⟨rfl, hin⟩)
        · exact Or.inl rfl
        · exact Or.inr (Or.inr ⟨hq, hne⟩)

theorem findProcess_some (ps : List ProcessInfo) (pid : Nat) (info : ProcessInfo)
    (h : findProcess ps pid = some info) : info ∈ ps ∧ info.m_PID = pid := by
  unfold findProcess at h
  refine ⟨List.mem_of_find?_eq_some h, ?_⟩
  have := List.find?_some h
  simpa using this

theorem findProcess_none (ps : List ProcessInfo) (pid : Nat)
    (h : findProcess ps pid = none) : pid ∉ ps.map (fun p => p.m_PID) := by
  unfold findProcess at h
  rw [List.find?_eq_none] at h
  intro hin
  obtain ⟨p, hp, rfl⟩ := List.mem_map.mp hin
  exact h p hp (by simp)

theorem eraseBlocking_pids (bl : List BlockingProcessInfo) (pid : Nat)
    (hnd : (bl.map (fun b => b.m_PID)).Nodup) (q : Nat) :
    q ∈ (eraseBlocking bl pid).map (fun b => b.m_PID)
      ↔ q ≠ pid ∧ q ∈ bl.map (fun b => b.m_PID) := by
  induction bl with
  | nil => simp [eraseBlocking]
  | cons b rest ih =>
    have hnd2 : (rest.map (fun b => b.m_PID)).Nodup := (List.nodup_cons.mp hnd).2
    have hnot : b.m_PID ∉ rest.map (fun b => b.m_PID) := (List.nodup_cons.mp hnd).1
    unfold eraseBlocking at ih ⊢
    by_cases h : b.m_PID = pid
    · have hb : (b.m_PID == pid) = true := by simp [h]
      simp only [List.eraseP_cons, hb, cond_true, List.map_cons, List.mem_cons]
      constructor
      · intro hq
        refine ⟨?_, Or.inr hq⟩
        intro heq
        apply hnot
        rw [h, ← heq]
        exact hq
      · rintro ⟨hne, hq | hq⟩
        · rw [hq, h] at hne
          exact absurd rfl hne
        · exact hq
    · have hb : (b.m_PID == pid) = false := by simp [h]
      simp only [List.eraseP_cons, hb, cond_false, List.map_cons, List.mem_cons, ih hnd2]
      constructor
      · rintro (rfl | ⟨hne, hq⟩)
        · exact ⟨h, Or.inl rfl⟩
        · exact ⟨hne, Or.inr hq⟩
      · rintro ⟨hne, rfl | hq⟩
        · exact Or.inl rfl
        · exact Or.inr ⟨hne, hq⟩

theorem eraseBlocking_nodup (bl : List BlockingProcessInfo) (pid : Nat)
    (hnd : (bl.map (fun b => b.m_PID)).Nodup) :
    ((eraseBlocking bl pid).map (fun b => b.m_PID)).Nodup := by
  unfold eraseBlocking
  exact hnd.sublist ((List.eraseP_sublist bl).map _)

theorem mem_trackedBlockingPids (st : IdleDetection) (pid : Nat) :
    pid ∈ st.trackedBlockingPids
      ↔ ∃ p ∈ st.m_Processes, p.m_PID = pid ∧ p.m_Flags.FLAG_BLOCKING = true := by
  unfold IdleDetection.trackedBlockingPids
  simp only [List.mem_map, List.mem_filter]
  constructor
  · rintro ⟨p, ⟨hp, hb⟩, rfl⟩
    exact ⟨p, hp, rfl, hb⟩
  · rintro ⟨p, hp, rfl, hb⟩
    exact ⟨p, ⟨hp, hb⟩, rfl⟩

theorem wasBlocking_iff (st : IdleDetection) (pid : Nat) (was isNew : Bool)
    (hinv : st.processListsConsistent)
    (hnew : isNew = true → pid ∉ st.m_Processes.map (fun p => p.m_PID) ∧ was = false)
    (hold : isNew = false → ∃ info0 ∈ st.m_Processes, info0.m_PID = pid
      ∧ was = info0.m_Flags.FLAG_BLOCKING) :
    (pid ∈ st.blockingPids ↔ was = true) := by
  obtain ⟨hnd, -, h3⟩ := hinv
  rw [h3, mem_trackedBlockingPids]
  cases hn : isNew with
  | true =>
    obtain ⟨hnot, hw⟩ := hnew hn
    rw [hw]
    constructor
    · rintro ⟨p, hp, hpid, -⟩
      exact absurd (List.mem_map.mpr ⟨p, hp, hpid⟩) hnot
    · intro h
      exact absurd h (by simp)
  | false =>
    obtain ⟨info0, hin, hpid, hw⟩ := hold hn
    rw [hw]
    constructor
    · rintro ⟨p, hp, hpp, hb⟩
      have : p = info0 :=
        List.inj_on_of_nodup_map hnd hp hin (hpp.trans hpid.symm)
      rw [← this]
      exact hb
    · intro hb
      exact ⟨info0, hin, hpid, hb⟩

theorem mark_spec (added removed : List Nat) (st : IdleDetection) (e : SnapshotEntry)
    (info : ProcessInfo) (was isNew : Bool) (isB : Bool)
    (hinv : st.processListsConsistent)
    (hpid : info.m_PID = e.th32ProcessID)
    (hnew : isNew = true → e.th32ProcessID ∉ st.m_Processes.map (fun p => p.m_PID)
      ∧ was = false)
    (hold : isNew = false → ∃ info0 ∈ st.m_Processes, info0.m_PID = e.th32ProcessID
      ∧ was = info0.m_Flags.FLAG_BLOCKING)
    (hB : isB = (if removed.contains e.th32ProcessID then false
      else if added.contains e.th32ProcessID then true else info.m_Flags.FLAG_BLOCKING)) :
    ((IdleDetection.UpdateProcessList.mark added removed st e info was isNew).m_Processes.map
        (fun p => p.m_PID)).Nodup
    ∧ (IdleDetection.UpdateProcessList.mark added removed st e info was isNew).blockingPids.Nodup
    ∧ (∀ q, q ∈ (IdleDetection.UpdateProcessList.mark added removed st e info was
          isNew).blockingPids
        ↔ (q = e.th32ProcessID ∧ isB = true)
          ∨ (q ≠ e.th32ProcessID ∧ q ∈ st.blockingPids))
    ∧ (∀ q, q ∈ (IdleDetection.UpdateProcessList.mark added removed st e info was
          isNew).trackedBlockingPids
        ↔ (q = e.th32ProcessID ∧ isB = true)
          ∨ (q ≠ e.th32ProcessID ∧ q ∈ st.trackedBlockingPids)) := by
  have hwas := wasBlocking_iff st e.th32ProcessID was isNew hinv hnew hold
  obtain ⟨hnd, hnb, h3⟩ := hinv
  have hflag : (if removed.contains e.th32ProcessID = true then false
      else if added.contains e.th32ProcessID = true then true
        else info.m_Flags.FLAG_BLOCKING) = isB := hB.symm
  unfold IdleDetection.UpdateProcessList.mark
  simp only [hflag]
  refine ⟨?_, ?_, ?_, ?_⟩
  · -- tracked PIDs stay distinct
    cases hn : isNew with
    | true =>
      simp only [if_true]
      have hp := (sortedAppend_perm (fun p : ProcessInfo => p.m_PID)
        { info with m_Flags := { info.m_Flags with FLAG_BLOCKING := isB } }
        st.m_Processes).map (fun p => p.m_PID)
      rw [hp.nodup_iff]
      simp only [List.map_cons, List.nodup_cons]
      exact ⟨by rw [hpid]; exact (hnew hn).1, hnd⟩
    | false =>
      simp only [Bool.false_eq_true, if_false, map_storeProcess]
      exact hnd
  · -- blocking PIDs stay distinct
    unfold IdleDetection.blockingPids
    simp only []
    by_cases hch : (was != isB) = true
    · simp only [hch, if_true]
      cases hb : isB with
      | true =>
        simp only [if_true]
        have hp := (sortedAppend_perm (fun b : BlockingProcessInfo => b.m_PID)
          { m_PID := e.th32ProcessID, m_Name := e.szExeFile }
          st.m_BlockingProcesses).map (fun b => b.m_PID)
        rw [hp.nodup_iff]
        simp only [List.map_cons, List.nodup_cons]
        refine ⟨?_, hnb⟩
        intro hin
        have hw : was = true := hwas.mp hin
        rw [hw, hb] at hch
        simp at hch
      | false =>
        simp only [Bool.false_eq_true, if_false]
        exact eraseBlocking_nodup _ _ hnb
    · simp only [hch, if_false]
      exact hnb
  · -- membership in the blocking list
    intro q
    unfold IdleDetection.blockingPids
    simp only []
    by_cases hch : (was != isB) = true
    · simp only [hch, if_true]
      cases hb : isB with
      | true =>
        simp only [if_true]
        have hp := (sortedAppend_perm (fun b : BlockingProcessInfo => b.m_PID)
          { m_PID := e.th32ProcessID, m_Name := e.szExeFile }
          st.m_BlockingProcesses).map (fun b => b.m_PID)
        rw [hp.mem_iff]
        simp only [List.map_cons, List.mem_cons, and_true]
        constructor
        · rintro (h | h)
          · exact Or.inl h
          · by_cases hq : q = e.th32ProcessID
            · exact Or.inl hq
            · exact Or.inr ⟨hq, h⟩
        · rintro (h | ⟨-, h⟩)
          · exact Or.inl h
          · exact Or.inr h
      | false =>
        simp only [Bool.false_eq_true, if_false, and_false, false_or]
        exact eraseBlocking_pids _ _ hnb q
    · simp only [hch, if_false]
      have heq : was = isB := by
        by_contra hne
        apply hch
        cases was <;> cases isB <;> first | rfl | exact absurd rfl hne
      constructor
      · intro h
        by_cases hq : q = e.th32ProcessID
        · left
          refine ⟨hq, ?_⟩
          rw [← heq]
          apply hwas.mp
          rw [← hq]
          exact h
        · exact Or.inr ⟨hq, h⟩
      · rintro (⟨hq, hb⟩ | ⟨-, h⟩)
        · rw [hq]
          apply hwas.mpr
          rw [heq]
          exact hb
        · exact h
  · -- membership among the tracked blocking processes
    intro q
    rw [mem_trackedBlockingPids, mem_trackedBlockingPids]
    cases hn : isNew with
    | true =>
      simp only [if_true, mem_sortedAppend]
      obtain ⟨hnot, -⟩ := hnew hn
      constructor
      · rintro ⟨p, hp | hp, hpq, hb⟩
        · rw [hp] at hpq hb
          exact Or.inl ⟨by rw [← hpq]; exact hpid, hb⟩
        · right
          refine ⟨?_, p, hp, hpq, hb⟩
          intro hq
          apply hnot
          rw [← hq, ← hpq]
          exact List.mem_map_of_mem _ hp
      · rintro (⟨hq, hb⟩ | ⟨-, p, hp, hpq, hb⟩)
        · exact ⟨_, Or.inl rfl, by rw [hq]; exact hpid, hb⟩
        · exact ⟨p, Or.inr hp, hpq, hb⟩
    | false =>
      simp only [Bool.false_eq_true, if_false]
      obtain ⟨info0, hin0, hpid0, -⟩ := hold hn
      have hmem := mem_storeProcess
        { info with m_Flags := { info.m_Flags with FLAG_BLOCKING := isB } }
        st.m_Processes hnd
      constructor
      · rintro ⟨p, hp, hpq, hb⟩
        rcases (hmem p).mp hp with ⟨rfl, -⟩ | ⟨hp2, hne⟩
        · exact Or.inl ⟨by rw [← hpq]; exact hpid, hb⟩
        · right
          refine ⟨?_, p, hp2, hpq, hb⟩
          intro hq
          apply hne
          rw [hpq, hq]
          exact hpid.symm
      · rintro (⟨hq, hb⟩ | ⟨hq, p, hp, hpq, hb⟩)
        · refine ⟨_, (hmem _).mpr (Or.inl ⟨rfl, ?_⟩), by rw [hq]; exact hpid, hb⟩
          show info.m_PID ∈ _
          rw [hpid, ← hpid0]
          exact List.mem_map_of_mem _ hin0
        · refine ⟨p, (hmem p).mpr (Or.inr ⟨hp, ?_⟩), hpq, hb⟩
          show p.m_PID ≠ info.m_PID
          rw [hpq, hpid]
          exact hq

theorem track_spec (names : List String) (alive : Nat) (st : IdleDetection)
    (e : SnapshotEntry) (info : ProcessInfo) (was isNew : Bool)
    (h : IdleDetection.UpdateProcessList.track names alive st e = some (info, was, isNew)) :
    info.m_PID = e.th32ProcessID
    ∧ (isNew = true → e.th32ProcessID ∉ st.m_Processes.map (fun p => p.m_PID)
        ∧ was = false)
    ∧ (isNew = false → ∃ info0 ∈ st.m_Processes, info0.m_PID = e.th32ProcessID
        ∧ was = info0.m_Flags.FLAG_BLOCKING ∧ info.m_Flags = info0.m_Flags) := by
  unfold IdleDetection.UpdateProcessList.track at h
  cases hf : findProcess st.m_Processes e.th32ProcessID with
  | some info0 =>
    obtain ⟨hin, hpid⟩ := findProcess_some _ _ _ hf
    simp only [hf, Option.some.injEq, Prod.mk.injEq] at h
    obtain ⟨h1, h2, h3⟩ := h
    subst h1 h2 h3
    refine ⟨hpid, ?_, ?_⟩
    · intro hc
      exact absurd hc (by simp)
    · intro _
      exact ⟨info0, hin, hpid, rfl, rfl⟩
  | none =>
    have hnot := findProcess_none _ _ hf
    simp only [hf] at h
    split at h
    · split at h
      · simp only [Option.some.injEq, Prod.mk.injEq] at h
        obtain ⟨h1, h2, h3⟩ := h
        subst h1 h2 h3
        exact ⟨rfl, fun _ => ⟨hnot, rfl⟩, fun hc => absurd hc (by simp)⟩
      · exact absurd h (by simp)
    · simp only [Option.some.injEq, Prod.mk.injEq] at h
      obtain ⟨h1, h2, h3⟩ := h
      subst h1 h2 h3
      exact ⟨rfl, fun _ => ⟨hnot, rfl⟩, fun hc => absurd hc (by simp)⟩

theorem track_none (names : List String) (alive : Nat) (st : IdleDetection)
    (e : SnapshotEntry)
    (h : IdleDetection.UpdateProcessList.track names alive st e = none) :
    e.th32ProcessID ∉ st.m_Processes.map (fun p => p.m_PID) := by
  unfold IdleDetection.UpdateProcessList.track at h
  cases hf : findProcess st.m_Processes e.th32ProcessID with
  | some info0 =>
    simp [hf] at h
  | none => exact findProcess_none _ _ hf

theorem entry_spec (names : List String) (added removed : List Nat) (alive : Nat)
    (st : IdleDetection) (e : SnapshotEntry) (hinv : st.processListsConsistent) :
    (IdleDetection.UpdateProcessList.entry names added removed alive st e).processListsConsistent
    ∧ (∀ q, q ≠ e.th32ProcessID →
        (q ∈ (IdleDetection.UpdateProcessList.entry names added removed alive st e).blockingPids
          ↔ q ∈ st.blockingPids))
    ∧ (e.th32ProcessID ∈ removed →
        e.th32ProcessID ∉
          (IdleDetection.UpdateProcessList.entry names added removed alive st e).blockingPids)
    ∧ (∀ p ∈ st.m_Processes, p.m_Flags.FLAG_SELF = true →
        ∃ p2 ∈ (IdleDetection.UpdateProcessList.entry names added removed alive st
            e).m_Processes,
          p2.m_PID = p.m_PID ∧ p2.m_Flags.FLAG_SELF = true) := by
  unfold IdleDetection.UpdateProcessList.entry
  cases ht : IdleDetection.UpdateProcessList.track names alive st e with
  | none =>
    simp only []
    have hnot := track_none names alive st e ht
    refine ⟨hinv, fun _ _ => by trivial, ?_, fun p hp hs => ⟨p, hp, rfl, hs⟩⟩
    intro _ hin
    rw [hinv.2.2, mem_trackedBlockingPids] at hin
    obtain ⟨p, hp, hpid, -⟩ := hin
    exact hnot (List.mem_map.mpr ⟨p, hp, hpid⟩)
  | some r =>
    obtain ⟨info, was, isNew⟩ := r
    simp only []
    obtain ⟨hpid, hnew, hold⟩ := track_spec names alive st e info was isNew ht
    have hold2 : isNew = false → ∃ info0 ∈ st.m_Processes, info0.m_PID = e.th32ProcessID
        ∧ was = info0.m_Flags.FLAG_BLOCKING := by
      intro hn
      obtain ⟨info0, h1, h2, h3, -⟩ := hold hn
      exact ⟨info0, h1, h2, h3⟩
    obtain ⟨m1, m2, m3, m4⟩ := mark_spec added removed st e info was isNew _ hinv hpid hnew
      hold2 rfl
    refine ⟨⟨m1, m2, ?_⟩, ?_, ?_, ?_⟩
    · intro q
      rw [m3, m4, hinv.2.2]
    · intro q hq
      rw [m3]
      constructor
      · rintro (⟨h, -⟩ | ⟨-, h⟩)
        · exact absurd h hq
        · exact h
      · intro h
        exact Or.inr ⟨hq, h⟩
    · intro hrem hin
      rw [m3] at hin
      have hc : removed.contains e.th32ProcessID = true := by
        simpa using hrem
      rcases hin with ⟨-, h⟩ | ⟨h, -⟩
      · rw [if_pos hc] at h
        exact absurd h (by simp)
      · exact h rfl
    · intro p hp hs
      unfold IdleDetection.UpdateProcessList.mark
      simp only []
      cases hn : isNew with
      | true =>
        simp only [if_true, mem_sortedAppend]
        exact ⟨p, Or.inr hp, rfl, hs⟩
      | false =>
        simp only [Bool.false_eq_true, if_false]
        obtain ⟨info0, hin0, hpid0, -, hflags⟩ := hold hn
        by_cases hpp : p.m_PID = e.th32ProcessID
        · have hp0 : p = info0 :=
            List.inj_on_of_nodup_map hinv.1 hp hin0 (hpp.trans hpid0.symm)
          refine ⟨_, (mem_storeProcess _ _ hinv.1 _).mpr (Or.inl ⟨rfl, ?_⟩), ?_, ?_⟩
          · show info.m_PID ∈ _
            rw [hpid, ← hpp]
            exact List.mem_map_of_mem _ hp
          · show info.m_PID = p.m_PID
            rw [hpid, hpp]
          · show info.m_Flags.FLAG_SELF = true
            rw [hflags, ← hp0]
            exact hs
        · refine ⟨p, (mem_storeProcess _ _ hinv.1 _).mpr (Or.inr ⟨hp, ?_⟩), rfl, hs⟩
          show p.m_PID ≠ info.m_PID
          rw [hpid]
          exact hpp

theorem entries_spec (names : List String) (added removed : List Nat) (alive : Nat)
    (entries : List SnapshotEntry) :
    ∀ (st : IdleDetection), st.processListsConsistent →
      (entries.foldl (IdleDetection.UpdateProcessList.entry names added removed alive)
          st).processListsConsistent
      ∧ (∀ q, q ∈ removed →
          q ∈ (entries.foldl (IdleDetection.UpdateProcessList.entry names added removed alive)
              st).blockingPids →
          q ∈ st.blockingPids ∧ ∀ e ∈ entries, e.th32ProcessID ≠ q)
      ∧ (∀ p ∈ st.m_Processes, p.m_Flags.FLAG_SELF = true →
          ∃ p2 ∈ (entries.foldl
              (IdleDetection.UpdateProcessList.entry names added removed alive) st).m_Processes,
            p2.m_PID = p.m_PID ∧ p2.m_Flags.FLAG_SELF = true) := by
  induction entries with
  | nil =>
    intro st hinv
    exact ⟨hinv, fun q _ h => ⟨h, fun e he => absurd he (List.not_mem_nil e)⟩,
      fun p hp hs => ⟨p, hp, rfl, hs⟩⟩
  | cons e rest ih =>
    intro st hinv
    obtain ⟨e1, e2, e3, e4⟩ := entry_spec names added removed alive st e hinv
    obtain ⟨i1, i2, i3⟩ := ih _ e1
    simp only [List.foldl_cons]
    refine ⟨i1, ?_, ?_⟩
    · intro q hq hin
      obtain ⟨h1, h2⟩ := i2 q hq hin
      have hne : e.th32ProcessID ≠ q := by
        intro heq
        rw [← heq] at h1 hq
        exact e3 hq h1
      refine ⟨(e2 q (Ne.symm hne)).mp h1, ?_⟩
      intro x hx
      rcases List.mem_cons.mp hx with rfl | hx
      · exact hne
      · exact h2 x hx
    · intro p hp hs
      obtain ⟨p2, hp2, hpid2, hs2⟩ := e4 p hp hs
      obtain ⟨p3, hp3, hpid3, hs3⟩ := i3 p2 hp2 hs2
      exact ⟨p3, hp3, hpid3.trans hpid2, hs3⟩

theorem prune_fst (alive : Nat) (ps : List ProcessInfo) (bl : List BlockingProcessInfo) :
    (IdleDetection.UpdateProcessList.prune alive ps bl).1
      = ps.filter (fun p => !(decide (p.m_AliveValue ≠ alive) && !p.m_Flags.FLAG_SELF)) := by
  induction ps with
  | nil => rfl
  | cons p rest ih =>
    unfold IdleDetection.UpdateProcessList.prune
    simp only []
    by_cases h : p.m_AliveValue ≠ alive ∧ p.m_Flags.FLAG_SELF = false
    · have hk : (!(decide (p.m_AliveValue ≠ alive) && !p.m_Flags.FLAG_SELF)) = false := by
        obtain ⟨h1, h2⟩ := h
        simp [h1, h2]
      rw [if_pos h, List.filter_cons, hk]
      exact ih
    · have hk : (!(decide (p.m_AliveValue ≠ alive) && !p.m_Flags.FLAG_SELF)) = true := by
        rw [not_and_or] at h
        rcases h with h | h
        · simp [h]
        · simp only [Bool.not_eq_false] at h
          simp [h]
      rw [if_neg h, List.filter_cons, hk, if_pos rfl]
      show p :: _ = p :: _
      rw [ih]

theorem prune_snd (alive : Nat) (ps : List ProcessInfo) (bl : List BlockingProcessInfo)
    (hnb : (bl.map (fun b => b.m_PID)).Nodup) :
    ((IdleDetection.UpdateProcessList.prune alive ps bl).2.map (fun b => b.m_PID)).Nodup
    ∧ ∀ q, q ∈ (IdleDetection.UpdateProcessList.prune alive ps bl).2.map (fun b => b.m_PID)
        ↔ q ∈ bl.map (fun b => b.m_PID)
          ∧ ¬ ∃ p ∈ ps, (p.m_AliveValue ≠ alive ∧ p.m_Flags.FLAG_SELF = false)
              ∧ p.m_Flags.FLAG_BLOCKING = true ∧ p.m_PID = q := by
  induction ps with
  | nil =>
    refine ⟨hnb, fun q => ?_⟩
    simp [IdleDetection.UpdateProcessList.prune]
  | cons p rest ih =>
    obtain ⟨i1, i2⟩ := ih
    unfold IdleDetection.UpdateProcessList.prune
    simp only []
    by_cases h : p.m_AliveValue ≠ alive ∧ p.m_Flags.FLAG_SELF = false
    · rw [if_pos h]
      cases hb : p.m_Flags.FLAG_BLOCKING with
      | true =>
        simp only [if_true]
        refine ⟨eraseBlocking_nodup _ _ i1, fun q => ?_⟩
        rw [eraseBlocking_pids _ _ i1, i2]
        constructor
        · rintro ⟨hne, hin, hno⟩
          refine ⟨hin, ?_⟩
          rintro ⟨x, hx, hd, hxb, hxq⟩
          rcases List.mem_cons.mp hx with rfl | hx
          · exact hne hxq.symm
          · exact hno ⟨x, hx, hd, hxb, hxq⟩
        · rintro ⟨hin, hno⟩
          refine ⟨?_, hin, ?_⟩
          · intro heq
            exact hno ⟨p, List.mem_cons_self _ _, h, hb, heq.symm⟩
          · rintro ⟨x, hx, hd, hxb, hxq⟩
            exact hno ⟨x, List.mem_cons_of_mem _ hx, hd, hxb, hxq⟩
      | false =>
        simp only [Bool.false_eq_true, if_false]
        refine ⟨i1, fun q => ?_⟩
        rw [i2]
        constructor
        · rintro ⟨hin, hno⟩
          refine ⟨hin, ?_⟩
          rintro ⟨x, hx, hd, hxb, hxq⟩
          rcases List.mem_cons.mp hx with rfl | hx
          · rw [hb] at hxb
            exact absurd hxb (by simp)
          · exact hno ⟨x, hx, hd, hxb, hxq⟩
        · rintro ⟨hin, hno⟩
          refine ⟨hin, ?_⟩
          rintro ⟨x, hx, hd, hxb, hxq⟩
          exact hno ⟨x, List.mem_cons_of_mem _ hx, hd, hxb, hxq⟩
    · rw [if_neg h]
      refine ⟨i1, fun q => ?_⟩
      rw [i2]
      constructor
      · rintro ⟨hin, hno⟩
        refine ⟨hin, ?_⟩
        rintro ⟨x, hx, hd, hxb, hxq⟩
        rcases List.mem_cons.mp hx with rfl | hx
        · exact h hd
        · exact hno ⟨x, hx, hd, hxb, hxq⟩
      · rintro ⟨hin, hno⟩
        refine ⟨hin, ?_⟩
        rintro ⟨x, hx, hd, hxb, hxq⟩
        exact hno ⟨x, List.mem_cons_of_mem _ hx, hd, hxb, hxq⟩

theorem prune_spec (alive : Nat) (st : IdleDetection) (hinv : st.processListsConsistent) :
    ({ st with
        m_Processes :=
          (IdleDetection.UpdateProcessList.prune alive st.m_Processes
            st.m_BlockingProcesses).1
        m_BlockingProcesses :=
          (IdleDetection.UpdateProcessList.prune alive st.m_Processes
            st.m_BlockingProcesses).2 } : IdleDetection).processListsConsistent
    ∧ (∀ q, q ∈ (IdleDetection.UpdateProcessList.prune alive st.m_Processes
          st.m_BlockingProcesses).2.map (fun b => b.m_PID) → q ∈ st.blockingPids)
    ∧ (∀ p ∈ st.m_Processes, p.m_Flags.FLAG_SELF = true →
        p ∈ (IdleDetection.UpdateProcessList.prune alive st.m_Processes
          st.m_BlockingProcesses).1) := by
  obtain ⟨hnd, hnb, h3⟩ := hinv
  obtain ⟨p1, p2⟩ := prune_snd alive st.m_Processes st.m_BlockingProcesses hnb
  refine ⟨⟨?_, p1, ?_⟩, ?_, ?_⟩
  · simp only [prune_fst]
    exact hnd.sublist ((List.filter_sublist _).map _)
  · intro q
    rw [mem_trackedBlockingPids]
    unfold IdleDetection.blockingPids
    simp only [p2, prune_fst, List.mem_filter]
    have h3q := h3 q
    rw [mem_trackedBlockingPids] at h3q
    unfold IdleDetection.blockingPids at h3q
    constructor
    · rintro ⟨hin, hno⟩
      obtain ⟨p, hp, hpq, hb⟩ := h3q.mp hin
      refine ⟨p, ⟨hp, ?_⟩, hpq, hb⟩
      by_contra hk
      apply hno
      refine ⟨p, hp, ?_, hb, hpq⟩
      by_contra hd
      apply hk
      rw [not_and_or] at hd
      rcases hd with hd | hd
      · simp [hd]
      · simp only [Bool.not_eq_false] at hd
        simp [hd]
    · rintro ⟨p, ⟨hp, hk⟩, hpq, hb⟩
      refine ⟨h3q.mpr ⟨p, hp, hpq, hb⟩, ?_⟩
      rintro ⟨x, hx, hd, -, hxq⟩
      have hxp : x = p := List.inj_on_of_nodup_map hnd hx hp (hxq.trans hpq.symm)
      rw [hxp] at hd
      simp [hd.1, hd.2] at hk
  · intro q hq
    exact ((p2 q).mp hq).1
  · intro p hp hs
    rw [prune_fst, List.mem_filter]
    exact ⟨hp, by simp [hs]⟩

theorem UpdateProcessList_spec (st : IdleDetection) (names : List String)
    (added removed : List Nat) (snapshot : Option (List SnapshotEntry))
    (hinv : st.processListsConsistent) :
    (st.UpdateProcessList names added removed snapshot).processListsConsistent
    ∧ (∀ entries q, snapshot = some entries → q ∈ removed →
        q ∈ (st.UpdateProcessList names added removed snapshot).blockingPids →
        q ∈ st.blockingPids ∧ ∀ e ∈ entries, e.th32ProcessID ≠ q)
    ∧ (∀ p ∈ st.m_Processes, p.m_Flags.FLAG_SELF = true →
        ∃ p2 ∈ (st.UpdateProcessList names added removed snapshot).m_Processes,
          p2.m_PID = p.m_PID ∧ p2.m_Flags.FLAG_SELF = true) := by
  have hinv0 : ({ st with sAliveValue := (st.sAliveValue + 1) % 65536 } :
      IdleDetection).processListsConsistent := hinv
  cases snapshot with
  | none =>
    refine ⟨hinv, ?_, ?_⟩
    · intro entries q hs
      exact absurd hs (by simp)
    · intro p hp hs
      exact ⟨p, hp, rfl, hs⟩
  | some entries =>
    obtain ⟨f1, f2, f3⟩ := entries_spec names added removed ((st.sAliveValue + 1) % 65536)
      entries _ hinv0
    obtain ⟨p1, p2, p3⟩ := prune_spec ((st.sAliveValue + 1) % 65536) _ f1
    refine ⟨p1, ?_, ?_⟩
    · intro entries2 q hs hq hin
      simp only [Option.some.injEq] at hs
      subst hs
      exact f2 q hq (p2 q hin)
    · intro p hp hs
      obtain ⟨x, hx, hxp, hxs⟩ := f3 p hp hs
      exact ⟨x, p3 x hx hxs, hxp, hxs⟩

theorem new_consistent (currentId : Nat) (handle : Option Nat) :
    (IdleDetection.new currentId handle).processListsConsistent := by
  refine ⟨?_, ?_, ?_⟩
  · simp [IdleDetection.new]
  · simp [IdleDetection.new, IdleDetection.blockingPids]
  · intro pid
    simp [IdleDetection.new, IdleDetection.blockingPids, IdleDetection.trackedBlockingPids]

theorem processListCalls_spec (calls : List ProcessListCall) :
    ∀ (st : IdleDetection), st.processListsConsistent →
      (IdleDetection.processListCalls st calls).processListsConsistent
      ∧ (∀ p ∈ st.m_Processes, p.m_Flags.FLAG_SELF = true →
          ∃ p2 ∈ (IdleDetection.processListCalls st calls).m_Processes,
            p2.m_PID = p.m_PID ∧ p2.m_Flags.FLAG_SELF = true) := by
  induction calls with
  | nil =>
    intro st hinv
    exact ⟨hinv, fun p hp hs => ⟨p, hp, rfl, hs⟩⟩
  | cons call rest ih =>
    intro st hinv
    obtain ⟨u1, -, u3⟩ := UpdateProcessList_spec st call.blockingProcessNames
      call.addedBlockingPid call.removedBlockingPid call.snapshot hinv
    obtain ⟨i1, i2⟩ := ih _ u1
    refine ⟨i1, ?_⟩
    intro p hp hs
    obtain ⟨x, hx, hxp, hxs⟩ := u3 p hp hs
    obtain ⟨y, hy, hyp, hys⟩ := i2 x hx hxs
    exact ⟨y, hy, hyp.trans hxp, hys⟩

theorem consistent_count (st : IdleDetection) (hinv : st.processListsConsistent) :
    st.m_BlockingProcesses.length
      = (st.m_Processes.filter (fun p => p.m_Flags.FLAG_BLOCKING)).length := by
  obtain ⟨hnd, hnb, h3⟩ := hinv
  have hnt : st.trackedBlockingPids.Nodup :=
    hnd.sublist ((List.filter_sublist _).map _)
  have hperm : st.blockingPids.Perm st.trackedBlockingPids :=
    (List.perm_ext_iff_of_nodup hnb hnt).mpr h3
  have := hperm.length_eq
  simpa [IdleDetection.blockingPids, IdleDetection.trackedBlockingPids] using this

/-- C30 (as stated, refuted): the worker's own process (PID 100) is listed as blocking;
in the next call it is listed as both added and removed, but the snapshot does not name
it: it is still listed as blocking afterwards. -/
theorem C30_listed_pid_outside_snapshot_stays_blocking :
    (IdleDetection.afterCalls 100 (some 9) C30_calls).blockingPids = [100]
    ∧ ((IdleDetection.afterCalls 100 (some 9) C30_calls).UpdateProcessList [] [100] [100]
        (some [{ th32ProcessID := 4, th32ParentProcessID := 0, szExeFile := "System" }])
        ).blockingPids = [100] := by
  decide

/-- C30 (amended): after the constructor and any sequence of calls of `UpdateProcessList`,
whatever the blocking names, the added and removed PIDs and the snapshots: the PIDs listed
in `m_BlockingProcesses` are exactly the PIDs of the tracked processes with `FLAG_BLOCKING`
set, none listed or tracked twice, so `GetNumBlockingProcesses` is the number of tracked
blocking processes; the record of the worker's own process (`FLAG_SELF`) is still tracked;
and a further call leaves a PID listed as removed (also when it is listed as added)
non-blocking whenever the snapshot names it, and never makes it blocking when it was not. -/
theorem C30_blocking_list_matches_flags (currentId : Nat) (handle : Option Nat)
    (calls : List ProcessListCall) :
    (∀ pid, pid ∈ (IdleDetection.afterCalls currentId handle calls).blockingPids
        ↔ pid ∈ (IdleDetection.afterCalls currentId handle calls).trackedBlockingPids)
    ∧ (IdleDetection.afterCalls currentId handle calls).blockingPids.Nodup
    ∧ ((IdleDetection.afterCalls currentId handle calls).m_Processes.map
        (fun p => p.m_PID)).Nodup
    ∧ (IdleDetection.afterCalls currentId handle calls).GetNumBlockingProcesses
        = ((IdleDetection.afterCalls currentId handle calls).m_Processes.filter
            (fun p => p.m_Flags.FLAG_BLOCKING)).length % U32
    ∧ (∃ p ∈ (IdleDetection.afterCalls currentId handle calls).m_Processes,
        p.m_PID = currentId ∧ p.m_Flags.FLAG_SELF = true)
    ∧ (∀ (names : List String) (added removed : List Nat) (entries : List SnapshotEntry)
        (pid : Nat), pid ∈ removed →
        pid ∈ ((IdleDetection.afterCalls currentId handle calls).UpdateProcessList names added
            removed (some entries)).blockingPids →
        pid ∈ (IdleDetection.afterCalls currentId handle calls).blockingPids
          ∧ ∀ e ∈ entries, e.th32ProcessID ≠ pid) := by
  obtain ⟨hinv, hself⟩ := processListCalls_spec calls _ (new_consistent currentId handle)
  have hinv2 : (IdleDetection.afterCalls currentId handle calls).processListsConsistent := hinv
  refine ⟨hinv.2.2, hinv.2.1, hinv.1, ?_, ?_, ?_⟩
  · unfold IdleDetection.GetNumBlockingProcesses
    rw [consistent_count _ hinv2]
  · exact hself
      { m_PID := currentId, m_AliveValue := 0, m_ProcessHandle := handle, m_LastTime := 0,
        m_Flags := { FLAG_SELF := true, FLAG_IN_OUR_HIERARCHY := true } }
      (List.mem_singleton.mpr rfl) rfl
  · intro names added removed entries pid hrem hin
    exact (UpdateProcessList_spec _ names added removed (some entries) hinv).2.1 entries pid rfl
      hrem hin

end FBuild
